import Mathlib

/-!
# Verification development for the pre-trade risk server

Shallow embedding of `include/protocol.h`, `include/format.h`,
`include/risk_service.h` and `src/risk_service.cpp`.

* 64-bit unsigned values are natural numbers, every arithmetic operation
  reduces modulo `2^64`; `long long` values are integers in
  `[-2^63, 2^63)`, conversions between the two are two's complement.
  A `char` is the natural number of its code (66 for `B`, 83 for `S`).
* `std::unordered_map<uint64_t, V>` is a finite map kept as an association
  list with strictly increasing keys, so that two maps with the same
  bindings are equal.
* `std::string` is a list of characters; C++ exceptions are `Except.error`.
-/

namespace rs

/-! ## Finite maps (`std::unordered_map<uint64_t, V>`) -/

/-- Keys strictly increase along the association list. -/
def KeysSorted {α : Type} (l : List (Nat × α)) : Prop :=
  l.Pairwise (fun a b => a.1 < b.1)

/-- Lookup in an association list. -/
def findL {α : Type} (k : Nat) : List (Nat × α) → Option α
  | [] => none
  | p :: t => if k = p.1 then some p.2 else findL k t

/-- Insert or overwrite the binding of `k`, keeping the keys increasing. -/
def insertL {α : Type} (k : Nat) (v : α) : List (Nat × α) → List (Nat × α)
  | [] => [(k, v)]
  | p :: t =>
    if k < p.1 then (k, v) :: p :: t
    else if k = p.1 then (k, v) :: t
    else p :: insertL k v t

/-- Remove the binding of `k`. -/
def eraseL {α : Type} (k : Nat) : List (Nat × α) → List (Nat × α)
  | [] => []
  | p :: t => if k = p.1 then t else p :: eraseL k t

theorem findL_insertL {α : Type} (k : Nat) (v : α) (j : Nat) (l : List (Nat × α)) :
    findL j (insertL k v l) = if j = k then some v else findL j l := by
  induction l with
  | nil => simp [insertL, findL]
  | cons p t ih =>
    simp only [insertL]
    by_cases h1 : k < p.1
    · rw [if_pos h1]
      simp only [findL]
    · rw [if_neg h1]
      by_cases h2 : k = p.1
      · rw [if_pos h2]
        simp only [findL]
        by_cases h3 : j = k
        · rw [if_pos h3, if_pos h3]
        · rw [if_neg h3, if_neg h3, if_neg (fun e => h3 (e.trans h2.symm))]
      · rw [if_neg h2]
        simp only [findL, ih]
        by_cases h3 : j = p.1
        · rw [if_pos h3, if_neg (fun e => h2 (e.symm.trans h3)), if_pos h3]
        · rw [if_neg h3, if_neg h3]

theorem lt_of_mem_insertL {α : Type} (k : Nat) (v : α) (b : Nat) (l : List (Nat × α))
    (hk : b < k) (hl : ∀ q ∈ l, b < q.1) : ∀ q ∈ insertL k v l, b < q.1 := by
  induction l with
  | nil => intro q hq; simp [insertL] at hq; subst hq; exact hk
  | cons p t ih =>
    intro q hq
    simp only [insertL] at hq
    split_ifs at hq with h1 h2
    · rcases List.mem_cons.1 hq with rfl | hq
      · exact hk
      · exact hl _ hq
    · rcases List.mem_cons.1 hq with rfl | hq
      · exact hk
      · exact hl _ (List.mem_cons_of_mem _ hq)
    · rcases List.mem_cons.1 hq with rfl | hq
      · exact hl _ (List.mem_cons_self _ _)
      · exact ih (fun q hq => hl _ (List.mem_cons_of_mem _ hq)) q hq

theorem insertL_sorted {α : Type} (k : Nat) (v : α) (l : List (Nat × α))
    (h : KeysSorted l) : KeysSorted (insertL k v l) := by
  induction l with
  | nil => simp [insertL, KeysSorted]
  | cons p t ih =>
    unfold KeysSorted at h ih ⊢
    rw [List.pairwise_cons] at h
    simp only [insertL]
    split_ifs with h1 h2
    · rw [List.pairwise_cons]
      refine ⟨?_, List.pairwise_cons.2 h⟩
      intro q hq
      rcases List.mem_cons.1 hq with rfl | hq
      · exact h1
      · exact lt_trans h1 (h.1 q hq)
    · rw [List.pairwise_cons]
      exact ⟨fun q hq => h2 ▸ h.1 q hq, h.2⟩
    · rw [List.pairwise_cons]
      refine ⟨?_, ih h.2⟩
      exact lt_of_mem_insertL k v p.1 t (by omega) h.1

theorem mem_of_mem_eraseL {α : Type} (k : Nat) (l : List (Nat × α)) :
    ∀ q ∈ eraseL k l, q ∈ l := by
  induction l with
  | nil => intro q hq; simp [eraseL] at hq
  | cons p t ih =>
    intro q hq
    simp only [eraseL] at hq
    split_ifs at hq with h1
    · exact List.mem_cons_of_mem _ hq
    · rcases List.mem_cons.1 hq with rfl | hq
      · exact List.mem_cons_self _ _
      · exact List.mem_cons_of_mem _ (ih q hq)

theorem eraseL_sorted {α : Type} (k : Nat) (l : List (Nat × α))
    (h : KeysSorted l) : KeysSorted (eraseL k l) := by
  induction l with
  | nil => simp [eraseL, KeysSorted]
  | cons p t ih =>
    unfold KeysSorted at h ih ⊢
    rw [List.pairwise_cons] at h
    simp only [eraseL]
    split_ifs with h1
    · exact h.2
    · rw [List.pairwise_cons]
      exact ⟨fun q hq => h.1 q (mem_of_mem_eraseL k t q hq), ih h.2⟩

theorem findL_eq_none_of_lt {α : Type} (k : Nat) (l : List (Nat × α))
    (h : ∀ q ∈ l, k < q.1) : findL k l = none := by
  induction l with
  | nil => rfl
  | cons p t ih =>
    have hp := h p (List.mem_cons_self _ _)
    have : k ≠ p.1 := by omega
    simp only [findL, this, if_false]
    exact ih (fun q hq => h q (List.mem_cons_of_mem _ hq))

theorem findL_eraseL {α : Type} (k : Nat) (j : Nat) (l : List (Nat × α))
    (h : KeysSorted l) : findL j (eraseL k l) = if j = k then none else findL j l := by
  induction l with
  | nil => simp [eraseL, findL]
  | cons p t ih =>
    unfold KeysSorted at h ih
    rw [List.pairwise_cons] at h
    simp only [eraseL]
    by_cases h1 : k = p.1
    · rw [if_pos h1]
      by_cases h2 : j = k
      · rw [if_pos h2, h2, h1]
        exact findL_eq_none_of_lt _ t h.1
      · rw [if_neg h2]
        simp only [findL]
        rw [if_neg (fun e => h2 (e.trans h1.symm))]
    · rw [if_neg h1]
      simp only [findL, ih h.2]
      by_cases h3 : j = p.1
      · rw [if_pos h3, if_neg (fun e => h1 (e.symm.trans h3)), if_pos h3]
      · rw [if_neg h3, if_neg h3]

/-- Two sorted association lists with the same bindings are the same list. -/
theorem ext_of_sorted {α : Type} : ∀ (l₁ l₂ : List (Nat × α)),
    KeysSorted l₁ → KeysSorted l₂ → (∀ k, findL k l₁ = findL k l₂) → l₁ = l₂
  | [], [], _, _, _ => rfl
  | [], p :: t, _, _, h => by
    have := h p.1
    simp [findL] at this
  | p :: t, [], _, _, h => by
    have := h p.1
    simp [findL] at this
  | p :: t, q :: u, h₁, h₂, h => by
    unfold KeysSorted at h₁ h₂
    rw [List.pairwise_cons] at h₁ h₂
    have hp := h p.1
    have hq := h q.1
    simp only [findL, if_true] at hp hq
    have hk : p.1 = q.1 := by
      by_contra hne
      rcases Nat.lt_or_gt_of_ne hne with hlt | hgt
      · have h1 : p.1 ≠ q.1 := hne
        rw [if_neg h1, findL_eq_none_of_lt _ u (fun r hr => lt_trans hlt (h₂.1 r hr))] at hp
        exact absurd hp (by simp)
      · have h1 : q.1 ≠ p.1 := fun e => hne e.symm
        rw [if_neg h1, findL_eq_none_of_lt _ t (fun r hr => lt_trans hgt (h₁.1 r hr))] at hq
        exact absurd hq.symm (by simp)
    have hv : p.2 = q.2 := by
      rw [if_pos hk] at hp
      exact Option.some.inj hp
    have hpq : p = q := Prod.ext hk hv
    subst hpq
    congr 1
    apply ext_of_sorted t u h₁.2 h₂.2
    intro k
    have hk := h k
    simp only [findL] at hk
    by_cases hkp : k = p.1
    · subst hkp
      rw [findL_eq_none_of_lt _ t h₁.1, findL_eq_none_of_lt _ u h₂.1]
    · simpa [hkp] using hk

/-- Finite map with natural-number keys. -/
structure Map (α : Type) where
  entries : List (Nat × α)
  sorted : KeysSorted entries

instance {α : Type} [DecidableEq α] : DecidableEq (Map α) := fun a b =>
  match a, b with
  | ⟨x, _⟩, ⟨y, _⟩ =>
    if h : x = y then isTrue (by subst h; rfl)
    else isFalse (fun e => h (congrArg Map.entries e))

namespace Map

variable {α : Type}

/-- The empty map. -/
def empty : Map α := ⟨[], List.Pairwise.nil⟩

/-- Counterpart of `find`: the bound value, `none` for `end()`. -/
def find (m : Map α) (k : Nat) : Option α := findL k m.entries

/-- Whether `k` has a binding. -/
def contains (m : Map α) (k : Nat) : Bool := (m.find k).isSome

/-- Counterpart of `m[k] = v`. -/
def insert (m : Map α) (k : Nat) (v : α) : Map α :=
  ⟨insertL k v m.entries, insertL_sorted k v m.entries m.sorted⟩

/-- Counterpart of `erase`. -/
def erase (m : Map α) (k : Nat) : Map α :=
  ⟨eraseL k m.entries, eraseL_sorted k m.entries m.sorted⟩

/-- The map after evaluating `m[k]`: an absent key is bound to the
value-initialised element. -/
def touch [Inhabited α] (m : Map α) (k : Nat) : Map α :=
  match m.find k with
  | some _ => m
  | none => m.insert k default

/-- The value `m[k]` refers to: the bound value, or the value-initialised
element for an absent key. -/
def get [Inhabited α] (m : Map α) (k : Nat) : α := (m.find k).getD default

end Map

/-! ## Fixed-width integers -/

/-- Conversion of a signed value to `uint64_t` (two's complement). -/
def toU64 (i : Int) : Nat := (i % 2 ^ 64).toNat

/-- Conversion of a 64-bit pattern to `long long` (two's complement). -/
def toI64 (n : Nat) : Int :=
  if n % 2 ^ 64 < 2 ^ 63 then ((n % 2 ^ 64 : Nat) : Int)
  else ((n % 2 ^ 64 : Nat) : Int) - 2 ^ 64

/-- Result of a `long long` operation whose mathematical value is `i`. Where
the value leaves the 64-bit range the C++ standard leaves the behaviour
undefined; the embedding takes the two's complement wrap-around of the
machine addition. -/
def wrapI64 (i : Int) : Int := toI64 (toU64 i)

/-- Addition of `uint64_t` values. -/
def addU64 (a b : Nat) : Nat := (a + b) % 2 ^ 64

/-- Subtraction of `uint64_t` values. -/
def subU64 (a b : Nat) : Nat := (a + (2 ^ 64 - b % 2 ^ 64)) % 2 ^ 64

/-! ## Messages (`protocol.h`) -/

namespace protocol

/-- Header of every message. -/
structure Header where
  version : Nat
  payloadSize : Nat
  sequenceNumber : Nat
  timestamp : Nat
deriving DecidableEq

/-- Payload `NewOrder`; `side` is the code of the `char`. -/
structure NewOrder where
  messageType : Nat
  listingId : Nat
  orderId : Nat
  orderQuantity : Nat
  orderPrice : Nat
  side : Nat
deriving DecidableEq

/-- Payload `DeleteOrder`. -/
structure DeleteOrder where
  messageType : Nat
  orderId : Nat
deriving DecidableEq

/-- Payload `ModifyOrderQuantity`. -/
structure ModifyOrderQuantity where
  messageType : Nat
  orderId : Nat
  newQuantity : Nat
deriving DecidableEq

/-- Payload `Trade`. -/
structure Trade where
  messageType : Nat
  listingId : Nat
  tradeId : Nat
  tradeQuantity : Nat
  tradePrice : Nat
deriving DecidableEq

/-- Payload `OrderResponse`; `status` is the value of the
`enum class Status : uint16_t`. -/
structure OrderResponse where
  messageType : Nat
  orderId : Nat
  status : Nat
deriving DecidableEq

/-- Value of `OrderResponse::Status::ACCEPTED`. -/
abbrev ACCEPTED : Nat := 0

/-- Value of `OrderResponse::Status::REJECTED`. -/
abbrev REJECTED : Nat := 1

/-- Constant `NewOrder::MESSAGE_TYPE`. -/
abbrev NewOrder.MESSAGE_TYPE : Nat := 1

/-- Constant `DeleteOrder::MESSAGE_TYPE`. -/
abbrev DeleteOrder.MESSAGE_TYPE : Nat := 2

/-- Constant `ModifyOrderQuantity::MESSAGE_TYPE`. -/
abbrev ModifyOrderQuantity.MESSAGE_TYPE : Nat := 3

/-- Constant `Trade::MESSAGE_TYPE`. -/
abbrev Trade.MESSAGE_TYPE : Nat := 4

/-- Constant `OrderResponse::MESSAGE_TYPE`. -/
abbrev OrderResponse.MESSAGE_TYPE : Nat := 5

end protocol

/-! ## Risk engine (`risk_service.h`, `risk_service.cpp`) -/

/-- Code of the character `B`. -/
abbrev sideB : Nat := 66

/-- Code of the character `S`. -/
abbrev sideS : Nat := 83

/-- Per-listing state. -/
structure InstrumentState where
  net_pos : Int
  buy_qty : Nat
  sell_qty : Nat
deriving DecidableEq

instance : Inhabited InstrumentState := ⟨⟨0, 0, 0⟩⟩

/-- Member `worst_buy_pos`. -/
def InstrumentState.worst_buy_pos (s : InstrumentState) : Int :=
  let qty := toI64 s.buy_qty
  max qty (wrapI64 (s.net_pos + qty))

/-- Member `worst_sell_pos`. -/
def InstrumentState.worst_sell_pos (s : InstrumentState) : Int :=
  let qty := toI64 s.sell_qty
  max qty (wrapI64 (qty - s.net_pos))

/-- A live order; `side` is the code of the `char`. -/
structure Order where
  listing_id : Nat
  quantity : Nat
  side : Nat
deriving DecidableEq

instance : Inhabited Order := ⟨⟨0, 0, 0⟩⟩

/-- The engine part of `RiskService`: limits, order book, instrument states. -/
structure RiskService where
  max_buy_pos_ : Nat
  max_sell_pos_ : Nat
  orders_ : Map Order
  instrument_state_ : Map InstrumentState
deriving DecidableEq

namespace RiskService

open protocol

/-- The engine right after construction. -/
def init (max_buy max_sell : Nat) : RiskService :=
  ⟨max_buy, max_sell, Map.empty, Map.empty⟩

/-- Helper `register_new_order`. -/
def register_new_order (self : RiskService) (id : Nat) (order : Order) :
    Bool × RiskService :=
  let instr := self.instrument_state_.touch order.listing_id
  let state := instr.get order.listing_id
  if order.side = sideB then
    if (order.quantity + toU64 state.worst_buy_pos) % 2 ^ 64 ≤ self.max_buy_pos_ then
      (true, { self with
        orders_ := self.orders_.insert id order
        instrument_state_ := instr.insert order.listing_id
          { state with buy_qty := addU64 state.buy_qty order.quantity } })
    else (false, { self with instrument_state_ := instr })
  else if order.side = sideS then
    if (order.quantity + toU64 state.worst_sell_pos) % 2 ^ 64 ≤ self.max_sell_pos_ then
      (true, { self with
        orders_ := self.orders_.insert id order
        instrument_state_ := instr.insert order.listing_id
          { state with sell_qty := addU64 state.sell_qty order.quantity } })
    else (false, { self with instrument_state_ := instr })
  else (false, { self with instrument_state_ := instr })

/-- Helper `update_order_quantity`; the order is passed with the id it is
stored under, the reference of the source. -/
def update_order_quantity (self : RiskService) (id : Nat) (order : Order)
    (new_qty : Nat) : Bool × RiskService :=
  let old_qty := order.quantity
  let instr := self.instrument_state_.touch order.listing_id
  let state := instr.get order.listing_id
  if order.side = sideB then
    if (subU64 new_qty old_qty + toU64 state.worst_buy_pos) % 2 ^ 64
        ≤ self.max_buy_pos_ then
      (true, { self with
        orders_ := self.orders_.insert id { order with quantity := new_qty }
        instrument_state_ := instr.insert order.listing_id
          { state with buy_qty := addU64 state.buy_qty (subU64 new_qty old_qty) } })
    else (false, { self with instrument_state_ := instr })
  else if order.side = sideS then
    if (subU64 new_qty old_qty + toU64 state.worst_sell_pos) % 2 ^ 64
        ≤ self.max_sell_pos_ then
      (true, { self with
        orders_ := self.orders_.insert id { order with quantity := new_qty }
        instrument_state_ := instr.insert order.listing_id
          { state with sell_qty := addU64 state.sell_qty (subU64 new_qty old_qty) } })
    else (false, { self with instrument_state_ := instr })
  else (false, { self with instrument_state_ := instr })

/-- Helper `delete_order`. -/
def delete_order (self : RiskService) (id : Nat) : RiskService :=
  match self.orders_.find id with
  | none => self
  | some order =>
    let instr := self.instrument_state_.touch order.listing_id
    let state := instr.get order.listing_id
    let instr :=
      if order.side = sideB then
        instr.insert order.listing_id
          { state with buy_qty := subU64 state.buy_qty order.quantity }
      else if order.side = sideS then
        instr.insert order.listing_id
          { state with sell_qty := subU64 state.sell_qty order.quantity }
      else instr
    { self with orders_ := self.orders_.erase id, instrument_state_ := instr }

/-- Handler `handle_new_order`. -/
def handle_new_order (self : RiskService) (create_msg : NewOrder) :
    OrderResponse × RiskService :=
  let response : OrderResponse :=
    ⟨OrderResponse.MESSAGE_TYPE, create_msg.orderId, REJECTED⟩
  if create_msg.side ≠ sideB ∧ create_msg.side ≠ sideS then (response, self)
  else
    let order : Order :=
      ⟨create_msg.listingId, create_msg.orderQuantity, create_msg.side⟩
    match self.register_new_order create_msg.orderId order with
    | (true, self) => ({ response with status := ACCEPTED }, self)
    | (false, self) => (response, self)

/-- Handler `handle_modify_order`. -/
def handle_modify_order (self : RiskService) (modify_msg : ModifyOrderQuantity) :
    OrderResponse × RiskService :=
  let response : OrderResponse :=
    ⟨OrderResponse.MESSAGE_TYPE, modify_msg.orderId, REJECTED⟩
  let id := modify_msg.orderId
  match self.orders_.find id with
  | none => (response, self)
  | some order =>
    match self.update_order_quantity id order modify_msg.newQuantity with
    | (true, self) => ({ response with status := ACCEPTED }, self)
    | (false, self) => (response, self)

/-- Handler `handle_delete_order`. -/
def handle_delete_order (self : RiskService) (delete_msg : DeleteOrder) :
    RiskService :=
  self.delete_order delete_msg.orderId

/-- Handler `handle_trade`. -/
def handle_trade (self : RiskService) (trade_msg : Trade) : RiskService :=
  let instr := self.instrument_state_.touch trade_msg.listingId
  let state := instr.get trade_msg.listingId
  let orders := self.orders_.touch trade_msg.tradeId
  let order := orders.get trade_msg.tradeId
  let instr :=
    if order.side = sideB then
      instr.insert trade_msg.listingId
        { state with
          net_pos := toI64 (subU64 (toU64 state.net_pos) trade_msg.tradeQuantity) }
    else if order.side = sideS then
      instr.insert trade_msg.listingId
        { state with
          net_pos := toI64 (addU64 (toU64 state.net_pos) trade_msg.tradeQuantity) }
    else instr
  { self with orders_ := orders, instrument_state_ := instr }

end RiskService

/-! ## Text formatting (`format.h`) -/

/-- Exceptions the code can throw. -/
inductive Error where
  | runtime_error
  | invalid_argument
  | out_of_range
deriving DecidableEq

deriving instance DecidableEq for Except

/-- A `std::string`. -/
abbrev Message := List Char

/-- The decimal digit `d`. -/
def digitChar (d : Nat) : Char := Char.ofNat (48 + d)

/-- Decimal digits of `n` in front of `acc`; `fuel` bounds the number of
digits. -/
def to_string_aux : Nat → Nat → List Char → List Char
  | 0, _, acc => acc
  | fuel + 1, n, acc =>
    if n < 10 then digitChar n :: acc
    else to_string_aux fuel (n / 10) (digitChar (n % 10) :: acc)

/-- Function `std::to_string` on an unsigned value. -/
def to_string (n : Nat) : Message := to_string_aux (n + 1) n []

/-- Function `std::to_string` on an `int`. -/
def to_string_int (i : Int) : Message :=
  if i < 0 then '-' :: to_string i.natAbs else to_string i.toNat

/-- Function `std::to_string` on a `char` with code `c`: the argument is
promoted to `int`, to a negative value for a code above 127 where plain
`char` is signed. -/
def to_string_char (charSigned : Bool) (c : Nat) : Message :=
  if charSigned ∧ 128 ≤ c then to_string_int ((c : Int) - 256) else to_string c

/-- Split a format string at its first replacement field: the text before
the field and the text after it. -/
def splitField : List Char → Option (List Char × List Char)
  | [] => none
  | [_] => none
  | c :: d :: rest =>
    if c = Char.ofNat 123 ∧ d = Char.ofNat 125 then some ([], rest)
    else
      match splitField (d :: rest) with
      | none => none
      | some (pre, post) => some (c :: pre, post)

/-- Function `rs::format`; the arguments are passed already converted by
`to_string`. -/
def format : List Char → List Message → Except Error Message
  | fmt, [] => .ok fmt
  | fmt, arg :: rest =>
    match splitField fmt with
    | none => .error .runtime_error
    | some (pre, post) =>
      match format post rest with
      | .ok out => .ok (pre ++ arg ++ out)
      | .error e => .error e

/-! ## Codec (`protocol.h`) -/

namespace protocol

/-- Predicate `isspace` of the C locale. -/
def isspace (c : Char) : Bool := c.toNat = 32 || (9 ≤ c.toNat && c.toNat ≤ 13)

/-- Predicate `isdigit`. -/
def isdigit (c : Char) : Bool := 48 ≤ c.toNat && c.toNat ≤ 57

/-- Value of a string of decimal digits. -/
def digitsValue (ds : List Char) : Nat :=
  ds.foldl (fun a c => 10 * a + (c.toNat - 48)) 0

/-- Function `std::stoull` in base 10: leading white space is skipped, one
sign is allowed, the longest run of digits is converted and what follows is
ignored; a minus sign negates modulo `2^64`. -/
def stoull (s : Message) : Except Error Nat :=
  let s := s.dropWhile isspace
  let neg := s.head? = some '-'
  let s := if s.head? = some '-' ∨ s.head? = some '+' then s.tail else s
  let ds := s.takeWhile isdigit
  if ds = [] then .error .invalid_argument
  else if 2 ^ 64 ≤ digitsValue ds then .error .out_of_range
  else .ok (if neg then (2 ^ 64 - digitsValue ds) % 2 ^ 64 else digitsValue ds)

/-- Index of the first `c` among `l`, whose first element has index `i`. -/
def findFrom (c : Char) : List Char → Nat → Option Nat
  | [], _ => none
  | x :: xs, i => if x = c then some i else findFrom c xs (i + 1)

/-- Member `find(c, pos)` of `std::string`; `none` is `npos`. -/
def find_char (msg : Message) (c : Char) (pos : Nat) : Option Nat :=
  findFrom c (msg.drop pos) pos

/-- Captured state of the closure `makeParser` returns. -/
structure Parser where
  begin_ : Nat
  end_ : Nat
deriving DecidableEq

/-- The parser `makeParser` returns, before its first call. -/
def makeParser : Parser := ⟨0, 0⟩

/-- One call of the closure `parse_next` on `msg`. -/
def parse_next (msg : Message) (st : Parser) : Except Error (Nat × Parser) :=
  if msg.length ≤ st.end_ then .error .runtime_error
  else
    let e := match find_char msg ' ' st.begin_ with
      | some i => i
      | none => msg.length
    if msg.length < st.begin_ then .error .out_of_range
    else
      let res := (msg.drop st.begin_).take (e - st.begin_)
      match stoull res with
      | .ok v => .ok (v, ⟨e + 1, e⟩)
      | .error err => .error err

/-- Function `decode_header`. -/
def decode_header (msg : Message) : Except Error Header := do
  let st := makeParser
  let (version, st) ← parse_next msg st
  let (payloadSize, st) ← parse_next msg st
  let (sequenceNumber, st) ← parse_next msg st
  let (timestamp, _) ← parse_next msg st
  pure ⟨version % 2 ^ 16, payloadSize % 2 ^ 16, sequenceNumber % 2 ^ 32,
    timestamp % 2 ^ 64⟩

/-- The loop that skips the four header fields. -/
def skip_header (msg : Message) : Except Error Parser := do
  let st := makeParser
  let (_, st) ← parse_next msg st
  let (_, st) ← parse_next msg st
  let (_, st) ← parse_next msg st
  let (_, st) ← parse_next msg st
  pure st

/-- Specialisation `decode_payload<NewOrder>`. -/
def NewOrder.decode_payload (msg : Message) : Except Error NewOrder := do
  let st ← skip_header msg
  let (messageType, st) ← parse_next msg st
  let (listingId, st) ← parse_next msg st
  let (orderId, st) ← parse_next msg st
  let (orderQuantity, st) ← parse_next msg st
  let (orderPrice, st) ← parse_next msg st
  let (side, _) ← parse_next msg st
  pure ⟨messageType % 2 ^ 16, listingId % 2 ^ 64, orderId % 2 ^ 64,
    orderQuantity % 2 ^ 64, orderPrice % 2 ^ 64, side % 2 ^ 8⟩

/-- Specialisation `decode_payload<DeleteOrder>`. -/
def DeleteOrder.decode_payload (msg : Message) : Except Error DeleteOrder := do
  let st ← skip_header msg
  let (messageType, st) ← parse_next msg st
  let (orderId, _) ← parse_next msg st
  pure ⟨messageType % 2 ^ 16, orderId % 2 ^ 64⟩

/-- Specialisation `decode_payload<ModifyOrderQuantity>`. -/
def ModifyOrderQuantity.decode_payload (msg : Message) :
    Except Error ModifyOrderQuantity := do
  let st ← skip_header msg
  let (messageType, st) ← parse_next msg st
  let (orderId, st) ← parse_next msg st
  let (newQuantity, _) ← parse_next msg st
  pure ⟨messageType % 2 ^ 16, orderId % 2 ^ 64, newQuantity % 2 ^ 64⟩

/-- Specialisation `decode_payload<Trade>`. The braces of `Trade p{...}`
initialise the members in declaration order, so the fourth payload token is
stored in `tradeQuantity` and the fifth in `tradePrice`; the `decltype` of
the fourth and fifth casts (`p.tradePrice`, then `p.tradeQuantity`) only
names the type of the cast, `uint64_t` for both. -/
def Trade.decode_payload (msg : Message) : Except Error Trade := do
  let st ← skip_header msg
  let (messageType, st) ← parse_next msg st
  let (listingId, st) ← parse_next msg st
  let (tradeId, st) ← parse_next msg st
  let (fourth, st) ← parse_next msg st
  let (fifth, _) ← parse_next msg st
  pure ⟨messageType % 2 ^ 16, listingId % 2 ^ 64, tradeId % 2 ^ 64, fourth % 2 ^ 64,
    fifth % 2 ^ 64⟩

/-- Specialisation `decode_payload<OrderResponse>`. -/
def OrderResponse.decode_payload (msg : Message) : Except Error OrderResponse := do
  let st ← skip_header msg
  let (messageType, st) ← parse_next msg st
  let (orderId, st) ← parse_next msg st
  let (status, _) ← parse_next msg st
  pure ⟨messageType % 2 ^ 16, orderId % 2 ^ 64, status % 2 ^ 16⟩

/-- Function `encode_header`. -/
def encode_header (h : Header) : Except Error Message :=
  format "\x7b\x7d \x7b\x7d \x7b\x7d \x7b\x7d".toList
    [to_string h.version, to_string h.payloadSize, to_string h.sequenceNumber,
     to_string h.timestamp]

/-- Overload `encode(const NewOrder &)`; `charSigned` tells whether plain
`char` is a signed type on the platform. -/
def NewOrder.encode (charSigned : Bool) (p : NewOrder) : Except Error Message :=
  format "\x7b\x7d \x7b\x7d \x7b\x7d \x7b\x7d \x7b\x7d \x7b\x7d".toList
    [to_string p.messageType, to_string p.listingId, to_string p.orderId,
     to_string p.orderQuantity, to_string p.orderPrice,
     to_string_char charSigned p.side]

/-- Overload `encode(const DeleteOrder &)`. -/
def DeleteOrder.encode (p : DeleteOrder) : Except Error Message :=
  format "\x7b\x7d \x7b\x7d".toList [to_string p.messageType, to_string p.orderId]

/-- Overload `encode(const ModifyOrderQuantity &)`. -/
def ModifyOrderQuantity.encode (p : ModifyOrderQuantity) : Except Error Message :=
  format "\x7b\x7d \x7b\x7d \x7b\x7d".toList
    [to_string p.messageType, to_string p.orderId, to_string p.newQuantity]

/-- Overload `encode(const Trade &)`. -/
def Trade.encode (p : Trade) : Except Error Message :=
  format "\x7b\x7d \x7b\x7d \x7b\x7d \x7b\x7d \x7b\x7d".toList
    [to_string p.messageType, to_string p.listingId, to_string p.tradeId,
     to_string p.tradeQuantity, to_string p.tradePrice]

/-- Overload `encode(const OrderResponse &)`. -/
def OrderResponse.encode (p : OrderResponse) : Except Error Message :=
  format "\x7b\x7d \x7b\x7d \x7b\x7d".toList
    [to_string p.messageType, to_string p.orderId, to_string (p.status % 2 ^ 16)]

/-- Template `encode(h, p)`; `payload` is the result of the overload of
`encode` for the payload type. -/
def encode (h : Header) (payload : Except Error Message) : Except Error Message := do
  let head ← encode_header h
  let body ← payload
  pure (head ++ " ".toList ++ body)

end protocol

/-! ## Service loop (`risk_service.cpp`) and test client (`risk_client.h`) -/

/-- Value of `sizeof(OrderResponse)` under the LP64 data model; it only
fills the `payloadSize` field of a response header. -/
def sizeof_OrderResponse : Nat := 24

namespace RiskService

open protocol

/-- The response frame `serve_client` sends for `response` at time `now`. -/
def response_frame (now : Nat) (response : OrderResponse) : Except Error Message :=
  encode ⟨OrderResponse.MESSAGE_TYPE, sizeof_OrderResponse % 2 ^ 16, 1, now % 2 ^ 64⟩
    (OrderResponse.encode response)

/-- Member `serve_client` on the received frame `msg`, with `now` the value
`now()` returns: the value returned (or the exception thrown), the engine
afterwards and the frame sent, if any. -/
def serve_client (self : RiskService) (now : Nat) (msg : Message) :
    Except Error Bool × RiskService × Option Message :=
  if msg = [] then (.ok false, self, none)
  else
    match decode_header msg with
    | .error e => (.error e, self, none)
    | .ok header =>
      if header.version = NewOrder.MESSAGE_TYPE then
        match NewOrder.decode_payload msg with
        | .error e => (.error e, self, none)
        | .ok p =>
          match self.handle_new_order p with
          | (response, self) =>
            match response_frame now response with
            | .error e => (.error e, self, none)
            | .ok out => (.ok true, self, some out)
      else if header.version = DeleteOrder.MESSAGE_TYPE then
        match DeleteOrder.decode_payload msg with
        | .error e => (.error e, self, none)
        | .ok p => (.ok true, self.handle_delete_order p, none)
      else if header.version = ModifyOrderQuantity.MESSAGE_TYPE then
        match ModifyOrderQuantity.decode_payload msg with
        | .error e => (.error e, self, none)
        | .ok p =>
          match self.handle_modify_order p with
          | (response, self) =>
            match response_frame now response with
            | .error e => (.error e, self, none)
            | .ok out => (.ok true, self, some out)
      else if header.version = Trade.MESSAGE_TYPE then
        match Trade.decode_payload msg with
        | .error e => (.error e, self, none)
        | .ok p => (.ok true, self.handle_trade p, none)
      else (.ok true, self, none)

/-- The loop `while (serve_client(socket))` of `wait` over the frames the
transport delivers, each with the clock value at its arrival: the engine
afterwards and the frames sent, in order. The loop ends at the first frame
on which `serve_client` returns false or throws. -/
def serve_frames (self : RiskService) : List (Nat × Message) →
    RiskService × List Message
  | [] => (self, [])
  | (now, msg) :: rest =>
    match self.serve_client now msg with
    | (.ok true, self, out) =>
      match serve_frames self rest with
      | (self, outs) => (self, out.toList ++ outs)
    | (_, self, out) => (self, out.toList)

end RiskService

namespace RiskClient

open protocol

/-- Member `send_message` of the client: the frame sent for a payload whose
`messageType` and `sizeof` are given and whose encoding is `payload`, with
`package_counter_` the counter before the call and `now` the clock value. -/
def send_message (package_counter_ now messageType sizeofPayload : Nat)
    (payload : Except Error Message) : Except Error Message :=
  encode ⟨messageType % 2 ^ 16, sizeofPayload % 2 ^ 16,
    (package_counter_ + 1) % 2 ^ 32, now % 2 ^ 64⟩ payload

end RiskClient

/-! ## Vocabulary of the statements: predicates and derived functions -/

namespace RiskService

open protocol

/-- The limit test of `register_new_order`, as a Boolean. -/
def accepts_new (self : RiskService) (order : Order) : Bool :=
  let state := self.instrument_state_.get order.listing_id
  if order.side = sideB then
    decide ((order.quantity + toU64 state.worst_buy_pos) % 2 ^ 64 ≤ self.max_buy_pos_)
  else if order.side = sideS then
    decide ((order.quantity + toU64 state.worst_sell_pos) % 2 ^ 64 ≤ self.max_sell_pos_)
  else false

/-- The limit test of `update_order_quantity`, as a Boolean. -/
def accepts_modify (self : RiskService) (order : Order) (new_qty : Nat) : Bool :=
  let state := self.instrument_state_.get order.listing_id
  if order.side = sideB then
    decide ((subU64 new_qty order.quantity + toU64 state.worst_buy_pos) % 2 ^ 64
      ≤ self.max_buy_pos_)
  else if order.side = sideS then
    decide ((subU64 new_qty order.quantity + toU64 state.worst_sell_pos) % 2 ^ 64
      ≤ self.max_sell_pos_)
  else false

/-- The instrument state after an accepted order `o` has been counted. -/
def count_order (o : Order) (st : InstrumentState) : InstrumentState :=
  if o.side = sideB then { st with buy_qty := addU64 st.buy_qty o.quantity }
  else { st with sell_qty := addU64 st.sell_qty o.quantity }

end RiskService

namespace protocol

/-- The frame made of the given tokens, separated by single spaces. -/
def joinSp : List Message → Message
  | [] => []
  | [t] => t
  | t :: u :: ts => t ++ ' ' :: joinSp (u :: ts)

/-- The parser state `st` stands at the start of the tokens `toks`, which
are the rest of the frame `msg`, and no token contains a space. -/
def Ready (msg : Message) (st : Parser) (toks : List Message) : Prop :=
  ∃ pre : Message, msg = pre ++ joinSp toks ∧ st.begin_ = pre.length ∧
    st.end_ < msg.length ∧ ∀ t ∈ toks, ∀ c ∈ t, c ≠ ' '

/-- The fields of a header lie within their declared widths. -/
abbrev Header.valid (h : Header) : Prop :=
  h.version < 2 ^ 16 ∧ h.payloadSize < 2 ^ 16 ∧ h.sequenceNumber < 2 ^ 32 ∧
    h.timestamp < 2 ^ 64

/-- The fields of a `NewOrder` lie within their declared widths. -/
abbrev NewOrder.valid (p : NewOrder) : Prop :=
  p.messageType < 2 ^ 16 ∧ p.listingId < 2 ^ 64 ∧ p.orderId < 2 ^ 64 ∧
    p.orderQuantity < 2 ^ 64 ∧ p.orderPrice < 2 ^ 64 ∧ p.side < 2 ^ 8

/-- The fields of a `DeleteOrder` lie within their declared widths. -/
abbrev DeleteOrder.valid (p : DeleteOrder) : Prop :=
  p.messageType < 2 ^ 16 ∧ p.orderId < 2 ^ 64

/-- The fields of a `ModifyOrderQuantity` lie within their declared widths. -/
abbrev ModifyOrderQuantity.valid (p : ModifyOrderQuantity) : Prop :=
  p.messageType < 2 ^ 16 ∧ p.orderId < 2 ^ 64 ∧ p.newQuantity < 2 ^ 64

/-- The fields of a `Trade` lie within their declared widths. -/
abbrev Trade.valid (p : Trade) : Prop :=
  p.messageType < 2 ^ 16 ∧ p.listingId < 2 ^ 64 ∧ p.tradeId < 2 ^ 64 ∧
    p.tradeQuantity < 2 ^ 64 ∧ p.tradePrice < 2 ^ 64

/-- The fields of an `OrderResponse` lie within their declared widths. -/
abbrev OrderResponse.valid (p : OrderResponse) : Prop :=
  p.messageType < 2 ^ 16 ∧ p.orderId < 2 ^ 64 ∧ p.status < 2 ^ 16

end protocol

namespace RiskService

open protocol

/-- The instrument state after the quantity of a counted order of side
`side` has changed from `old_qty` to `new_qty`. -/
def recount_order (side old_qty new_qty : Nat) (st : InstrumentState) : InstrumentState :=
  if side = sideB then { st with buy_qty := addU64 st.buy_qty (subU64 new_qty old_qty) }
  else { st with sell_qty := addU64 st.sell_qty (subU64 new_qty old_qty) }

/-- The instrument state after an order has been deleted. -/
def uncount_order (o : Order) (st : InstrumentState) : InstrumentState :=
  if o.side = sideB then { st with buy_qty := subU64 st.buy_qty o.quantity }
  else if o.side = sideS then { st with sell_qty := subU64 st.sell_qty o.quantity }
  else st

/-- The instrument state after a trade of `qty` on an order of side `side`. -/
def trade_state (side qty : Nat) (st : InstrumentState) : InstrumentState :=
  if side = sideB then { st with net_pos := toI64 (subU64 (toU64 st.net_pos) qty) }
  else if side = sideS then { st with net_pos := toI64 (addU64 (toU64 st.net_pos) qty) }
  else st

end RiskService

/-- One handler call with its decoded message. -/
inductive Call where
  | new_order (m : protocol.NewOrder)
  | modify_order (m : protocol.ModifyOrderQuantity)
  | delete_order (m : protocol.DeleteOrder)
  | trade (m : protocol.Trade)

/-- The engine after one handler call; the response is dropped. -/
def RiskService.step (s : RiskService) : Call → RiskService
  | .new_order m => (s.handle_new_order m).2
  | .modify_order m => (s.handle_modify_order m).2
  | .delete_order m => s.handle_delete_order m
  | .trade m => s.handle_trade m

/-- The engine after a sequence of handler calls. -/
def RiskService.run (s : RiskService) (cs : List Call) : RiskService :=
  cs.foldl RiskService.step s

/-- No `handle_new_order` call of the sequence carries an `order_id` that is
a key of the order book at the moment of the call. -/
def RiskService.fresh_ids (s : RiskService) : List Call → Bool
  | [] => true
  | .new_order m :: cs =>
    !(s.orders_.contains m.orderId) && RiskService.fresh_ids (s.handle_new_order m).2 cs
  | c :: cs => RiskService.fresh_ids (s.step c) cs

/-- A call other than `handle_trade` whose message quantity is below
`2^63`. -/
def Call.small_no_trade : Call → Bool
  | .new_order m => decide (m.orderQuantity < 2 ^ 63)
  | .modify_order m => decide (m.newQuantity < 2 ^ 63)
  | .delete_order _ => true
  | .trade _ => false

/-- Sum of `f` over the values of an association list. -/
def sumL {α : Type} (f : α → Nat) : List (Nat × α) → Nat
  | [] => 0
  | p :: t => f p.2 + sumL f t

/-- What the order `o` counts for side `side` of listing `listing`. -/
def Order.contrib (side listing : Nat) (o : Order) : Nat :=
  if o.side = side ∧ o.listing_id = listing then o.quantity else 0

/-- Sum of the quantities of the live orders of side `side` on listing
`listing`. -/
def live_qty (side listing : Nat) (orders : Map Order) : Nat :=
  sumL (Order.contrib side listing) orders.entries

/-- Value of `f` at an optional entry, zero for none. -/
def optVal {α : Type} (f : α → Nat) : Option α → Nat
  | none => 0
  | some a => f a

/-- The aggregate of side `side`: `buy_qty` for `B`, `sell_qty` otherwise. -/
def InstrumentState.qty (st : InstrumentState) (side : Nat) : Nat :=
  if side = sideB then st.buy_qty else st.sell_qty

namespace RiskService

open protocol

/-- Every aggregate is the sum of the live quantities of its side and
listing, modulo `2^64`. -/
def AggInv (s : RiskService) : Prop :=
  ∀ side, side = sideB ∨ side = sideS → ∀ l,
    (s.instrument_state_.get l).qty side = live_qty side l s.orders_ % 2 ^ 64

/-- The limit of side `side`: `max_buy_pos_` for `B`, `max_sell_pos_`
otherwise. -/
def max_pos (s : RiskService) (side : Nat) : Nat :=
  if side = sideB then s.max_buy_pos_ else s.max_sell_pos_

/-- Invariant of the runs without trades: every `net_pos` is zero and, for
a side whose limit is below `2^63`, every aggregate is at most the limit and
at least the sum of the live quantities of the side and listing. -/
def LimInv (s : RiskService) : Prop :=
  (∀ l, (s.instrument_state_.get l).net_pos = 0) ∧
  ∀ side, side = sideB ∨ side = sideS → s.max_pos side < 2 ^ 63 → ∀ l,
    (s.instrument_state_.get l).qty side ≤ s.max_pos side ∧
    live_qty side l s.orders_ ≤ (s.instrument_state_.get l).qty side

end RiskService

/-- The engine after the NewOrder messages `adds`, handled in order. -/
def RiskService.add_orders (s : RiskService) : List protocol.NewOrder → RiskService
  | [] => s
  | a :: rest => RiskService.add_orders (s.handle_new_order a).2 rest

/-- Every NewOrder of `adds`, handled in order from `s`, is answered
ACCEPTED. -/
def RiskService.all_accepted (s : RiskService) : List protocol.NewOrder → Prop
  | [] => True
  | a :: rest =>
    (s.handle_new_order a).1.status = protocol.ACCEPTED ∧
      RiskService.all_accepted (s.handle_new_order a).2 rest

/-- The aggregates and the position of listing `l` are below `2^62` in
absolute value, so that no 64-bit operation of the limit tests on `l`
wraps. -/
def RiskService.small_at (s : RiskService) (l : Nat) : Prop :=
  (s.instrument_state_.get l).buy_qty < 2 ^ 62 ∧
  (s.instrument_state_.get l).sell_qty < 2 ^ 62 ∧
  -(2 ^ 62 : Int) < (s.instrument_state_.get l).net_pos ∧
  (s.instrument_state_.get l).net_pos < 2 ^ 62

/-- Every live order of side `B` or `S` has an entry for its listing in the
instrument map. -/
def RiskService.EntryInv (s : RiskService) : Prop :=
  ∀ id o, s.orders_.find id = some o → o.side = sideB ∨ o.side = sideS →
    s.instrument_state_.find o.listing_id ≠ none

namespace protocol

/-- The tokens of a frame: its pieces between single spaces, in order, the
empty ones included. A frame of `k` spaces has `k + 1` tokens. -/
def splitSp : Message → List Message
  | [] => [[]]
  | c :: cs =>
    if c = ' ' then [] :: splitSp cs
    else
      match splitSp cs with
      | [] => [[c]]
      | t :: ts => (c :: t) :: ts

/-- The values of `n` successive calls of the closure `parse_next` on `msg`
from the state `st`, or the first exception. -/
def parse_many (msg : Message) : Nat → Parser → Except Error (List Nat)
  | 0, _ => .ok []
  | n + 1, st =>
    match parse_next msg st with
    | .error e => .error e
    | .ok (v, st) =>
      match parse_many msg n st with
      | .error e => .error e
      | .ok vs => .ok (v :: vs)

/-- The values `stoull` gives for the first `n` tokens of a list, or the
first exception; asking for a token after the last one is a
`runtime_error`. -/
def stoull_many : Nat → List Message → Except Error (List Nat)
  | 0, _ => .ok []
  | _ + 1, [] => .error .runtime_error
  | n + 1, t :: ts =>
    match stoull t with
    | .error e => .error e
    | .ok v =>
      match stoull_many n ts with
      | .error e => .error e
      | .ok vs => .ok (v :: vs)

end protocol

namespace protocol

/-- A token that is a non-empty string of decimal digits whose value fits
64 bits. -/
abbrev digit_token (t : Message) : Prop :=
  t ≠ [] ∧ (∀ c ∈ t, isdigit c = true) ∧ digitsValue t < 2 ^ 64

end protocol

namespace protocol

/-- The token does not begin with a decimal numeral: after its leading white
space and at most one sign it is empty or starts with a character that is
not a digit. -/
def lacks_numeral (t : Message) : Bool :=
  let s := t.dropWhile isspace
  let s := if s.head? = some '-' ∨ s.head? = some '+' then s.tail else s
  match s with
  | [] => true
  | c :: _ => !isdigit c

end protocol

namespace protocol

/-- A decimal numeral without padding: a non-empty string of digits that
does not start with `0` unless it is `0` itself. -/
def plain_numeral (t : Message) : Prop :=
  t ≠ [] ∧ (∀ c ∈ t, isdigit c = true) ∧ (t.head? = some '0' → t = ['0'])

/-- The frame `msg` is the tokens `toks` joined by single spaces: splitting
it at its spaces gives the tokens back, and it neither starts nor ends with
a space. -/
def frame_of (toks : List Message) (msg : Message) : Prop :=
  msg = joinSp toks ∧ splitSp msg = toks ∧ msg.head? ≠ some ' ' ∧ msg.getLast? ≠ some ' '

end protocol

/-! ## The 64-bit additions and subtractions of the helpers (`risk_service.cpp`) -/

/-- A 64-bit addition or subtraction with its operands, on `uint64_t`
(`Quantity`) or on `long long` (`NetPos`). -/
inductive ArithOp where
  | add_u64 (a b : Nat)
  | sub_u64 (a b : Nat)
  | add_i64 (a b : Int)
  | sub_i64 (a b : Int)
deriving DecidableEq

/-- The operation wraps: its mathematical result is not a value of its
type. -/
def ArithOp.wraps : ArithOp → Bool
  | .add_u64 a b => decide (2 ^ 64 ≤ a + b)
  | .sub_u64 a b => decide (a < b)
  | .add_i64 a b => decide (a + b < -(2 ^ 63) ∨ 2 ^ 63 ≤ a + b)
  | .sub_i64 a b => decide (a - b < -(2 ^ 63) ∨ 2 ^ 63 ≤ a - b)

/-- The addition `net_pos + qty` of `worst_buy_pos`. -/
def InstrumentState.worst_buy_pos_ops (s : InstrumentState) : List ArithOp :=
  [.add_i64 s.net_pos (toI64 s.buy_qty)]

/-- The subtraction `qty - net_pos` of `worst_sell_pos`. -/
def InstrumentState.worst_sell_pos_ops (s : InstrumentState) : List ArithOp :=
  [.sub_i64 (toI64 s.sell_qty) s.net_pos]

/-- The additions and subtractions of `register_new_order`: those of the
worst position, the sum of the limit test and, when the test passes, the
update of the aggregate. -/
def RiskService.register_new_order_ops (self : RiskService) (order : Order) :
    List ArithOp :=
  let state := (self.instrument_state_.touch order.listing_id).get order.listing_id
  if order.side = sideB then
    state.worst_buy_pos_ops ++
      [.add_u64 order.quantity (toU64 state.worst_buy_pos)] ++
      (if (order.quantity + toU64 state.worst_buy_pos) % 2 ^ 64 ≤ self.max_buy_pos_ then
        [.add_u64 state.buy_qty order.quantity]
      else [])
  else if order.side = sideS then
    state.worst_sell_pos_ops ++
      [.add_u64 order.quantity (toU64 state.worst_sell_pos)] ++
      (if (order.quantity + toU64 state.worst_sell_pos) % 2 ^ 64 ≤ self.max_sell_pos_ then
        [.add_u64 state.sell_qty order.quantity]
      else [])
  else []

/-- The additions and subtractions of `update_order_quantity`: the
difference `new_qty - old_qty`, those of the worst position, the sum of the
limit test and, when the test passes, the difference again and the update
of the aggregate. -/
def RiskService.update_order_quantity_ops (self : RiskService) (order : Order)
    (new_qty : Nat) : List ArithOp :=
  let old_qty := order.quantity
  let state := (self.instrument_state_.touch order.listing_id).get order.listing_id
  if order.side = sideB then
    [.sub_u64 new_qty old_qty] ++ state.worst_buy_pos_ops ++
      [.add_u64 (subU64 new_qty old_qty) (toU64 state.worst_buy_pos)] ++
      (if (subU64 new_qty old_qty + toU64 state.worst_buy_pos) % 2 ^ 64
          ≤ self.max_buy_pos_ then
        [.sub_u64 new_qty old_qty, .add_u64 state.buy_qty (subU64 new_qty old_qty)]
      else [])
  else if order.side = sideS then
    [.sub_u64 new_qty old_qty] ++ state.worst_sell_pos_ops ++
      [.add_u64 (subU64 new_qty old_qty) (toU64 state.worst_sell_pos)] ++
      (if (subU64 new_qty old_qty + toU64 state.worst_sell_pos) % 2 ^ 64
          ≤ self.max_sell_pos_ then
        [.sub_u64 new_qty old_qty, .add_u64 state.sell_qty (subU64 new_qty old_qty)]
      else [])
  else []

/-- The subtraction of `delete_order`. -/
def RiskService.delete_order_ops (self : RiskService) (id : Nat) : List ArithOp :=
  match self.orders_.find id with
  | none => []
  | some order =>
    let state := (self.instrument_state_.touch order.listing_id).get order.listing_id
    if order.side = sideB then [.sub_u64 state.buy_qty order.quantity]
    else if order.side = sideS then [.sub_u64 state.sell_qty order.quantity]
    else []

/-- The additions and subtractions of `handle_new_order`. -/
def RiskService.handle_new_order_ops (self : RiskService) (create_msg : protocol.NewOrder) :
    List ArithOp :=
  if create_msg.side ≠ sideB ∧ create_msg.side ≠ sideS then []
  else
    self.register_new_order_ops
      ⟨create_msg.listingId, create_msg.orderQuantity, create_msg.side⟩

/-- The additions and subtractions of `handle_modify_order`. -/
def RiskService.handle_modify_order_ops (self : RiskService)
    (modify_msg : protocol.ModifyOrderQuantity) : List ArithOp :=
  match self.orders_.find modify_msg.orderId with
  | none => []
  | some order => self.update_order_quantity_ops order modify_msg.newQuantity

/-- The additions and subtractions of `handle_delete_order`. -/
def RiskService.handle_delete_order_ops (self : RiskService)
    (delete_msg : protocol.DeleteOrder) : List ArithOp :=
  self.delete_order_ops delete_msg.orderId

/-! ## Lemmas: finite maps -/

namespace Map

variable {α : Type}

theorem ext {m₁ m₂ : Map α} (h : ∀ k, m₁.find k = m₂.find k) : m₁ = m₂ := by
  cases m₁ with
  | mk l₁ s₁ =>
    cases m₂ with
    | mk l₂ s₂ =>
      have : l₁ = l₂ := ext_of_sorted l₁ l₂ s₁ s₂ h
      subst this
      rfl

theorem find_empty (k : Nat) : (empty : Map α).find k = none := rfl

theorem find_insert (m : Map α) (k : Nat) (v : α) (j : Nat) :
    (m.insert k v).find j = if j = k then some v else m.find j :=
  findL_insertL k v j m.entries

theorem find_erase (m : Map α) (k j : Nat) :
    (m.erase k).find j = if j = k then none else m.find j :=
  findL_eraseL k j m.entries m.sorted

theorem find_touch [Inhabited α] (m : Map α) (k j : Nat) :
    (m.touch k).find j = if j = k then some (m.get k) else m.find j := by
  unfold touch get
  cases h : m.find k with
  | none =>
    simp only [find_insert, Option.getD_none]
  | some v =>
    simp only [Option.getD_some]
    by_cases hj : j = k
    · rw [if_pos hj, hj, h]
    · rw [if_neg hj]

theorem get_touch [Inhabited α] (m : Map α) (k j : Nat) :
    (m.touch k).get j = m.get j := by
  unfold get
  rw [find_touch]
  by_cases hj : j = k
  · rw [if_pos hj, hj]
    rfl
  · rw [if_neg hj]

theorem get_insert [Inhabited α] (m : Map α) (k : Nat) (v : α) (j : Nat) :
    (m.insert k v).get j = if j = k then v else m.get j := by
  unfold get
  rw [find_insert]
  by_cases hj : j = k
  · rw [if_pos hj, if_pos hj]
    rfl
  · rw [if_neg hj, if_neg hj]

theorem get_erase_ne [Inhabited α] (m : Map α) (k j : Nat) (h : j ≠ k) :
    (m.erase k).get j = m.get j := by
  unfold get
  rw [find_erase, if_neg h]

theorem get_of_find [Inhabited α] (m : Map α) (k : Nat) (v : α) (h : m.find k = some v) :
    m.get k = v := by
  unfold get
  rw [h]
  rfl

theorem insert_of_find (m : Map α) (k : Nat) (v : α) (h : m.find k = some v) :
    m.insert k v = m := by
  apply ext
  intro j
  rw [find_insert]
  by_cases hj : j = k
  · rw [if_pos hj, hj, h]
  · rw [if_neg hj]

theorem erase_insert_of_not_mem (m : Map α) (k : Nat) (v : α) (h : m.find k = none) :
    (m.insert k v).erase k = m := by
  apply ext
  intro j
  rw [find_erase, find_insert]
  by_cases hj : j = k
  · rw [if_pos hj, hj, h]
  · rw [if_neg hj, if_neg hj]

end Map

/-! ## Lemmas: fixed-width integers -/

theorem toI64_lower (n : Nat) : -(2 ^ 63 : Int) ≤ toI64 n := by
  unfold toI64; split <;> omega

theorem toI64_upper (n : Nat) : toI64 n < (2 ^ 63 : Int) := by
  unfold toI64; split <;> omega

theorem toI64_of_lt (n : Nat) (h : n < 2 ^ 63) : toI64 n = (n : Int) := by
  unfold toI64
  have : n % 2 ^ 64 = n := Nat.mod_eq_of_lt (by omega)
  rw [this, if_pos h]

theorem toU64_of_nonneg (i : Int) (h0 : 0 ≤ i) (h1 : i < 2 ^ 64) : toU64 i = i.toNat := by
  unfold toU64
  rw [Int.emod_eq_of_lt h0 h1]

theorem toU64_natCast (n : Nat) : toU64 (n : Int) = n % 2 ^ 64 := by
  unfold toU64
  omega

theorem toU64_lt (i : Int) : toU64 i < 2 ^ 64 := by
  unfold toU64
  omega

theorem toU64_cast (i : Int) : ((toU64 i : Nat) : Int) = i % 2 ^ 64 := by
  unfold toU64
  omega

theorem wrapI64_of_range (i : Int) (h0 : -(2 ^ 63 : Int) ≤ i) (h1 : i < 2 ^ 63) :
    wrapI64 i = i := by
  unfold wrapI64 toI64 toU64
  split <;> omega

theorem worst_buy_pos_lower (s : InstrumentState) : -(2 ^ 63 : Int) ≤ s.worst_buy_pos := by
  unfold InstrumentState.worst_buy_pos
  have := toI64_lower s.buy_qty
  simp only
  omega

theorem worst_buy_pos_upper (s : InstrumentState) : s.worst_buy_pos < (2 ^ 63 : Int) := by
  unfold InstrumentState.worst_buy_pos wrapI64
  have := toI64_upper s.buy_qty
  have := toI64_upper (toU64 (s.net_pos + toI64 s.buy_qty))
  simp only
  omega

/-- The unsigned 64-bit sum the limit test computes is the integer sum when
that lies in `[0, 2^64)`. -/
theorem limit_sum_eq (q : Nat) (w : Int) (h0 : 0 ≤ (q : Int) + w)
    (h1 : (q : Int) + w < 2 ^ 64) :
    (((q + toU64 w) % 2 ^ 64 : Nat) : Int) = (q : Int) + w := by
  have := toU64_cast w
  omega

/-! ## Lemmas: the handlers -/

namespace RiskService

open protocol

theorem register_new_order_fst (s : RiskService) (id : Nat) (o : Order) :
    (s.register_new_order id o).1 = s.accepts_new o := by
  unfold register_new_order accepts_new
  simp only [Map.get_touch]
  split_ifs <;> simp_all

theorem handle_new_order_orderId (s : RiskService) (m : NewOrder) :
    (s.handle_new_order m).1.orderId = m.orderId := by
  unfold handle_new_order
  simp only
  split_ifs
  · rfl
  · split <;> rfl

theorem handle_new_order_status (s : RiskService) (m : NewOrder) :
    (s.handle_new_order m).1.status =
      if s.accepts_new ⟨m.listingId, m.orderQuantity, m.side⟩ then ACCEPTED
      else REJECTED := by
  unfold handle_new_order
  simp only
  split_ifs with h1 h2 h2
  · exfalso
    unfold accepts_new at h2
    simp only [if_neg h1.1, if_neg h1.2] at h2
    exact absurd h2 (by simp)
  · rfl
  · have := register_new_order_fst s m.orderId ⟨m.listingId, m.orderQuantity, m.side⟩
    rw [h2] at this
    split
    · rfl
    · rename_i heq
      rw [heq] at this
      exact absurd this (by simp)
  · have := register_new_order_fst s m.orderId ⟨m.listingId, m.orderQuantity, m.side⟩
    split
    · rename_i heq
      rw [heq] at this
      exact absurd this.symm h2
    · rfl

theorem accepts_new_iff (s : RiskService) (o : Order) :
    s.accepts_new o = true ↔
      (o.side = sideB ∧
        (o.quantity + toU64 (s.instrument_state_.get o.listing_id).worst_buy_pos) % 2 ^ 64
          ≤ s.max_buy_pos_) ∨
      (o.side = sideS ∧
        (o.quantity + toU64 (s.instrument_state_.get o.listing_id).worst_sell_pos) % 2 ^ 64
          ≤ s.max_sell_pos_) := by
  unfold accepts_new
  simp only
  by_cases h1 : o.side = sideB
  · have h2 : ¬ o.side = sideS := by rw [h1]; decide
    rw [if_pos h1]
    simp only [decide_eq_true_eq]
    constructor
    · intro h; exact Or.inl ⟨h1, h⟩
    · rintro (⟨_, h⟩ | ⟨h, _⟩)
      · exact h
      · exact absurd h h2
  · rw [if_neg h1]
    by_cases h2 : o.side = sideS
    · rw [if_pos h2]
      simp only [decide_eq_true_eq]
      constructor
      · intro h; exact Or.inr ⟨h2, h⟩
      · rintro (⟨h, _⟩ | ⟨_, h⟩)
        · exact absurd h h1
        · exact h
    · rw [if_neg h2]
      constructor
      · intro h; exact absurd h (by simp)
      · rintro (⟨h, _⟩ | ⟨h, _⟩)
        · exact absurd h h1
        · exact absurd h h2

theorem handle_new_order_accepted_iff (s : RiskService) (m : NewOrder) :
    (s.handle_new_order m).1.status = ACCEPTED ↔
      s.accepts_new ⟨m.listingId, m.orderQuantity, m.side⟩ = true := by
  rw [handle_new_order_status]
  split_ifs with h
  · simp [h]
  · simp [h]

theorem handle_new_order_rejected_iff (s : RiskService) (m : NewOrder) :
    (s.handle_new_order m).1.status = REJECTED ↔
      s.accepts_new ⟨m.listingId, m.orderQuantity, m.side⟩ = false := by
  rw [handle_new_order_status]
  split_ifs with h
  · simp [h]
  · simp [h]

theorem update_order_quantity_fst (s : RiskService) (id : Nat) (o : Order) (q : Nat) :
    (s.update_order_quantity id o q).1 = s.accepts_modify o q := by
  unfold update_order_quantity accepts_modify
  simp only [Map.get_touch]
  split_ifs <;> simp_all

theorem accepts_modify_iff (s : RiskService) (o : Order) (q : Nat) :
    s.accepts_modify o q = true ↔
      (o.side = sideB ∧
        (subU64 q o.quantity + toU64 (s.instrument_state_.get o.listing_id).worst_buy_pos)
          % 2 ^ 64 ≤ s.max_buy_pos_) ∨
      (o.side = sideS ∧
        (subU64 q o.quantity + toU64 (s.instrument_state_.get o.listing_id).worst_sell_pos)
          % 2 ^ 64 ≤ s.max_sell_pos_) := by
  unfold accepts_modify
  simp only
  by_cases h1 : o.side = sideB
  · have h2 : ¬ o.side = sideS := by rw [h1]; decide
    rw [if_pos h1]
    simp only [decide_eq_true_eq]
    constructor
    · intro h; exact Or.inl ⟨h1, h⟩
    · rintro (⟨_, h⟩ | ⟨h, _⟩)
      · exact h
      · exact absurd h h2
  · rw [if_neg h1]
    by_cases h2 : o.side = sideS
    · rw [if_pos h2]
      simp only [decide_eq_true_eq]
      constructor
      · intro h; exact Or.inr ⟨h2, h⟩
      · rintro (⟨h, _⟩ | ⟨_, h⟩)
        · exact absurd h h1
        · exact h
    · rw [if_neg h2]
      constructor
      · intro h; exact absurd h (by simp)
      · rintro (⟨h, _⟩ | ⟨h, _⟩)
        · exact absurd h h1
        · exact absurd h h2

theorem handle_modify_order_unknown (s : RiskService) (m : ModifyOrderQuantity)
    (h : s.orders_.find m.orderId = none) :
    s.handle_modify_order m = (⟨OrderResponse.MESSAGE_TYPE, m.orderId, REJECTED⟩, s) := by
  unfold handle_modify_order
  simp only [h]

theorem handle_modify_order_orderId (s : RiskService) (m : ModifyOrderQuantity) :
    (s.handle_modify_order m).1.orderId = m.orderId := by
  unfold handle_modify_order
  simp only
  split
  · rfl
  · split <;> rfl

theorem handle_modify_order_status (s : RiskService) (m : ModifyOrderQuantity) (o : Order)
    (h : s.orders_.find m.orderId = some o) :
    (s.handle_modify_order m).1.status =
      if s.accepts_modify o m.newQuantity then ACCEPTED else REJECTED := by
  unfold handle_modify_order
  simp only [h]
  have := update_order_quantity_fst s m.orderId o m.newQuantity
  split
  · rename_i heq
    rw [heq] at this
    rw [← this]
    rfl
  · rename_i heq
    rw [heq] at this
    rw [← this]
    rfl

theorem handle_modify_order_accepted_iff (s : RiskService) (m : ModifyOrderQuantity)
    (o : Order) (h : s.orders_.find m.orderId = some o) :
    (s.handle_modify_order m).1.status = ACCEPTED ↔
      s.accepts_modify o m.newQuantity = true := by
  rw [handle_modify_order_status s m o h]
  split_ifs with h
  · simp [h]
  · simp [h]

end RiskService

/-- Value of `worst_buy_pos` when no 64-bit operation overflows. -/
theorem worst_buy_pos_eq (st : InstrumentState) (hb : st.buy_qty < 2 ^ 62)
    (h1 : -(2 ^ 62 : Int) < st.net_pos) (h2 : st.net_pos < 2 ^ 62) :
    st.worst_buy_pos = max (st.buy_qty : Int) (st.net_pos + st.buy_qty) := by
  unfold InstrumentState.worst_buy_pos
  simp only
  rw [toI64_of_lt _ (by omega), wrapI64_of_range _ (by omega) (by omega)]

/-- Value of `worst_sell_pos` when no 64-bit operation overflows. -/
theorem worst_sell_pos_eq (st : InstrumentState) (hb : st.sell_qty < 2 ^ 62)
    (h1 : -(2 ^ 62 : Int) < st.net_pos) (h2 : st.net_pos < 2 ^ 62) :
    st.worst_sell_pos = max (st.sell_qty : Int) (st.sell_qty - st.net_pos) := by
  unfold InstrumentState.worst_sell_pos
  simp only
  rw [toI64_of_lt _ (by omega), wrapI64_of_range _ (by omega) (by omega)]

/-- The unsigned 64-bit expression `new - old + worst` of the modify test is
the signed sum when `old <= worst < 2^63` and `new < 2^63`. -/
theorem modify_sum_eq (new old : Nat) (w : Int) (h0 : (old : Int) ≤ w)
    (h1 : w < 2 ^ 63) (h2 : new < 2 ^ 63) :
    (((subU64 new old + toU64 w) % 2 ^ 64 : Nat) : Int) = (new : Int) - old + w := by
  have := toU64_cast w
  unfold subU64
  omega

namespace RiskService

open protocol

theorem register_new_order_snd (s : RiskService) (id : Nat) (o : Order) :
    (s.register_new_order id o).2 =
      if s.accepts_new o = true then
        { s with
          orders_ := s.orders_.insert id o
          instrument_state_ := (s.instrument_state_.touch o.listing_id).insert o.listing_id
            (count_order o (s.instrument_state_.get o.listing_id)) }
      else { s with instrument_state_ := s.instrument_state_.touch o.listing_id } := by
  unfold register_new_order accepts_new count_order
  simp only [Map.get_touch]
  by_cases h1 : o.side = sideB
  · simp only [if_pos h1]
    by_cases h3 : (o.quantity + toU64 (s.instrument_state_.get o.listing_id).worst_buy_pos)
        % 2 ^ 64 ≤ s.max_buy_pos_
    · rw [if_pos h3, if_pos (decide_eq_true h3)]
    · rw [if_neg h3, if_neg (by simpa using h3)]
  · simp only [if_neg h1]
    by_cases h2 : o.side = sideS
    · simp only [if_pos h2]
      by_cases h3 : (o.quantity + toU64 (s.instrument_state_.get o.listing_id).worst_sell_pos)
          % 2 ^ 64 ≤ s.max_sell_pos_
      · rw [if_pos h3, if_pos (decide_eq_true h3)]
      · rw [if_neg h3, if_neg (by simpa using h3)]
    · simp only [if_neg h2]
      simp

theorem handle_new_order_snd (s : RiskService) (m : NewOrder) :
    (s.handle_new_order m).2 =
      if m.side ≠ sideB ∧ m.side ≠ sideS then s
      else (s.register_new_order m.orderId ⟨m.listingId, m.orderQuantity, m.side⟩).2 := by
  unfold handle_new_order
  simp only
  split_ifs
  · rfl
  · split <;> simp_all

theorem accepts_new_false_of_side (s : RiskService) (o : Order)
    (h : o.side ≠ sideB ∧ o.side ≠ sideS) : s.accepts_new o = false := by
  unfold accepts_new
  simp only [if_neg h.1, if_neg h.2]

/-- The engine after `handle_new_order`, by the outcome of the limit test. -/
theorem handle_new_order_state (s : RiskService) (m : NewOrder) :
    (s.handle_new_order m).2 =
      if s.accepts_new ⟨m.listingId, m.orderQuantity, m.side⟩ = true then
        { s with
          orders_ := s.orders_.insert m.orderId ⟨m.listingId, m.orderQuantity, m.side⟩
          instrument_state_ := (s.instrument_state_.touch m.listingId).insert m.listingId
            (count_order ⟨m.listingId, m.orderQuantity, m.side⟩
              (s.instrument_state_.get m.listingId)) }
      else if m.side ≠ sideB ∧ m.side ≠ sideS then s
      else { s with instrument_state_ := s.instrument_state_.touch m.listingId } := by
  rw [handle_new_order_snd]
  by_cases hs : m.side ≠ sideB ∧ m.side ≠ sideS
  · have := accepts_new_false_of_side s ⟨m.listingId, m.orderQuantity, m.side⟩ hs
    rw [if_pos hs, this]
    simp only [Bool.false_eq_true, if_false, if_pos hs]
  · rw [if_neg hs, register_new_order_snd]
    split_ifs <;> rfl

/-- The limit test does not consult the order book. -/
theorem accepts_new_orders_irrel (s : RiskService) (orders : Map Order) (o : Order) :
    ({ s with orders_ := orders } : RiskService).accepts_new o = s.accepts_new o := rfl

/-- The response of `handle_new_order`. -/
theorem handle_new_order_fst (s : RiskService) (m : NewOrder) :
    (s.handle_new_order m).1 =
      ⟨OrderResponse.MESSAGE_TYPE, m.orderId,
        if s.accepts_new ⟨m.listingId, m.orderQuantity, m.side⟩ = true then ACCEPTED
        else REJECTED⟩ := by
  have h1 := handle_new_order_orderId s m
  have h2 := handle_new_order_status s m
  have h3 : (s.handle_new_order m).1.messageType = OrderResponse.MESSAGE_TYPE := by
    unfold handle_new_order
    simp only
    split_ifs
    · rfl
    · split <;> rfl
  cases hr : (s.handle_new_order m).1 with
  | mk a b c =>
    rw [hr] at h1 h2 h3
    simp only at h1 h2 h3
    rw [h1, h2, h3]

end RiskService

/-! ## Lemmas: decimal rendering and `stoull` -/

namespace protocol

theorem digitChar_toNat (d : Nat) (h : d < 10) : (digitChar d).toNat = 48 + d := by
  unfold digitChar
  interval_cases d <;> rfl

theorem isdigit_digitChar (d : Nat) (h : d < 10) : isdigit (digitChar d) = true := by
  unfold isdigit
  rw [digitChar_toNat d h]
  simp
  omega

theorem isdigit_ne_space (c : Char) (h : isdigit c = true) : c ≠ ' ' := by
  intro e
  subst e
  exact absurd h (by decide)

theorem isdigit_not_isspace (c : Char) (h : isdigit c = true) : isspace c = false := by
  unfold isdigit at h
  unfold isspace
  simp at h ⊢
  omega

/-- What `to_string_aux` produces with enough fuel: a non-empty run of
digits whose value is `n`, in front of `acc`. -/
theorem to_string_aux_spec : ∀ (fuel n : Nat) (acc : List Char), n < fuel →
    ∃ ds : List Char, to_string_aux fuel n acc = ds ++ acc ∧ ds ≠ [] ∧
      (∀ c ∈ ds, isdigit c = true) ∧
      ∀ a : Nat, ds.foldl (fun a c => 10 * a + (c.toNat - 48)) a = a * 10 ^ ds.length + n
  | 0, _, _, h => absurd h (Nat.not_lt_zero _)
  | fuel + 1, n, acc, h => by
    unfold to_string_aux
    by_cases h10 : n < 10
    · rw [if_pos h10]
      refine ⟨[digitChar n], rfl, by simp, ?_, ?_⟩
      · intro c hc
        rw [List.mem_singleton.1 hc]
        exact isdigit_digitChar n h10
      · intro a
        simp only [List.foldl, List.length_singleton, pow_one]
        rw [digitChar_toNat n h10]
        omega
    · rw [if_neg h10]
      obtain ⟨ds, e, hne, hd, hv⟩ :=
        to_string_aux_spec fuel (n / 10) (digitChar (n % 10) :: acc) (by omega)
      refine ⟨ds ++ [digitChar (n % 10)], ?_, by simp, ?_, ?_⟩
      · rw [e]
        simp
      · intro c hc
        rcases List.mem_append.1 hc with hc | hc
        · exact hd c hc
        · rw [List.mem_singleton.1 hc]
          exact isdigit_digitChar _ (Nat.mod_lt _ (by decide))
      · intro a
        rw [List.foldl_append, hv a]
        simp only [List.foldl, List.length_append, List.length_singleton]
        rw [digitChar_toNat _ (Nat.mod_lt _ (by decide))]
        have h1 := Nat.div_add_mod n 10
        have h2 : a * 10 ^ (ds.length + 1) = 10 * (a * 10 ^ ds.length) := by
          rw [pow_succ]
          ring
        rw [h2]
        omega

theorem takeWhile_all {p : Char → Bool} : ∀ (l : List Char), (∀ c ∈ l, p c = true) →
    l.takeWhile p = l
  | [], _ => rfl
  | c :: t, h => by
    rw [List.takeWhile_cons, h c (List.mem_cons_self _ _)]
    simp only [if_true]
    rw [takeWhile_all t (fun d hd => h d (List.mem_cons_of_mem _ hd))]

theorem to_string_spec (n : Nat) :
    to_string n ≠ [] ∧ (∀ c ∈ to_string n, isdigit c = true) ∧
      digitsValue (to_string n) = n := by
  obtain ⟨ds, e, hne, hd, hv⟩ := to_string_aux_spec (n + 1) n [] (Nat.lt_succ_self n)
  unfold to_string digitsValue
  rw [e, List.append_nil]
  refine ⟨hne, hd, ?_⟩
  rw [hv 0]
  omega

theorem to_string_no_space (n : Nat) : ∀ c ∈ to_string n, c ≠ ' ' :=
  fun c hc => isdigit_ne_space c ((to_string_spec n).2.1 c hc)

/-- On a non-empty run of digits `stoull` returns its value, unless that
exceeds the 64-bit range. -/
theorem stoull_digits (ds : List Char) (hne : ds ≠ []) (hd : ∀ c ∈ ds, isdigit c = true)
    (hv : digitsValue ds < 2 ^ 64) : stoull ds = .ok (digitsValue ds) := by
  cases ds with
  | nil => exact absurd rfl hne
  | cons c t =>
    have hc := hd c (List.mem_cons_self _ _)
    have hsp := isdigit_not_isspace c hc
    have h1 : (c :: t).dropWhile isspace = c :: t := by
      rw [List.dropWhile_cons, hsp]
      rfl
    have hm : c ≠ '-' := by
      intro e; subst e; exact absurd hc (by decide)
    have hp : c ≠ '+' := by
      intro e; subst e; exact absurd hc (by decide)
    unfold stoull
    simp only [h1, List.head?_cons, Option.some.injEq, hm, hp, or_self, if_false,
      takeWhile_all (c :: t) hd, decide_False]
    rw [if_neg (by simp), if_neg (by omega)]

/-- On a minus sign followed by a non-empty run of digits `stoull` returns
the negated value modulo `2^64`. -/
theorem stoull_minus_digits (ds : List Char) (hne : ds ≠ [])
    (hd : ∀ c ∈ ds, isdigit c = true) (hv : digitsValue ds < 2 ^ 64) :
    stoull ('-' :: ds) = .ok ((2 ^ 64 - digitsValue ds) % 2 ^ 64) := by
  have h1 : ('-' :: ds).dropWhile isspace = '-' :: ds := by
    rw [List.dropWhile_cons]
    rfl
  unfold stoull
  simp only [h1, List.head?_cons, true_or, if_true, List.tail_cons, takeWhile_all ds hd,
    decide_True]
  rw [if_neg hne, if_neg (by omega)]

theorem stoull_to_string (n : Nat) (h : n < 2 ^ 64) : stoull (to_string n) = .ok n := by
  obtain ⟨hne, hd, hv⟩ := to_string_spec n
  have := stoull_digits (to_string n) hne hd (by rw [hv]; exact h)
  rw [this, hv]

theorem to_string_char_no_space (cs : Bool) (c : Nat) :
    ∀ x ∈ to_string_char cs c, x ≠ ' ' := by
  intro x hx
  unfold to_string_char at hx
  split_ifs at hx with h
  · unfold to_string_int at hx
    split_ifs at hx with h2
    · rcases List.mem_cons.1 hx with rfl | hx
      · decide
      · exact to_string_no_space _ x hx
    · exact to_string_no_space _ x hx
  · exact to_string_no_space _ x hx

/-- Decoding the rendering of a `char`: the code is recovered from the low
byte, whether plain `char` is signed or not. -/
theorem stoull_to_string_char (cs : Bool) (c : Nat) (h : c < 2 ^ 8) :
    ∃ v, stoull (to_string_char cs c) = .ok v ∧ v % 2 ^ 8 = c := by
  unfold to_string_char
  split_ifs with h1
  · unfold to_string_int
    have hneg : ((c : Int) - 256) < 0 := by omega
    rw [if_pos hneg]
    have habs : ((c : Int) - 256).natAbs = 256 - c := by omega
    rw [habs]
    obtain ⟨hne, hd, hv⟩ := to_string_spec (256 - c)
    refine ⟨_, stoull_minus_digits _ hne hd (by rw [hv]; omega), ?_⟩
    rw [hv]
    omega
  · exact ⟨c, stoull_to_string c (by omega), Nat.mod_eq_of_lt h⟩

end protocol

/-! ## Lemmas: the parser on a frame of tokens -/

namespace protocol

theorem findFrom_append (tok rest : List Char) (i : Nat) (h : ∀ c ∈ tok, c ≠ ' ') :
    findFrom ' ' (tok ++ rest) i = findFrom ' ' rest (i + tok.length) := by
  induction tok generalizing i with
  | nil => simp
  | cons c t ih =>
    have hc := h c (List.mem_cons_self _ _)
    have e : findFrom ' ' (c :: t ++ rest) i = findFrom ' ' (t ++ rest) (i + 1) := by
      show (if c = ' ' then some i else findFrom ' ' (t ++ rest) (i + 1)) = _
      rw [if_neg hc]
    rw [e, ih (i + 1) (fun d hd => h d (List.mem_cons_of_mem _ hd)), List.length_cons]
    congr 1
    omega

/-- One call of `parse_next` at the start of a token that ends the frame or
is followed by a space: the token is handed to `stoull`. -/
theorem parse_next_token (pre tok rest : Message) (st : Parser)
    (hb : st.begin_ = pre.length) (he : st.end_ < (pre ++ tok ++ rest).length)
    (hns : ∀ c ∈ tok, c ≠ ' ') (hr : rest = [] ∨ ∃ r, rest = ' ' :: r) :
    parse_next (pre ++ tok ++ rest) st =
      match stoull tok with
      | .ok v => .ok (v, ⟨pre.length + tok.length + 1, pre.length + tok.length⟩)
      | .error err => .error err := by
  unfold parse_next
  rw [if_neg (by omega)]
  have hdrop : (pre ++ tok ++ rest).drop st.begin_ = tok ++ rest := by
    rw [hb, List.append_assoc, List.drop_left]
  have hlen : ¬ (pre ++ tok ++ rest).length < st.begin_ := by
    rw [hb]
    simp only [List.length_append]
    omega
  have hfind : (match find_char (pre ++ tok ++ rest) ' ' st.begin_ with
      | some i => i
      | none => (pre ++ tok ++ rest).length) = pre.length + tok.length := by
    unfold find_char
    rw [hdrop, findFrom_append tok rest _ hns, hb]
    rcases hr with hr | ⟨r, hr⟩
    · subst hr
      simp [findFrom]
    · subst hr
      simp [findFrom]
  simp only [hfind]
  rw [if_neg hlen, hdrop, hb]
  have htake : (tok ++ rest).take (pre.length + tok.length - pre.length) = tok := by
    rw [Nat.add_sub_cancel_left, List.take_left]
  rw [htake]

theorem stoull_ne_nil (tok : Message) (v : Nat) (h : stoull tok = .ok v) : tok ≠ [] := by
  intro e
  subst e
  have : stoull [] = .error .invalid_argument := by decide
  rw [this] at h
  exact Except.noConfusion h

/-- A parser at the start of the tokens reads the first one and then stands
at the start of the others. -/
theorem parse_next_ready (msg : Message) (st : Parser) (tok : Message)
    (toks : List Message) (h : Ready msg st (tok :: toks)) (v : Nat)
    (hv : stoull tok = .ok v) :
    ∃ st', parse_next msg st = .ok (v, st') ∧ (toks ≠ [] → Ready msg st' toks) := by
  obtain ⟨pre, hmsg, hb, he, hns⟩ := h
  cases toks with
  | nil =>
    have hm : msg = pre ++ tok ++ [] := by
      rw [hmsg]
      simp [joinSp]
    refine ⟨⟨pre.length + tok.length + 1, pre.length + tok.length⟩, ?_, fun h => absurd rfl h⟩
    rw [hm, parse_next_token pre tok [] st hb (by rw [← hm]; exact he)
      (hns tok (List.mem_cons_self _ _)) (Or.inl rfl), hv]
  | cons u ts =>
    have hm : msg = pre ++ tok ++ (' ' :: joinSp (u :: ts)) := by
      rw [hmsg]
      simp [joinSp]
    refine ⟨⟨pre.length + tok.length + 1, pre.length + tok.length⟩, ?_, fun _ => ?_⟩
    · rw [hm, parse_next_token pre tok _ st hb (by rw [← hm]; exact he)
        (hns tok (List.mem_cons_self _ _)) (Or.inr ⟨_, rfl⟩), hv]
    · refine ⟨pre ++ tok ++ [' '], ?_, ?_, ?_, fun t ht => hns t (List.mem_cons_of_mem _ ht)⟩
      · rw [hm]
        simp
      · simp only [List.length_append, List.length_cons, List.length_nil]
      · rw [hm]
        simp only [List.length_append, List.length_cons]
        omega

theorem ready_init (tok : Message) (toks : List Message) (hne : tok ≠ [])
    (hns : ∀ t ∈ tok :: toks, ∀ c ∈ t, c ≠ ' ') :
    Ready (joinSp (tok :: toks)) makeParser (tok :: toks) := by
  refine ⟨[], rfl, rfl, ?_, hns⟩
  show 0 < (joinSp (tok :: toks)).length
  cases tok with
  | nil => exact absurd rfl hne
  | cons c t =>
    cases toks with
    | nil => simp [joinSp]
    | cons u ts => simp [joinSp]

/-- The header decoder on a frame of at least four tokens. -/
theorem decode_header_tokens (t1 t2 t3 t4 : Message) (rest : List Message)
    (v1 v2 v3 v4 : Nat) (h1 : stoull t1 = .ok v1) (h2 : stoull t2 = .ok v2)
    (h3 : stoull t3 = .ok v3) (h4 : stoull t4 = .ok v4)
    (hns : ∀ t ∈ t1 :: t2 :: t3 :: t4 :: rest, ∀ c ∈ t, c ≠ ' ') :
    decode_header (joinSp (t1 :: t2 :: t3 :: t4 :: rest)) =
      .ok ⟨v1 % 2 ^ 16, v2 % 2 ^ 16, v3 % 2 ^ 32, v4 % 2 ^ 64⟩ := by
  have r0 := ready_init t1 (t2 :: t3 :: t4 :: rest) (stoull_ne_nil t1 v1 h1) hns
  obtain ⟨s1, e1, r1⟩ := parse_next_ready _ _ _ _ r0 v1 h1
  obtain ⟨s2, e2, r2⟩ := parse_next_ready _ _ _ _ (r1 (by simp)) v2 h2
  obtain ⟨s3, e3, r3⟩ := parse_next_ready _ _ _ _ (r2 (by simp)) v3 h3
  obtain ⟨s4, e4, _⟩ := parse_next_ready _ _ _ _ (r3 (by simp)) v4 h4
  unfold decode_header
  simp only [e1, e2, e3, e4, bind, Except.bind, pure, Except.pure]

/-- The loop skipping the header on a frame of at least four tokens. -/
theorem skip_header_tokens (t1 t2 t3 t4 : Message) (rest : List Message)
    (v1 v2 v3 v4 : Nat) (h1 : stoull t1 = .ok v1) (h2 : stoull t2 = .ok v2)
    (h3 : stoull t3 = .ok v3) (h4 : stoull t4 = .ok v4)
    (hns : ∀ t ∈ t1 :: t2 :: t3 :: t4 :: rest, ∀ c ∈ t, c ≠ ' ') :
    ∃ st, skip_header (joinSp (t1 :: t2 :: t3 :: t4 :: rest)) = .ok st ∧
      (rest ≠ [] → Ready (joinSp (t1 :: t2 :: t3 :: t4 :: rest)) st rest) := by
  have r0 := ready_init t1 (t2 :: t3 :: t4 :: rest) (stoull_ne_nil t1 v1 h1) hns
  obtain ⟨s1, e1, r1⟩ := parse_next_ready _ _ _ _ r0 v1 h1
  obtain ⟨s2, e2, r2⟩ := parse_next_ready _ _ _ _ (r1 (by simp)) v2 h2
  obtain ⟨s3, e3, r3⟩ := parse_next_ready _ _ _ _ (r2 (by simp)) v3 h3
  obtain ⟨s4, e4, r4⟩ := parse_next_ready _ _ _ _ (r3 (by simp)) v4 h4
  refine ⟨s4, ?_, r4⟩
  unfold skip_header
  simp only [e1, e2, e3, e4, bind, Except.bind, pure, Except.pure]

/-- Decoder of `NewOrder` on a frame of header tokens and six payload
tokens. -/
theorem decode_payload_tokens_NewOrder (t1 t2 t3 t4 p1 p2 p3 p4 p5 p6 : Message)
    (rest : List Message) (v1 v2 v3 v4 w1 w2 w3 w4 w5 w6 : Nat)
    (h1 : stoull t1 = .ok v1) (h2 : stoull t2 = .ok v2)
    (h3 : stoull t3 = .ok v3) (h4 : stoull t4 = .ok v4)
    (g1 : stoull p1 = .ok w1) (g2 : stoull p2 = .ok w2) (g3 : stoull p3 = .ok w3)
    (g4 : stoull p4 = .ok w4) (g5 : stoull p5 = .ok w5) (g6 : stoull p6 = .ok w6)
    (hns : ∀ t ∈ t1 :: t2 :: t3 :: t4 :: p1 :: p2 :: p3 :: p4 :: p5 :: p6 :: rest,
      ∀ c ∈ t, c ≠ ' ') :
    NewOrder.decode_payload
        (joinSp (t1 :: t2 :: t3 :: t4 :: p1 :: p2 :: p3 :: p4 :: p5 :: p6 :: rest)) =
      .ok ⟨w1 % 2 ^ 16, w2 % 2 ^ 64, w3 % 2 ^ 64, w4 % 2 ^ 64, w5 % 2 ^ 64, w6 % 2 ^ 8⟩ := by
  obtain ⟨s0, e0, r0⟩ := skip_header_tokens t1 t2 t3 t4 _ v1 v2 v3 v4 h1 h2 h3 h4 hns
  obtain ⟨s1, e1, r1⟩ := parse_next_ready _ _ _ _ (r0 (by simp)) w1 g1
  obtain ⟨s2, e2, r2⟩ := parse_next_ready _ _ _ _ (r1 (by simp)) w2 g2
  obtain ⟨s3, e3, r3⟩ := parse_next_ready _ _ _ _ (r2 (by simp)) w3 g3
  obtain ⟨s4, e4, r4⟩ := parse_next_ready _ _ _ _ (r3 (by simp)) w4 g4
  obtain ⟨s5, e5, r5⟩ := parse_next_ready _ _ _ _ (r4 (by simp)) w5 g5
  obtain ⟨s6, e6, _⟩ := parse_next_ready _ _ _ _ (r5 (by simp)) w6 g6
  unfold NewOrder.decode_payload
  simp only [e0, e1, e2, e3, e4, e5, e6, bind, Except.bind, pure, Except.pure]

/-- Decoder of `DeleteOrder` on a frame of header tokens and two payload
tokens. -/
theorem decode_payload_tokens_DeleteOrder (t1 t2 t3 t4 p1 p2 : Message)
    (rest : List Message) (v1 v2 v3 v4 w1 w2 : Nat)
    (h1 : stoull t1 = .ok v1) (h2 : stoull t2 = .ok v2)
    (h3 : stoull t3 = .ok v3) (h4 : stoull t4 = .ok v4)
    (g1 : stoull p1 = .ok w1) (g2 : stoull p2 = .ok w2)
    (hns : ∀ t ∈ t1 :: t2 :: t3 :: t4 :: p1 :: p2 :: rest, ∀ c ∈ t, c ≠ ' ') :
    DeleteOrder.decode_payload (joinSp (t1 :: t2 :: t3 :: t4 :: p1 :: p2 :: rest)) =
      .ok ⟨w1 % 2 ^ 16, w2 % 2 ^ 64⟩ := by
  obtain ⟨s0, e0, r0⟩ := skip_header_tokens t1 t2 t3 t4 _ v1 v2 v3 v4 h1 h2 h3 h4 hns
  obtain ⟨s1, e1, r1⟩ := parse_next_ready _ _ _ _ (r0 (by simp)) w1 g1
  obtain ⟨s2, e2, _⟩ := parse_next_ready _ _ _ _ (r1 (by simp)) w2 g2
  unfold DeleteOrder.decode_payload
  simp only [e0, e1, e2, bind, Except.bind, pure, Except.pure]

/-- Decoder of `ModifyOrderQuantity` on a frame of header tokens and three
payload tokens. -/
theorem decode_payload_tokens_ModifyOrderQuantity (t1 t2 t3 t4 p1 p2 p3 : Message)
    (rest : List Message) (v1 v2 v3 v4 w1 w2 w3 : Nat)
    (h1 : stoull t1 = .ok v1) (h2 : stoull t2 = .ok v2)
    (h3 : stoull t3 = .ok v3) (h4 : stoull t4 = .ok v4)
    (g1 : stoull p1 = .ok w1) (g2 : stoull p2 = .ok w2) (g3 : stoull p3 = .ok w3)
    (hns : ∀ t ∈ t1 :: t2 :: t3 :: t4 :: p1 :: p2 :: p3 :: rest, ∀ c ∈ t, c ≠ ' ') :
    ModifyOrderQuantity.decode_payload
        (joinSp (t1 :: t2 :: t3 :: t4 :: p1 :: p2 :: p3 :: rest)) =
      .ok ⟨w1 % 2 ^ 16, w2 % 2 ^ 64, w3 % 2 ^ 64⟩ := by
  obtain ⟨s0, e0, r0⟩ := skip_header_tokens t1 t2 t3 t4 _ v1 v2 v3 v4 h1 h2 h3 h4 hns
  obtain ⟨s1, e1, r1⟩ := parse_next_ready _ _ _ _ (r0 (by simp)) w1 g1
  obtain ⟨s2, e2, r2⟩ := parse_next_ready _ _ _ _ (r1 (by simp)) w2 g2
  obtain ⟨s3, e3, _⟩ := parse_next_ready _ _ _ _ (r2 (by simp)) w3 g3
  unfold ModifyOrderQuantity.decode_payload
  simp only [e0, e1, e2, e3, bind, Except.bind, pure, Except.pure]

/-- Decoder of `OrderResponse` on a frame of header tokens and three payload
tokens. -/
theorem decode_payload_tokens_OrderResponse (t1 t2 t3 t4 p1 p2 p3 : Message)
    (rest : List Message) (v1 v2 v3 v4 w1 w2 w3 : Nat)
    (h1 : stoull t1 = .ok v1) (h2 : stoull t2 = .ok v2)
    (h3 : stoull t3 = .ok v3) (h4 : stoull t4 = .ok v4)
    (g1 : stoull p1 = .ok w1) (g2 : stoull p2 = .ok w2) (g3 : stoull p3 = .ok w3)
    (hns : ∀ t ∈ t1 :: t2 :: t3 :: t4 :: p1 :: p2 :: p3 :: rest, ∀ c ∈ t, c ≠ ' ') :
    OrderResponse.decode_payload
        (joinSp (t1 :: t2 :: t3 :: t4 :: p1 :: p2 :: p3 :: rest)) =
      .ok ⟨w1 % 2 ^ 16, w2 % 2 ^ 64, w3 % 2 ^ 16⟩ := by
  obtain ⟨s0, e0, r0⟩ := skip_header_tokens t1 t2 t3 t4 _ v1 v2 v3 v4 h1 h2 h3 h4 hns
  obtain ⟨s1, e1, r1⟩ := parse_next_ready _ _ _ _ (r0 (by simp)) w1 g1
  obtain ⟨s2, e2, r2⟩ := parse_next_ready _ _ _ _ (r1 (by simp)) w2 g2
  obtain ⟨s3, e3, _⟩ := parse_next_ready _ _ _ _ (r2 (by simp)) w3 g3
  unfold OrderResponse.decode_payload
  simp only [e0, e1, e2, e3, bind, Except.bind, pure, Except.pure]

/-- Decoder of `Trade` on a frame of header tokens and five payload tokens:
the fourth payload token becomes `tradeQuantity`, the fifth `tradePrice`. -/
theorem decode_payload_tokens_Trade (t1 t2 t3 t4 p1 p2 p3 p4 p5 : Message)
    (rest : List Message) (v1 v2 v3 v4 w1 w2 w3 w4 w5 : Nat)
    (h1 : stoull t1 = .ok v1) (h2 : stoull t2 = .ok v2)
    (h3 : stoull t3 = .ok v3) (h4 : stoull t4 = .ok v4)
    (g1 : stoull p1 = .ok w1) (g2 : stoull p2 = .ok w2) (g3 : stoull p3 = .ok w3)
    (g4 : stoull p4 = .ok w4) (g5 : stoull p5 = .ok w5)
    (hns : ∀ t ∈ t1 :: t2 :: t3 :: t4 :: p1 :: p2 :: p3 :: p4 :: p5 :: rest,
      ∀ c ∈ t, c ≠ ' ') :
    Trade.decode_payload
        (joinSp (t1 :: t2 :: t3 :: t4 :: p1 :: p2 :: p3 :: p4 :: p5 :: rest)) =
      .ok { messageType := w1 % 2 ^ 16, listingId := w2 % 2 ^ 64, tradeId := w3 % 2 ^ 64,
            tradeQuantity := w4 % 2 ^ 64, tradePrice := w5 % 2 ^ 64 } := by
  obtain ⟨s0, e0, r0⟩ := skip_header_tokens t1 t2 t3 t4 _ v1 v2 v3 v4 h1 h2 h3 h4 hns
  obtain ⟨s1, e1, r1⟩ := parse_next_ready _ _ _ _ (r0 (by simp)) w1 g1
  obtain ⟨s2, e2, r2⟩ := parse_next_ready _ _ _ _ (r1 (by simp)) w2 g2
  obtain ⟨s3, e3, r3⟩ := parse_next_ready _ _ _ _ (r2 (by simp)) w3 g3
  obtain ⟨s4, e4, r4⟩ := parse_next_ready _ _ _ _ (r3 (by simp)) w4 g4
  obtain ⟨s5, e5, _⟩ := parse_next_ready _ _ _ _ (r4 (by simp)) w5 g5
  unfold Trade.decode_payload
  simp only [e0, e1, e2, e3, e4, e5, bind, Except.bind, pure, Except.pure]

/-! ## Lemmas: the encoders produce frames of tokens -/

theorem encode_header_eq (h : Header) :
    encode_header h = .ok (joinSp [to_string h.version, to_string h.payloadSize,
      to_string h.sequenceNumber, to_string h.timestamp]) := by
  simp [encode_header, format, splitField, joinSp]

theorem encode_eq_NewOrder (cs : Bool) (p : NewOrder) :
    NewOrder.encode cs p = .ok (joinSp [to_string p.messageType, to_string p.listingId,
      to_string p.orderId, to_string p.orderQuantity, to_string p.orderPrice,
      to_string_char cs p.side]) := by
  simp [NewOrder.encode, format, splitField, joinSp]

theorem encode_eq_DeleteOrder (p : DeleteOrder) :
    DeleteOrder.encode p = .ok (joinSp [to_string p.messageType, to_string p.orderId]) := by
  simp [DeleteOrder.encode, format, splitField, joinSp]

theorem encode_eq_ModifyOrderQuantity (p : ModifyOrderQuantity) :
    ModifyOrderQuantity.encode p = .ok (joinSp [to_string p.messageType,
      to_string p.orderId, to_string p.newQuantity]) := by
  simp [ModifyOrderQuantity.encode, format, splitField, joinSp]

theorem encode_eq_Trade (p : Trade) :
    Trade.encode p = .ok (joinSp [to_string p.messageType, to_string p.listingId,
      to_string p.tradeId, to_string p.tradeQuantity, to_string p.tradePrice]) := by
  simp [Trade.encode, format, splitField, joinSp]

theorem encode_eq_OrderResponse (p : OrderResponse) :
    OrderResponse.encode p = .ok (joinSp [to_string p.messageType, to_string p.orderId,
      to_string (p.status % 2 ^ 16)]) := by
  simp [OrderResponse.encode, format, splitField, joinSp]

theorem joinSp_append (t : Message) (ts : List Message) (u : Message) (us : List Message) :
    joinSp ((t :: ts) ++ (u :: us)) = joinSp (t :: ts) ++ ' ' :: joinSp (u :: us) := by
  induction ts generalizing t with
  | nil => simp [joinSp]
  | cons x xs ih =>
    have := ih x
    simp only [List.cons_append] at this ⊢
    simp only [joinSp, this, List.append_assoc, List.cons_append]

/-- The frame `encode(h, p)` for a payload whose encoder yields the tokens
`u :: us`. -/
theorem encode_frame_eq (h : Header) (u : Message) (us : List Message) :
    encode h (.ok (joinSp (u :: us))) =
      .ok (joinSp (to_string h.version :: to_string h.payloadSize ::
        to_string h.sequenceNumber :: to_string h.timestamp :: u :: us)) := by
  unfold encode
  rw [encode_header_eq]
  simp only [bind, Except.bind, pure, Except.pure]
  have := joinSp_append (to_string h.version) [to_string h.payloadSize,
      to_string h.sequenceNumber, to_string h.timestamp] u us
  simp only [List.cons_append, List.nil_append] at this
  rw [this]
  simp

end protocol

namespace RiskService

open protocol

theorem update_order_quantity_snd (s : RiskService) (id : Nat) (o : Order) (q : Nat) :
    (s.update_order_quantity id o q).2 =
      if s.accepts_modify o q = true then
        { s with
          orders_ := s.orders_.insert id { o with quantity := q }
          instrument_state_ := (s.instrument_state_.touch o.listing_id).insert o.listing_id
            (recount_order o.side o.quantity q (s.instrument_state_.get o.listing_id)) }
      else { s with instrument_state_ := s.instrument_state_.touch o.listing_id } := by
  unfold update_order_quantity accepts_modify recount_order
  simp only [Map.get_touch]
  by_cases h1 : o.side = sideB
  · simp only [if_pos h1]
    by_cases h3 : (subU64 q o.quantity +
        toU64 (s.instrument_state_.get o.listing_id).worst_buy_pos) % 2 ^ 64 ≤ s.max_buy_pos_
    · rw [if_pos h3, if_pos (decide_eq_true h3)]
    · rw [if_neg h3, if_neg (by simpa using h3)]
  · simp only [if_neg h1]
    by_cases h2 : o.side = sideS
    · simp only [if_pos h2]
      by_cases h3 : (subU64 q o.quantity +
          toU64 (s.instrument_state_.get o.listing_id).worst_sell_pos) % 2 ^ 64
          ≤ s.max_sell_pos_
      · rw [if_pos h3, if_pos (decide_eq_true h3)]
      · rw [if_neg h3, if_neg (by simpa using h3)]
    · simp only [if_neg h2]
      simp

/-- The engine after `handle_modify_order` on a known order. -/
theorem handle_modify_order_state (s : RiskService) (m : ModifyOrderQuantity) (o : Order)
    (h : s.orders_.find m.orderId = some o) :
    (s.handle_modify_order m).2 =
      if s.accepts_modify o m.newQuantity = true then
        { s with
          orders_ := s.orders_.insert m.orderId { o with quantity := m.newQuantity }
          instrument_state_ := (s.instrument_state_.touch o.listing_id).insert o.listing_id
            (recount_order o.side o.quantity m.newQuantity
              (s.instrument_state_.get o.listing_id)) }
      else { s with instrument_state_ := s.instrument_state_.touch o.listing_id } := by
  rw [← update_order_quantity_snd]
  unfold handle_modify_order
  simp only [h]
  split <;> simp_all

/-- The engine after `delete_order` on a known order. -/
theorem delete_order_state (s : RiskService) (id : Nat) (o : Order)
    (h : s.orders_.find id = some o) :
    s.delete_order id =
      { s with
        orders_ := s.orders_.erase id
        instrument_state_ :=
          if o.side = sideB ∨ o.side = sideS then
            (s.instrument_state_.touch o.listing_id).insert o.listing_id
              (uncount_order o (s.instrument_state_.get o.listing_id))
          else s.instrument_state_.touch o.listing_id } := by
  unfold delete_order uncount_order
  simp only [h, Map.get_touch]
  by_cases h1 : o.side = sideB
  · rw [if_pos (Or.inl h1)]
    simp only [if_pos h1]
  · by_cases h2 : o.side = sideS
    · rw [if_pos (Or.inr h2)]
      simp only [if_neg h1, if_pos h2]
    · have hor : ¬ (o.side = sideB ∨ o.side = sideS) := fun h => h.elim h1 h2
      rw [if_neg hor]
      simp only [if_neg h1, if_neg h2]

theorem delete_order_unknown (s : RiskService) (id : Nat)
    (h : s.orders_.find id = none) : s.delete_order id = s := by
  unfold delete_order
  simp only [h]

/-- The engine after `handle_trade`. -/
theorem handle_trade_state (s : RiskService) (m : Trade) :
    s.handle_trade m =
      { s with
        orders_ := s.orders_.touch m.tradeId
        instrument_state_ :=
          if (s.orders_.get m.tradeId).side = sideB ∨ (s.orders_.get m.tradeId).side = sideS
          then
            (s.instrument_state_.touch m.listingId).insert m.listingId
              (trade_state (s.orders_.get m.tradeId).side m.tradeQuantity
                (s.instrument_state_.get m.listingId))
          else s.instrument_state_.touch m.listingId } := by
  unfold handle_trade trade_state
  simp only [Map.get_touch]
  by_cases h1 : (s.orders_.get m.tradeId).side = sideB
  · rw [if_pos (Or.inl h1)]
    simp only [if_pos h1]
  · by_cases h2 : (s.orders_.get m.tradeId).side = sideS
    · rw [if_pos (Or.inr h2)]
      simp only [if_neg h1, if_pos h2]
    · have hor : ¬ ((s.orders_.get m.tradeId).side = sideB ∨
          (s.orders_.get m.tradeId).side = sideS) := fun h => h.elim h1 h2
      rw [if_neg hor]
      simp only [if_neg h1, if_neg h2]

end RiskService

/-! ## Lemmas: sums over the order book -/

theorem sumL_eq_of_lt {α : Type} (f : α → Nat) (k : Nat) (v : α) (l : List (Nat × α))
    (h : ∀ q ∈ l, k < q.1) : sumL f (insertL k v l) = f v + sumL f l := by
  cases l with
  | nil => rfl
  | cons p t =>
    have := h p (List.mem_cons_self _ _)
    simp only [insertL, if_pos this, sumL]

theorem sumL_insertL {α : Type} (f : α → Nat) (k : Nat) (v : α) (l : List (Nat × α))
    (h : KeysSorted l) :
    sumL f (insertL k v l) + optVal f (findL k l) = sumL f l + f v := by
  induction l with
  | nil => simp [insertL, sumL, findL, optVal]
  | cons p t ih =>
    unfold KeysSorted at h ih
    rw [List.pairwise_cons] at h
    simp only [insertL, findL]
    by_cases h1 : k < p.1
    · have hne : k ≠ p.1 := by omega
      rw [if_pos h1, if_neg hne]
      have : findL k t = none :=
        findL_eq_none_of_lt k t (fun q hq => lt_trans h1 (h.1 q hq))
      rw [this]
      simp only [sumL, optVal]
      omega
    · rw [if_neg h1]
      by_cases h2 : k = p.1
      · rw [if_pos h2, if_pos h2]
        simp only [sumL, optVal]
        omega
      · rw [if_neg h2, if_neg h2]
        have := ih h.2
        simp only [sumL]
        omega

theorem sumL_eraseL {α : Type} (f : α → Nat) (k : Nat) (l : List (Nat × α)) :
    sumL f (eraseL k l) + optVal f (findL k l) = sumL f l := by
  induction l with
  | nil => simp [eraseL, sumL, findL, optVal]
  | cons p t ih =>
    simp only [eraseL, findL]
    by_cases h2 : k = p.1
    · rw [if_pos h2, if_pos h2]
      simp only [sumL, optVal]
      omega
    · rw [if_neg h2, if_neg h2]
      simp only [sumL]
      omega

theorem optVal_le_sumL {α : Type} (f : α → Nat) (k : Nat) (l : List (Nat × α)) :
    optVal f (findL k l) ≤ sumL f l := by
  have := sumL_eraseL f k l
  omega

theorem live_qty_insert (side listing : Nat) (orders : Map Order) (k : Nat) (o : Order) :
    live_qty side listing (orders.insert k o) +
        optVal (Order.contrib side listing) (orders.find k) =
      live_qty side listing orders + o.contrib side listing :=
  sumL_insertL _ k o orders.entries orders.sorted

theorem live_qty_erase (side listing : Nat) (orders : Map Order) (k : Nat) :
    live_qty side listing (orders.erase k) +
        optVal (Order.contrib side listing) (orders.find k) =
      live_qty side listing orders :=
  sumL_eraseL _ k orders.entries

theorem live_qty_touch (side listing : Nat) (orders : Map Order) (k : Nat)
    (hs : side = sideB ∨ side = sideS) :
    live_qty side listing (orders.touch k) = live_qty side listing orders := by
  unfold Map.touch
  cases h : orders.find k with
  | some o => rfl
  | none =>
    show live_qty side listing (orders.insert k default) = live_qty side listing orders
    have := live_qty_insert side listing orders k default
    rw [h] at this
    have hd : (default : Order).contrib side listing = 0 := by
      unfold Order.contrib
      rw [if_neg]
      rintro ⟨h1, _⟩
      rcases hs with rfl | rfl
      · exact absurd h1 (by decide)
      · exact absurd h1 (by decide)
    simp only [optVal] at this
    omega

theorem live_qty_empty (side listing : Nat) : live_qty side listing Map.empty = 0 := rfl

/-! ## Lemmas: aggregates under the handlers -/

namespace RiskService

open protocol

theorem qty_count_order (o : Order) (st : InstrumentState) (side : Nat)
    (ho : o.side = sideB ∨ o.side = sideS) (hs : side = sideB ∨ side = sideS) :
    (count_order o st).qty side =
      if o.side = side then addU64 (st.qty side) o.quantity else st.qty side := by
  unfold count_order InstrumentState.qty
  rcases ho with ho | ho <;> rcases hs with hs | hs <;> rw [ho, hs] <;> simp

theorem qty_recount_order (os old new : Nat) (st : InstrumentState) (side : Nat)
    (ho : os = sideB ∨ os = sideS) (hs : side = sideB ∨ side = sideS) :
    (recount_order os old new st).qty side =
      if os = side then addU64 (st.qty side) (subU64 new old) else st.qty side := by
  unfold recount_order InstrumentState.qty
  rcases ho with ho | ho <;> rcases hs with hs | hs <;> rw [ho, hs] <;> simp

theorem qty_uncount_order (o : Order) (st : InstrumentState) (side : Nat)
    (hs : side = sideB ∨ side = sideS) :
    (uncount_order o st).qty side =
      if o.side = side then subU64 (st.qty side) o.quantity else st.qty side := by
  unfold uncount_order InstrumentState.qty
  by_cases h1 : o.side = sideB
  · rcases hs with hs | hs <;> rw [h1, hs] <;> simp
  · by_cases h2 : o.side = sideS
    · rcases hs with hs | hs <;> rw [h2, hs] <;> simp
    · rcases hs with hs | hs <;> rw [hs] <;> simp [h1, h2]

theorem qty_trade_state (os q : Nat) (st : InstrumentState) (side : Nat) :
    (trade_state os q st).qty side = st.qty side := by
  unfold trade_state InstrumentState.qty
  split_ifs <;> rfl

theorem net_pos_count_order (o : Order) (st : InstrumentState) :
    (count_order o st).net_pos = st.net_pos := by
  unfold count_order
  split_ifs <;> rfl

theorem net_pos_recount_order (os old new : Nat) (st : InstrumentState) :
    (recount_order os old new st).net_pos = st.net_pos := by
  unfold recount_order
  split_ifs <;> rfl

theorem net_pos_uncount_order (o : Order) (st : InstrumentState) :
    (uncount_order o st).net_pos = st.net_pos := by
  unfold uncount_order
  split_ifs <;> rfl

theorem side_of_accepts_new (s : RiskService) (o : Order) (h : s.accepts_new o = true) :
    o.side = sideB ∨ o.side = sideS := by
  rcases (accepts_new_iff s o).1 h with ⟨h1, _⟩ | ⟨h1, _⟩
  · exact Or.inl h1
  · exact Or.inr h1

theorem side_of_accepts_modify (s : RiskService) (o : Order) (q : Nat)
    (h : s.accepts_modify o q = true) : o.side = sideB ∨ o.side = sideS := by
  rcases (accepts_modify_iff s o q).1 h with ⟨h1, _⟩ | ⟨h1, _⟩
  · exact Or.inl h1
  · exact Or.inr h1

theorem get_touch_insert (m : Map InstrumentState) (k : Nat) (v : InstrumentState)
    (j : Nat) : ((m.touch k).insert k v).get j = if j = k then v else m.get j := by
  rw [Map.get_insert, Map.get_touch]

theorem AggInv_init (a b : Nat) : AggInv (init a b) := by
  intro side hs l
  rcases hs with rfl | rfl <;> rfl

theorem AggInv_new_order (s : RiskService) (m : NewOrder) (h : AggInv s)
    (hfresh : s.orders_.find m.orderId = none) : AggInv (s.handle_new_order m).2 := by
  rw [handle_new_order_state]
  by_cases hacc : s.accepts_new ⟨m.listingId, m.orderQuantity, m.side⟩ = true
  · rw [if_pos hacc]
    have hside := side_of_accepts_new s _ hacc
    intro side hs l
    have hl := live_qty_insert side l s.orders_ m.orderId
      ⟨m.listingId, m.orderQuantity, m.side⟩
    rw [hfresh] at hl
    simp only [optVal, Order.contrib] at hl
    have hinv := h side hs l
    simp only [get_touch_insert]
    by_cases hl0 : l = m.listingId
    · subst hl0
      rw [if_pos rfl, qty_count_order _ _ _ hside hs]
      simp only
      rw [hinv]
      by_cases hsd : m.side = side
      · rw [if_pos hsd]
        rw [if_pos ⟨hsd, rfl⟩] at hl
        unfold addU64
        omega
      · rw [if_neg hsd]
        rw [if_neg (fun h => hsd h.1)] at hl
        omega
    · rw [if_neg hl0]
      rw [if_neg (fun h => hl0 h.2.symm)] at hl
      rw [hinv]
      omega
  · rw [if_neg hacc]
    split_ifs
    · exact h
    · intro side hs l
      simp only [Map.get_touch]
      exact h side hs l

theorem AggInv_modify_order (s : RiskService) (m : ModifyOrderQuantity) (h : AggInv s) :
    AggInv (s.handle_modify_order m).2 := by
  cases ho : s.orders_.find m.orderId with
  | none => rw [handle_modify_order_unknown s m ho]; exact h
  | some o =>
    rw [handle_modify_order_state s m o ho]
    by_cases hacc : s.accepts_modify o m.newQuantity = true
    · rw [if_pos hacc]
      have hside := side_of_accepts_modify s _ _ hacc
      intro side hs l
      have hl := live_qty_insert side l s.orders_ m.orderId
        { o with quantity := m.newQuantity }
      rw [ho] at hl
      simp only [optVal, Order.contrib] at hl
      have hinv := h side hs l
      simp only [get_touch_insert]
      by_cases hl0 : l = o.listing_id
      · subst hl0
        rw [if_pos rfl, qty_recount_order _ _ _ _ _ hside hs]
        rw [hinv]
        by_cases hsd : o.side = side
        · rw [if_pos hsd]
          rw [if_pos ⟨hsd, rfl⟩, if_pos ⟨hsd, rfl⟩] at hl
          unfold addU64 subU64
          omega
        · rw [if_neg hsd]
          rw [if_neg (fun h => hsd h.1), if_neg (fun h => hsd h.1)] at hl
          omega
      · rw [if_neg hl0]
        rw [if_neg (fun h => hl0 h.2.symm), if_neg (fun h => hl0 h.2.symm)] at hl
        rw [hinv]
        omega
    · rw [if_neg hacc]
      intro side hs l
      simp only [Map.get_touch]
      exact h side hs l

theorem AggInv_delete_order (s : RiskService) (id : Nat) (h : AggInv s) :
    AggInv (s.delete_order id) := by
  cases ho : s.orders_.find id with
  | none => rw [delete_order_unknown s id ho]; exact h
  | some o =>
    rw [delete_order_state s id o ho]
    intro side hs l
    have hl := live_qty_erase side l s.orders_ id
    rw [ho] at hl
    simp only [optVal, Order.contrib] at hl
    have hinv := h side hs l
    simp only
    by_cases hside : o.side = sideB ∨ o.side = sideS
    · rw [if_pos hside, get_touch_insert]
      by_cases hl0 : l = o.listing_id
      · subst hl0
        rw [if_pos rfl, qty_uncount_order _ _ _ hs]
        rw [hinv]
        by_cases hsd : o.side = side
        · rw [if_pos hsd]
          rw [if_pos ⟨hsd, rfl⟩] at hl
          unfold subU64
          omega
        · rw [if_neg hsd]
          rw [if_neg (fun h => hsd h.1)] at hl
          omega
      · rw [if_neg hl0]
        rw [if_neg (fun h => hl0 h.2.symm)] at hl
        rw [hinv]
        omega
    · rw [if_neg hside, Map.get_touch]
      have hsd : ¬ o.side = side := by
        intro e
        rcases hs with hs | hs
        · exact hside (Or.inl (e.trans hs))
        · exact hside (Or.inr (e.trans hs))
      rw [if_neg (fun h => hsd h.1)] at hl
      rw [hinv]
      omega

theorem AggInv_trade (s : RiskService) (m : Trade) (h : AggInv s) :
    AggInv (s.handle_trade m) := by
  rw [handle_trade_state]
  intro side hs l
  simp only
  rw [live_qty_touch side l s.orders_ m.tradeId hs, ← h side hs l]
  split_ifs
  · rw [get_touch_insert]
    by_cases hl0 : l = m.listingId
    · rw [if_pos hl0, qty_trade_state, hl0]
    · rw [if_neg hl0]
  · rw [Map.get_touch]

theorem AggInv_run (cs : List Call) : ∀ (s : RiskService), AggInv s →
    s.fresh_ids cs = true → AggInv (s.run cs) := by
  induction cs with
  | nil => intro s h _; exact h
  | cons c cs ih =>
    intro s h hf
    unfold run
    rw [List.foldl_cons]
    cases c with
    | new_order m =>
      simp only [fresh_ids, Bool.and_eq_true, Bool.not_eq_true', Map.contains] at hf
      have hnone : s.orders_.find m.orderId = none := by
        cases hfind : s.orders_.find m.orderId with
        | none => rfl
        | some o => rw [hfind] at hf; exact absurd hf.1 (by simp)
      exact ih _ (AggInv_new_order s m h hnone) hf.2
    | modify_order m =>
      exact ih _ (AggInv_modify_order s m h) hf
    | delete_order m =>
      exact ih _ (AggInv_delete_order s m.orderId h) hf
    | trade m =>
      exact ih _ (AggInv_trade s m h) hf

theorem toU64_toI64 (n : Nat) : toU64 (toI64 n) = n % 2 ^ 64 := by
  unfold toU64 toI64
  split <;> omega

theorem worst_buy_pos_of_net_zero (st : InstrumentState) (h : st.net_pos = 0) :
    st.worst_buy_pos = toI64 st.buy_qty := by
  unfold InstrumentState.worst_buy_pos
  simp only [h, zero_add]
  rw [wrapI64_of_range _ (toI64_lower _) (toI64_upper _)]
  exact max_self _

theorem worst_sell_pos_of_net_zero (st : InstrumentState) (h : st.net_pos = 0) :
    st.worst_sell_pos = toI64 st.sell_qty := by
  unfold InstrumentState.worst_sell_pos
  simp only [h, sub_zero]
  rw [wrapI64_of_range _ (toI64_lower _) (toI64_upper _)]
  exact max_self _

/-- With `net_pos = 0` the test for a new order compares the 64-bit sum of
the quantity and the aggregate of the order's side with the limit. -/
theorem accepts_new_of_net_zero (s : RiskService) (o : Order)
    (hnet : (s.instrument_state_.get o.listing_id).net_pos = 0)
    (hs : o.side = sideB ∨ o.side = sideS) :
    s.accepts_new o = true ↔
      (o.quantity + (s.instrument_state_.get o.listing_id).qty o.side % 2 ^ 64) % 2 ^ 64
        ≤ s.max_pos o.side := by
  rw [accepts_new_iff]
  unfold max_pos InstrumentState.qty
  rcases hs with hs | hs
  · have h2 : ¬ o.side = sideS := by rw [hs]; decide
    rw [worst_buy_pos_of_net_zero _ hnet, toU64_toI64, if_pos hs, if_pos hs]
    constructor
    · rintro (⟨_, h⟩ | ⟨h, _⟩)
      · exact h
      · exact absurd h h2
    · intro h
      exact Or.inl ⟨hs, h⟩
  · have h2 : ¬ o.side = sideB := by rw [hs]; decide
    rw [worst_sell_pos_of_net_zero _ hnet, toU64_toI64, if_neg h2, if_neg h2]
    constructor
    · rintro (⟨h, _⟩ | ⟨_, h⟩)
      · exact absurd h h2
      · exact h
    · intro h
      exact Or.inr ⟨hs, h⟩

/-- With `net_pos = 0` the test for a modification compares the 64-bit sum
of the quantity difference and the aggregate of the order's side with the
limit. -/
theorem accepts_modify_of_net_zero (s : RiskService) (o : Order) (q : Nat)
    (hnet : (s.instrument_state_.get o.listing_id).net_pos = 0)
    (hs : o.side = sideB ∨ o.side = sideS) :
    s.accepts_modify o q = true ↔
      (subU64 q o.quantity +
          (s.instrument_state_.get o.listing_id).qty o.side % 2 ^ 64) % 2 ^ 64
        ≤ s.max_pos o.side := by
  rw [accepts_modify_iff]
  unfold max_pos InstrumentState.qty
  rcases hs with hs | hs
  · have h2 : ¬ o.side = sideS := by rw [hs]; decide
    rw [worst_buy_pos_of_net_zero _ hnet, toU64_toI64, if_pos hs, if_pos hs]
    constructor
    · rintro (⟨_, h⟩ | ⟨h, _⟩)
      · exact h
      · exact absurd h h2
    · intro h
      exact Or.inl ⟨hs, h⟩
  · have h2 : ¬ o.side = sideB := by rw [hs]; decide
    rw [worst_sell_pos_of_net_zero _ hnet, toU64_toI64, if_neg h2, if_neg h2]
    constructor
    · rintro (⟨h, _⟩ | ⟨_, h⟩)
      · exact absurd h h2
      · exact h
    · intro h
      exact Or.inr ⟨hs, h⟩

theorem LimInv_init (a b : Nat) : LimInv (init a b) := by
  refine ⟨fun l => rfl, ?_⟩
  intro side hs _ l
  have h1 : ((init a b).instrument_state_.get l).qty side = 0 := by
    rcases hs with rfl | rfl <;> rfl
  have h2 : live_qty side l (init a b).orders_ = 0 := rfl
  rw [h1, h2]
  exact ⟨Nat.zero_le _, Nat.le_refl _⟩

theorem LimInv_new_order (s : RiskService) (m : NewOrder) (h : LimInv s)
    (hq : m.orderQuantity < 2 ^ 63) : LimInv (s.handle_new_order m).2 := by
  rw [handle_new_order_state]
  by_cases hacc : s.accepts_new ⟨m.listingId, m.orderQuantity, m.side⟩ = true
  · rw [if_pos hacc]
    have hside := side_of_accepts_new s _ hacc
    have htest := (accepts_new_of_net_zero s ⟨m.listingId, m.orderQuantity, m.side⟩
      (h.1 m.listingId) hside).1 hacc
    simp only at htest hside
    refine ⟨?_, ?_⟩
    · intro l
      simp only [get_touch_insert]
      split_ifs
      · rw [net_pos_count_order]
        exact h.1 _
      · exact h.1 l
    · intro side hs hmax l
      have hmax' : s.max_pos side < 2 ^ 63 := hmax
      have hl := live_qty_insert side l s.orders_ m.orderId
        ⟨m.listingId, m.orderQuantity, m.side⟩
      simp only [Order.contrib] at hl
      obtain ⟨hinv1, hinv2⟩ := h.2 side hs hmax' l
      show (((s.instrument_state_.touch m.listingId).insert m.listingId _).get l).qty side
          ≤ s.max_pos side ∧
        live_qty side l (s.orders_.insert m.orderId _) ≤
          (((s.instrument_state_.touch m.listingId).insert m.listingId _).get l).qty side
      simp only [get_touch_insert]
      by_cases hl0 : l = m.listingId
      · subst hl0
        rw [if_pos rfl, qty_count_order _ _ _ hside hs]
        simp only
        by_cases hsd : m.side = side
        · subst hsd
          rw [if_pos rfl]
          rw [if_pos ⟨rfl, rfl⟩] at hl
          unfold addU64
          omega
        · rw [if_neg hsd]
          rw [if_neg (fun h => hsd h.1)] at hl
          omega
      · rw [if_neg hl0]
        rw [if_neg (fun h => hl0 h.2.symm)] at hl
        omega
  · rw [if_neg hacc]
    split_ifs
    · exact h
    · refine ⟨fun l => ?_, fun side hs hmax l => ?_⟩
      · simp only [Map.get_touch]
        exact h.1 l
      · simp only [Map.get_touch]
        exact h.2 side hs hmax l

theorem LimInv_modify_order (s : RiskService) (m : ModifyOrderQuantity) (h : LimInv s)
    (hq : m.newQuantity < 2 ^ 63) : LimInv (s.handle_modify_order m).2 := by
  cases ho : s.orders_.find m.orderId with
  | none => rw [handle_modify_order_unknown s m ho]; exact h
  | some o =>
    rw [handle_modify_order_state s m o ho]
    by_cases hacc : s.accepts_modify o m.newQuantity = true
    · rw [if_pos hacc]
      have hside := side_of_accepts_modify s _ _ hacc
      have htest := (accepts_modify_of_net_zero s o m.newQuantity
        (h.1 o.listing_id) hside).1 hacc
      refine ⟨?_, ?_⟩
      · intro l
        simp only [get_touch_insert]
        split_ifs
        · rw [net_pos_recount_order]
          exact h.1 _
        · exact h.1 l
      · intro side hs hmax l
        have hmax' : s.max_pos side < 2 ^ 63 := hmax
        have hl := live_qty_insert side l s.orders_ m.orderId
          { o with quantity := m.newQuantity }
        have hle := optVal_le_sumL (Order.contrib side l) m.orderId s.orders_.entries
        change optVal (Order.contrib side l) (s.orders_.find m.orderId) ≤
          live_qty side l s.orders_ at hle
        rw [ho] at hl hle
        simp only [optVal, Order.contrib] at hl hle
        obtain ⟨hinv1, hinv2⟩ := h.2 side hs hmax' l
        show (((s.instrument_state_.touch o.listing_id).insert o.listing_id _).get l).qty side
            ≤ s.max_pos side ∧
          live_qty side l (s.orders_.insert m.orderId _) ≤
            (((s.instrument_state_.touch o.listing_id).insert o.listing_id _).get l).qty side
        simp only [get_touch_insert]
        by_cases hl0 : l = o.listing_id
        · subst hl0
          rw [if_pos rfl, qty_recount_order _ _ _ _ _ hside hs]
          by_cases hsd : o.side = side
          · subst hsd
            rw [if_pos rfl]
            rw [if_pos ⟨rfl, rfl⟩, if_pos ⟨rfl, rfl⟩] at hl
            rw [if_pos ⟨rfl, rfl⟩] at hle
            unfold addU64 subU64
            unfold subU64 at htest
            omega
          · rw [if_neg hsd]
            rw [if_neg (fun h => hsd h.1), if_neg (fun h => hsd h.1)] at hl
            omega
        · rw [if_neg hl0]
          rw [if_neg (fun h => hl0 h.2.symm), if_neg (fun h => hl0 h.2.symm)] at hl
          omega
    · rw [if_neg hacc]
      refine ⟨fun l => ?_, fun side hs hmax l => ?_⟩
      · simp only [Map.get_touch]
        exact h.1 l
      · simp only [Map.get_touch]
        exact h.2 side hs hmax l

theorem LimInv_delete_order (s : RiskService) (id : Nat) (h : LimInv s) :
    LimInv (s.delete_order id) := by
  cases ho : s.orders_.find id with
  | none => rw [delete_order_unknown s id ho]; exact h
  | some o =>
    rw [delete_order_state s id o ho]
    refine ⟨?_, ?_⟩
    · intro l
      simp only
      split_ifs
      · rw [get_touch_insert]
        split_ifs
        · rw [net_pos_uncount_order]
          exact h.1 _
        · exact h.1 l
      · rw [Map.get_touch]
        exact h.1 l
    · intro side hs hmax l
      have hmax' : s.max_pos side < 2 ^ 63 := hmax
      have hl := live_qty_erase side l s.orders_ id
      have hle := optVal_le_sumL (Order.contrib side l) id s.orders_.entries
      change optVal (Order.contrib side l) (s.orders_.find id) ≤
        live_qty side l s.orders_ at hle
      rw [ho] at hl hle
      simp only [optVal, Order.contrib] at hl hle
      obtain ⟨hinv1, hinv2⟩ := h.2 side hs hmax' l
      show ((if o.side = sideB ∨ o.side = sideS then
            (s.instrument_state_.touch o.listing_id).insert o.listing_id
              (uncount_order o (s.instrument_state_.get o.listing_id))
          else s.instrument_state_.touch o.listing_id).get l).qty side ≤ s.max_pos side ∧
        live_qty side l (s.orders_.erase id) ≤
          ((if o.side = sideB ∨ o.side = sideS then
            (s.instrument_state_.touch o.listing_id).insert o.listing_id
              (uncount_order o (s.instrument_state_.get o.listing_id))
          else s.instrument_state_.touch o.listing_id).get l).qty side
      by_cases hside : o.side = sideB ∨ o.side = sideS
      · rw [if_pos hside, get_touch_insert]
        by_cases hl0 : l = o.listing_id
        · subst hl0
          rw [if_pos rfl, qty_uncount_order _ _ _ hs]
          by_cases hsd : o.side = side
          · subst hsd
            rw [if_pos rfl]
            rw [if_pos ⟨rfl, rfl⟩] at hl hle
            unfold subU64
            omega
          · rw [if_neg hsd]
            rw [if_neg (fun h => hsd h.1)] at hl
            omega
        · rw [if_neg hl0]
          rw [if_neg (fun h => hl0 h.2.symm)] at hl
          omega
      · rw [if_neg hside, Map.get_touch]
        omega

theorem LimInv_run (cs : List Call) : ∀ (s : RiskService), LimInv s →
    (∀ c ∈ cs, c.small_no_trade = true) → LimInv (s.run cs) := by
  induction cs with
  | nil => intro s h _; exact h
  | cons c cs ih =>
    intro s h hc
    unfold run
    rw [List.foldl_cons]
    have hc0 := hc c (List.mem_cons_self _ _)
    have hcs : ∀ d ∈ cs, d.small_no_trade = true :=
      fun d hd => hc d (List.mem_cons_of_mem _ hd)
    cases c with
    | new_order m =>
      exact ih _ (LimInv_new_order s m h (of_decide_eq_true hc0)) hcs
    | modify_order m =>
      exact ih _ (LimInv_modify_order s m h (of_decide_eq_true hc0)) hcs
    | delete_order m =>
      exact ih _ (LimInv_delete_order s m.orderId h) hcs
    | trade m =>
      exact absurd hc0 (by simp [Call.small_no_trade])

theorem max_buy_pos_run (cs : List Call) : ∀ (s : RiskService),
    (s.run cs).max_buy_pos_ = s.max_buy_pos_ ∧ (s.run cs).max_sell_pos_ = s.max_sell_pos_ := by
  induction cs with
  | nil => intro s; exact ⟨rfl, rfl⟩
  | cons c cs ih =>
    intro s
    unfold run
    rw [List.foldl_cons]
    have h1 : (s.step c).max_buy_pos_ = s.max_buy_pos_ ∧
        (s.step c).max_sell_pos_ = s.max_sell_pos_ := by
      cases c with
      | new_order m =>
        show (s.handle_new_order m).2.max_buy_pos_ = _ ∧ (s.handle_new_order m).2.max_sell_pos_ = _
        rw [handle_new_order_state]
        split_ifs <;> exact ⟨rfl, rfl⟩
      | modify_order m =>
        show (s.handle_modify_order m).2.max_buy_pos_ = _ ∧
          (s.handle_modify_order m).2.max_sell_pos_ = _
        cases ho : s.orders_.find m.orderId with
        | none => rw [handle_modify_order_unknown s m ho]; exact ⟨rfl, rfl⟩
        | some o =>
          rw [handle_modify_order_state s m o ho]
          split_ifs <;> exact ⟨rfl, rfl⟩
      | delete_order m =>
        show (s.delete_order m.orderId).max_buy_pos_ = _ ∧
          (s.delete_order m.orderId).max_sell_pos_ = _
        cases ho : s.orders_.find m.orderId with
        | none => rw [delete_order_unknown s _ ho]; exact ⟨rfl, rfl⟩
        | some o =>
          rw [delete_order_state s _ o ho]
          exact ⟨rfl, rfl⟩
      | trade m =>
        show (s.handle_trade m).max_buy_pos_ = _ ∧ (s.handle_trade m).max_sell_pos_ = _
        rw [handle_trade_state]
        exact ⟨rfl, rfl⟩
    have h2 := ih (s.step c)
    exact ⟨h2.1.trans h1.1, h2.2.trans h1.2⟩

end RiskService

/-! ## Lemmas: trades -/

section

open RiskService protocol

theorem touch_of_find {α : Type} [Inhabited α] (m : Map α) (k : Nat) (v : α)
    (h : m.find k = some v) : m.touch k = m := by
  unfold Map.touch
  rw [h]

theorem net_pos_trade_state_B (q : Nat) (st : InstrumentState) :
    (trade_state sideB q st).net_pos = toI64 (subU64 (toU64 st.net_pos) q) := by
  unfold trade_state
  rw [if_pos rfl]

theorem net_pos_trade_state_S (q : Nat) (st : InstrumentState) :
    (trade_state sideS q st).net_pos = toI64 (addU64 (toU64 st.net_pos) q) := by
  unfold trade_state
  rw [if_neg (by decide), if_pos rfl]

theorem buy_qty_trade_state (side q : Nat) (st : InstrumentState) :
    (trade_state side q st).buy_qty = st.buy_qty ∧
    (trade_state side q st).sell_qty = st.sell_qty := by
  unfold trade_state
  split_ifs <;> exact ⟨rfl, rfl⟩

/-- The 64-bit difference read as `long long` is congruent to the integer
difference and equals it when that is representable. -/
theorem toI64_subU64 (n : Int) (q : Nat) :
    -(2 ^ 63 : Int) ≤ toI64 (subU64 (toU64 n) q) ∧ toI64 (subU64 (toU64 n) q) < 2 ^ 63 ∧
    toI64 (subU64 (toU64 n) q) % 2 ^ 64 = (n - q) % 2 ^ 64 := by
  have h := toU64_cast n
  unfold toI64 subU64
  split <;> omega

theorem toI64_addU64 (n : Int) (q : Nat) :
    -(2 ^ 63 : Int) ≤ toI64 (addU64 (toU64 n) q) ∧ toI64 (addU64 (toU64 n) q) < 2 ^ 63 ∧
    toI64 (addU64 (toU64 n) q) % 2 ^ 64 = (n + q) % 2 ^ 64 := by
  have h := toU64_cast n
  unfold toI64 addU64
  split <;> omega

end

/-! ## Lemmas: rejection under added orders -/

section

open RiskService protocol

/-- One accepted order of the side of `o` keeps `o` rejected and keeps the
listing of `o` small, when no 64-bit sum wraps. -/
theorem accepts_new_false_step (s : RiskService) (o : Order) (a : NewOrder)
    (hq : o.quantity < 2 ^ 62) (hmb : s.max_buy_pos_ < 2 ^ 62)
    (hms : s.max_sell_pos_ < 2 ^ 62) (hst : s.small_at o.listing_id)
    (hside : a.side = o.side) (haq : a.orderQuantity < 2 ^ 62)
    (hacc : (s.handle_new_order a).1.status = ACCEPTED)
    (hrej : s.accepts_new o = false) :
    (s.handle_new_order a).2.accepts_new o = false ∧
    (s.handle_new_order a).2.small_at o.listing_id ∧
    (s.handle_new_order a).2.max_buy_pos_ = s.max_buy_pos_ ∧
    (s.handle_new_order a).2.max_sell_pos_ = s.max_sell_pos_ := by
  have ha := (handle_new_order_accepted_iff s a).1 hacc
  rw [handle_new_order_state, if_pos ha]
  refine ⟨?_, ?_, rfl, rfl⟩
  · rw [Bool.eq_false_iff] at hrej ⊢
    intro h
    apply hrej
    rw [accepts_new_iff] at h ha ⊢
    simp only [get_touch_insert] at h
    obtain ⟨b, s', n, n2⟩ := hst
    by_cases hl : o.listing_id = a.listingId
    · rw [if_pos hl] at h
      rw [hl] at b s' n n2 ⊢
      rcases h with ⟨hB, h⟩ | ⟨hS, h⟩
      · left
        refine ⟨hB, ?_⟩
        rcases ha with ⟨hB2, ha⟩ | ⟨hS2, _⟩
        · simp only at ha hB2
          have e1 := worst_buy_pos_eq _ b n n2
          have e2 := limit_sum_eq a.orderQuantity
            (s.instrument_state_.get a.listingId).worst_buy_pos (by rw [e1]; omega) (by rw [e1]; omega)
          have hb2 : (count_order ⟨a.listingId, a.orderQuantity, a.side⟩
              (s.instrument_state_.get a.listingId)).buy_qty =
              (s.instrument_state_.get a.listingId).buy_qty + a.orderQuantity := by
            unfold count_order
            rw [if_pos hB2]
            simp only [addU64]
            omega
          have hn2 : (count_order ⟨a.listingId, a.orderQuantity, a.side⟩
              (s.instrument_state_.get a.listingId)).net_pos =
              (s.instrument_state_.get a.listingId).net_pos := net_pos_count_order _ _
          have e3 := worst_buy_pos_eq (count_order ⟨a.listingId, a.orderQuantity, a.side⟩
              (s.instrument_state_.get a.listingId)) (by rw [hb2]; omega)
              (by rw [hn2]; exact n) (by rw [hn2]; exact n2)
          rw [hb2, hn2] at e3
          have e4 := limit_sum_eq o.quantity
            (count_order ⟨a.listingId, a.orderQuantity, a.side⟩
              (s.instrument_state_.get a.listingId)).worst_buy_pos (by rw [e3]; omega) (by rw [e3]; omega)
          have e5 := limit_sum_eq o.quantity
            (s.instrument_state_.get a.listingId).worst_buy_pos (by rw [e1]; omega) (by rw [e1]; omega)
          omega
        · simp only at hS2
          rw [hside, hB] at hS2
          exact absurd hS2 (by decide)
      · right
        refine ⟨hS, ?_⟩
        rcases ha with ⟨hB2, _⟩ | ⟨hS2, ha⟩
        · simp only at hB2
          rw [hside, hS] at hB2
          exact absurd hB2 (by decide)
        · simp only at ha hS2
          have hB2 : ¬ a.side = sideB := by rw [hS2]; decide
          have e1 := worst_sell_pos_eq _ s' n n2
          have e2 := limit_sum_eq a.orderQuantity
            (s.instrument_state_.get a.listingId).worst_sell_pos (by rw [e1]; omega) (by rw [e1]; omega)
          have hb2 : (count_order ⟨a.listingId, a.orderQuantity, a.side⟩
              (s.instrument_state_.get a.listingId)).sell_qty =
              (s.instrument_state_.get a.listingId).sell_qty + a.orderQuantity := by
            unfold count_order
            rw [if_neg hB2]
            simp only [addU64]
            omega
          have hn2 : (count_order ⟨a.listingId, a.orderQuantity, a.side⟩
              (s.instrument_state_.get a.listingId)).net_pos =
              (s.instrument_state_.get a.listingId).net_pos := net_pos_count_order _ _
          have e3 := worst_sell_pos_eq (count_order ⟨a.listingId, a.orderQuantity, a.side⟩
              (s.instrument_state_.get a.listingId)) (by rw [hb2]; omega)
              (by rw [hn2]; exact n) (by rw [hn2]; exact n2)
          rw [hb2, hn2] at e3
          have e4 := limit_sum_eq o.quantity
            (count_order ⟨a.listingId, a.orderQuantity, a.side⟩
              (s.instrument_state_.get a.listingId)).worst_sell_pos (by rw [e3]; omega) (by rw [e3]; omega)
          have e5 := limit_sum_eq o.quantity
            (s.instrument_state_.get a.listingId).worst_sell_pos (by rw [e1]; omega) (by rw [e1]; omega)
          omega
    · rw [if_neg hl] at h
      exact h
  · unfold small_at at hst ⊢
    simp only [get_touch_insert]
    by_cases hl : o.listing_id = a.listingId
    · rw [if_pos hl]
      rw [hl] at hst
      obtain ⟨b, s', n, n2⟩ := hst
      rw [accepts_new_iff] at ha
      simp only at ha
      rw [net_pos_count_order]
      unfold count_order
      simp only
      rcases ha with ⟨hB2, ha⟩ | ⟨hS2, ha⟩
      · have e1 := worst_buy_pos_eq _ b n n2
        have e2 := limit_sum_eq a.orderQuantity
            (s.instrument_state_.get a.listingId).worst_buy_pos (by rw [e1]; omega) (by rw [e1]; omega)
        rw [if_pos hB2]
        simp only [addU64]
        refine ⟨?_, s', n, n2⟩
        omega
      · have hB2 : ¬ a.side = sideB := by rw [hS2]; decide
        have e1 := worst_sell_pos_eq _ s' n n2
        have e2 := limit_sum_eq a.orderQuantity
            (s.instrument_state_.get a.listingId).worst_sell_pos (by rw [e1]; omega) (by rw [e1]; omega)
        rw [if_neg hB2]
        simp only [addU64]
        refine ⟨b, ?_, n, n2⟩
        omega
    · rw [if_neg hl]
      exact hst

end

/-! ## Lemmas: live orders have an instrument entry -/

section

open RiskService protocol

theorem find_touch_ne_none {α : Type} [Inhabited α] (m : Map α) (k j : Nat)
    (h : m.find j ≠ none ∨ j = k) : (m.touch k).find j ≠ none := by
  rw [Map.find_touch]
  by_cases hj : j = k
  · rw [if_pos hj]
    exact Option.some_ne_none _
  · rw [if_neg hj]
    exact h.elim id (fun e => absurd e hj)

theorem find_touch_insert_ne_none {α : Type} [Inhabited α] (m : Map α) (k : Nat) (v : α)
    (j : Nat) (h : m.find j ≠ none ∨ j = k) : ((m.touch k).insert k v).find j ≠ none := by
  rw [Map.find_insert]
  by_cases hj : j = k
  · rw [if_pos hj]
    exact Option.some_ne_none _
  · rw [if_neg hj]
    exact find_touch_ne_none m k j h

/-- No handler removes an entry of the instrument map. -/
theorem instrument_entry_step (s : RiskService) (c : Call) (l : Nat)
    (h : s.instrument_state_.find l ≠ none) : (s.step c).instrument_state_.find l ≠ none := by
  cases c with
  | new_order m =>
    show (s.handle_new_order m).2.instrument_state_.find l ≠ none
    rw [handle_new_order_state]
    split_ifs
    · exact find_touch_insert_ne_none _ _ _ _ (Or.inl h)
    · exact h
    · exact find_touch_ne_none _ _ _ (Or.inl h)
  | modify_order m =>
    show (s.handle_modify_order m).2.instrument_state_.find l ≠ none
    cases ho : s.orders_.find m.orderId with
    | none => rw [handle_modify_order_unknown s m ho]; exact h
    | some o =>
      rw [handle_modify_order_state s m o ho]
      split_ifs
      · exact find_touch_insert_ne_none _ _ _ _ (Or.inl h)
      · exact find_touch_ne_none _ _ _ (Or.inl h)
  | delete_order m =>
    show (s.delete_order m.orderId).instrument_state_.find l ≠ none
    cases ho : s.orders_.find m.orderId with
    | none => rw [delete_order_unknown s _ ho]; exact h
    | some o =>
      rw [delete_order_state s _ o ho]
      simp only
      split_ifs
      · exact find_touch_insert_ne_none _ _ _ _ (Or.inl h)
      · exact find_touch_ne_none _ _ _ (Or.inl h)
  | trade m =>
    show (s.handle_trade m).instrument_state_.find l ≠ none
    rw [handle_trade_state]
    simp only
    split_ifs
    · exact find_touch_insert_ne_none _ _ _ _ (Or.inl h)
    · exact find_touch_ne_none _ _ _ (Or.inl h)

theorem EntryInv_init (a b : Nat) : EntryInv (init a b) := by
  intro id o h
  exact absurd h (by rw [show (init a b).orders_.find id = none from rfl]; exact nofun)

theorem EntryInv_step (s : RiskService) (c : Call) (h : EntryInv s) : EntryInv (s.step c) := by
  intro id o ho hside
  have hmono := instrument_entry_step s c
  cases c with
  | new_order m =>
    change (s.handle_new_order m).2.orders_.find id = some o at ho
    change (s.handle_new_order m).2.instrument_state_.find o.listing_id ≠ none
    have hm : ∀ l, s.instrument_state_.find l ≠ none →
        (s.handle_new_order m).2.instrument_state_.find l ≠ none := hmono
    rw [handle_new_order_state] at ho ⊢
    by_cases hacc : s.accepts_new ⟨m.listingId, m.orderQuantity, m.side⟩ = true
    · rw [if_pos hacc] at ho ⊢
      simp only [Map.find_insert] at ho
      by_cases hid : id = m.orderId
      · rw [if_pos hid] at ho
        have ho2 := Option.some.inj ho
        rw [← ho2]
        exact find_touch_insert_ne_none _ _ _ _ (Or.inr rfl)
      · rw [if_neg hid] at ho
        exact find_touch_insert_ne_none _ _ _ _ (Or.inl (h id o ho hside))
    · rw [if_neg hacc] at ho ⊢
      rw [handle_new_order_state, if_neg hacc] at hm
      have ho2 : s.orders_.find id = some o := by
        split_ifs at ho <;> exact ho
      exact hm _ (h id o ho2 hside)
  | modify_order m =>
    change (s.handle_modify_order m).2.orders_.find id = some o at ho
    change (s.handle_modify_order m).2.instrument_state_.find o.listing_id ≠ none
    have hm : ∀ l, s.instrument_state_.find l ≠ none →
        (s.handle_modify_order m).2.instrument_state_.find l ≠ none := hmono
    cases hfind : s.orders_.find m.orderId with
    | none =>
      rw [handle_modify_order_unknown s m hfind] at ho ⊢
      exact h id o ho hside
    | some o1 =>
      by_cases hacc : s.accepts_modify o1 m.newQuantity = true
      · rw [handle_modify_order_state s m o1 hfind, if_pos hacc] at ho
        simp only [Map.find_insert] at ho
        by_cases hid : id = m.orderId
        · rw [if_pos hid] at ho
          have ho2 := Option.some.inj ho
          apply hm
          rw [← ho2]
          exact h m.orderId o1 hfind (side_of_accepts_modify s o1 _ hacc)
        · rw [if_neg hid] at ho
          exact hm _ (h id o ho hside)
      · rw [handle_modify_order_state s m o1 hfind, if_neg hacc] at ho
        exact hm _ (h id o ho hside)
  | delete_order m =>
    change (s.delete_order m.orderId).orders_.find id = some o at ho
    change (s.delete_order m.orderId).instrument_state_.find o.listing_id ≠ none
    have hm : ∀ l, s.instrument_state_.find l ≠ none →
        (s.delete_order m.orderId).instrument_state_.find l ≠ none := hmono
    cases hfind : s.orders_.find m.orderId with
    | none =>
      rw [delete_order_unknown s _ hfind] at ho ⊢
      exact h id o ho hside
    | some o1 =>
      rw [delete_order_state s _ o1 hfind] at ho
      simp only [Map.find_erase] at ho
      by_cases hid : id = m.orderId
      · rw [if_pos hid] at ho
        exact absurd ho nofun
      · rw [if_neg hid] at ho
        exact hm _ (h id o ho hside)
  | trade m =>
    change (s.handle_trade m).orders_.find id = some o at ho
    change (s.handle_trade m).instrument_state_.find o.listing_id ≠ none
    have hm : ∀ l, s.instrument_state_.find l ≠ none →
        (s.handle_trade m).instrument_state_.find l ≠ none := hmono
    rw [handle_trade_state] at ho
    simp only [Map.find_touch] at ho
    by_cases hid : id = m.tradeId
    · rw [if_pos hid] at ho
      have ho2 := Option.some.inj ho
      cases hfind : s.orders_.find m.tradeId with
      | none =>
        have hd : s.orders_.get m.tradeId = default := by
          unfold Map.get
          rw [hfind]
          rfl
        rw [hd] at ho2
        rw [← ho2] at hside
        exact absurd hside (by decide)
      | some o1 =>
        rw [Map.get_of_find _ _ _ hfind] at ho2
        rw [ho2] at hfind
        exact hm _ (h m.tradeId o hfind hside)
    · rw [if_neg hid] at ho
      exact hm _ (h id o ho hside)

theorem EntryInv_run (cs : List Call) : ∀ (s : RiskService), EntryInv s →
    EntryInv (s.run cs) := by
  induction cs with
  | nil => intro s h; exact h
  | cons c cs ih =>
    intro s h
    unfold run
    rw [List.foldl_cons]
    exact ih _ (EntryInv_step s c h)

end

/-! ## Lemmas: the parser on an arbitrary frame -/

section

open RiskService protocol

namespace protocol

theorem splitSp_ne_nil (msg : Message) : splitSp msg ≠ [] := by
  cases msg with
  | nil => exact List.cons_ne_nil _ _
  | cons c cs =>
    unfold splitSp
    split_ifs
    · exact List.cons_ne_nil _ _
    · split <;> exact List.cons_ne_nil _ _

/-- Joining the tokens of a frame with single spaces gives the frame back. -/
theorem joinSp_splitSp (msg : Message) : joinSp (splitSp msg) = msg := by
  induction msg with
  | nil => rfl
  | cons c cs ih =>
    unfold splitSp
    by_cases hc : c = ' '
    · rw [if_pos hc]
      cases h : splitSp cs with
      | nil => exact absurd h (splitSp_ne_nil cs)
      | cons t ts =>
        rw [h] at ih
        show ([] : Message) ++ ' ' :: joinSp (t :: ts) = c :: cs
        rw [ih, hc]
        rfl
    · rw [if_neg hc]
      cases h : splitSp cs with
      | nil => exact absurd h (splitSp_ne_nil cs)
      | cons t ts =>
        rw [h] at ih
        simp only
        cases ts with
        | nil =>
          simp only [joinSp] at ih ⊢
          rw [ih]
        | cons u us =>
          simp only [joinSp] at ih ⊢
          rw [← ih]
          rfl

/-- No token of a frame contains a space. -/
theorem splitSp_no_space (msg : Message) : ∀ t ∈ splitSp msg, ∀ c ∈ t, c ≠ ' ' := by
  induction msg with
  | nil =>
    intro t ht c hc
    rw [show splitSp [] = [[]] from rfl, List.mem_singleton] at ht
    rw [ht] at hc
    exact absurd hc (List.not_mem_nil _)
  | cons x xs ih =>
    intro t ht c hc
    unfold splitSp at ht
    by_cases hx : x = ' '
    · rw [if_pos hx] at ht
      rcases List.mem_cons.1 ht with rfl | ht
      · exact absurd hc (List.not_mem_nil _)
      · exact ih t ht c hc
    · rw [if_neg hx] at ht
      cases h : splitSp xs with
      | nil => exact absurd h (splitSp_ne_nil xs)
      | cons u us =>
        rw [h] at ht ih
        simp only at ht
        rcases List.mem_cons.1 ht with rfl | ht
        · rcases List.mem_cons.1 hc with rfl | hc
          · exact hx
          · exact ih u (List.mem_cons_self _ _) c hc
        · exact ih t (List.mem_cons_of_mem _ ht) c hc

/-- At the start of a non-empty frame the parser stands before its tokens. -/
theorem ready_splitSp (msg : Message) (hne : msg ≠ []) :
    Ready msg makeParser (splitSp msg) := by
  refine ⟨[], (joinSp_splitSp msg).symm, rfl, ?_, splitSp_no_space msg⟩
  show 0 < msg.length
  exact List.length_pos.2 hne

/-- One call of `parse_next` before the tokens `tok :: toks`: the result is
that of `stoull` on `tok`; afterwards the parser stands before `toks`, or at
the end of the frame when there are none. -/
theorem parse_next_cases (msg : Message) (st : Parser) (tok : Message)
    (toks : List Message) (h : Ready msg st (tok :: toks)) :
    ∃ st', parse_next msg st =
        (match stoull tok with
          | .ok v => .ok (v, st')
          | .error err => .error err) ∧
      (toks ≠ [] → Ready msg st' toks) ∧ (toks = [] → msg.length ≤ st'.end_) := by
  obtain ⟨pre, hmsg, hb, he, hns⟩ := h
  cases toks with
  | nil =>
    have hm : msg = pre ++ tok ++ [] := by
      rw [hmsg]
      simp [joinSp]
    refine ⟨⟨pre.length + tok.length + 1, pre.length + tok.length⟩, ?_,
      fun h => absurd rfl h, fun _ => ?_⟩
    · rw [hm, parse_next_token pre tok [] st hb (by rw [← hm]; exact he)
        (hns tok (List.mem_cons_self _ _)) (Or.inl rfl)]
    · rw [hm]
      simp
  | cons u ts =>
    have hm : msg = pre ++ tok ++ (' ' :: joinSp (u :: ts)) := by
      rw [hmsg]
      simp [joinSp]
    refine ⟨⟨pre.length + tok.length + 1, pre.length + tok.length⟩, ?_, fun _ => ?_,
      fun h => absurd h (List.cons_ne_nil _ _)⟩
    · rw [hm, parse_next_token pre tok _ st hb (by rw [← hm]; exact he)
        (hns tok (List.mem_cons_self _ _)) (Or.inr ⟨_, rfl⟩)]
    · refine ⟨pre ++ tok ++ [' '], ?_, ?_, ?_, fun t ht => hns t (List.mem_cons_of_mem _ ht)⟩
      · rw [hm]
        simp
      · simp only [List.length_append, List.length_cons, List.length_nil]
      · rw [hm]
        simp only [List.length_append, List.length_cons]
        omega

/-- At the end of the frame every further call throws `runtime_error`. -/
theorem parse_many_done (msg : Message) (n : Nat) (st : Parser)
    (h : msg.length ≤ st.end_) : parse_many msg n st = stoull_many n [] := by
  cases n with
  | zero => rfl
  | succ n =>
    unfold parse_many stoull_many
    unfold parse_next
    rw [if_pos h]

/-- The calls of `parse_next` before the tokens `toks` give what `stoull`
gives on them, one after the other. -/
theorem parse_many_ready (msg : Message) (n : Nat) : ∀ (st : Parser) (toks : List Message),
    toks ≠ [] → Ready msg st toks → parse_many msg n st = stoull_many n toks := by
  induction n with
  | zero => intro st toks _ _; rfl
  | succ n ih =>
    intro st toks hne h
    cases toks with
    | nil => exact absurd rfl hne
    | cons tok rest =>
      obtain ⟨st', e, h1, h2⟩ := parse_next_cases msg st tok rest h
      unfold parse_many stoull_many
      rw [e]
      cases hs : stoull tok with
      | error err => rfl
      | ok v =>
        simp only
        by_cases hr : rest = []
        · rw [parse_many_done msg n st' (h2 hr), hr]
        · rw [ih st' rest hr (h1 hr)]

/-- On a non-empty frame the calls of `parse_next` from the initial state
give what `stoull` gives on the tokens of the frame. -/
theorem parse_many_splitSp (msg : Message) (hne : msg ≠ []) (n : Nat) :
    parse_many msg n makeParser = stoull_many n (splitSp msg) :=
  parse_many_ready msg n makeParser (splitSp msg) (splitSp_ne_nil msg) (ready_splitSp msg hne)

end protocol

end

/-! ## Lemmas: the decoders as calls of the parser -/

section

open RiskService protocol

namespace protocol

/-- The header decoder is four calls of `parse_next` and the casts. -/
theorem decode_header_parse_many (msg : Message) :
    decode_header msg =
      match parse_many msg 4 makeParser with
      | .ok [a, b, c, d] => .ok ⟨a % 2 ^ 16, b % 2 ^ 16, c % 2 ^ 32, d % 2 ^ 64⟩
      | .ok _ => .error .runtime_error
      | .error e => .error e := by
  unfold decode_header
  simp only [parse_many, bind, Except.bind, pure, Except.pure]
  cases h1 : parse_next msg makeParser with
  | error e => rfl
  | ok r1 =>
    obtain ⟨v1, s1⟩ := r1
    simp only
    cases h2 : parse_next msg s1 with
    | error e => rfl
    | ok r2 =>
      obtain ⟨v2, s2⟩ := r2
      simp only
      cases h3 : parse_next msg s2 with
      | error e => rfl
      | ok r3 =>
        obtain ⟨v3, s3⟩ := r3
        simp only
        cases h4 : parse_next msg s3 with
        | error e => rfl
        | ok r4 =>
          obtain ⟨v4, s4⟩ := r4
          rfl

/-- The decoder of `NewOrder` is ten calls of `parse_next` and the casts. -/
theorem decode_payload_parse_many_NewOrder (msg : Message) :
    NewOrder.decode_payload msg =
      match parse_many msg 10 makeParser with
      | .ok [_, _, _, _, a, b, c, d, e, f] =>
        .ok ⟨a % 2 ^ 16, b % 2 ^ 64, c % 2 ^ 64, d % 2 ^ 64, e % 2 ^ 64, f % 2 ^ 8⟩
      | .ok _ => .error .runtime_error
      | .error e => .error e := by
  unfold NewOrder.decode_payload skip_header
  simp only [parse_many, bind, Except.bind, pure, Except.pure]
  cases h1 : parse_next msg makeParser with
  | error e => rfl
  | ok r1 =>
    obtain ⟨v1, s1⟩ := r1
    simp only
    cases h2 : parse_next msg s1 with
    | error e => rfl
    | ok r2 =>
      obtain ⟨v2, s2⟩ := r2
      simp only
      cases h3 : parse_next msg s2 with
      | error e => rfl
      | ok r3 =>
        obtain ⟨v3, s3⟩ := r3
        simp only
        cases h4 : parse_next msg s3 with
        | error e => rfl
        | ok r4 =>
          obtain ⟨v4, s4⟩ := r4
          simp only
          cases h5 : parse_next msg s4 with
          | error e => rfl
          | ok r5 =>
            obtain ⟨v5, s5⟩ := r5
            simp only
            cases h6 : parse_next msg s5 with
            | error e => rfl
            | ok r6 =>
              obtain ⟨v6, s6⟩ := r6
              simp only
              cases h7 : parse_next msg s6 with
              | error e => rfl
              | ok r7 =>
                obtain ⟨v7, s7⟩ := r7
                simp only
                cases h8 : parse_next msg s7 with
                | error e => rfl
                | ok r8 =>
                  obtain ⟨v8, s8⟩ := r8
                  simp only
                  cases h9 : parse_next msg s8 with
                  | error e => rfl
                  | ok r9 =>
                    obtain ⟨v9, s9⟩ := r9
                    simp only
                    cases h10 : parse_next msg s9 with
                    | error e => rfl
                    | ok r10 =>
                      obtain ⟨v10, s10⟩ := r10
                      rfl

/-- The decoder of `DeleteOrder` is six calls of `parse_next` and the
casts. -/
theorem decode_payload_parse_many_DeleteOrder (msg : Message) :
    DeleteOrder.decode_payload msg =
      match parse_many msg 6 makeParser with
      | .ok [_, _, _, _, a, b] => .ok ⟨a % 2 ^ 16, b % 2 ^ 64⟩
      | .ok _ => .error .runtime_error
      | .error e => .error e := by
  unfold DeleteOrder.decode_payload skip_header
  simp only [parse_many, bind, Except.bind, pure, Except.pure]
  cases h1 : parse_next msg makeParser with
  | error e => rfl
  | ok r1 =>
    obtain ⟨v1, s1⟩ := r1
    simp only
    cases h2 : parse_next msg s1 with
    | error e => rfl
    | ok r2 =>
      obtain ⟨v2, s2⟩ := r2
      simp only
      cases h3 : parse_next msg s2 with
      | error e => rfl
      | ok r3 =>
        obtain ⟨v3, s3⟩ := r3
        simp only
        cases h4 : parse_next msg s3 with
        | error e => rfl
        | ok r4 =>
          obtain ⟨v4, s4⟩ := r4
          simp only
          cases h5 : parse_next msg s4 with
          | error e => rfl
          | ok r5 =>
            obtain ⟨v5, s5⟩ := r5
            simp only
            cases h6 : parse_next msg s5 with
            | error e => rfl
            | ok r6 =>
              obtain ⟨v6, s6⟩ := r6
              rfl

/-- The decoder of `ModifyOrderQuantity` is seven calls of `parse_next` and
the casts. -/
theorem decode_payload_parse_many_ModifyOrderQuantity (msg : Message) :
    ModifyOrderQuantity.decode_payload msg =
      match parse_many msg 7 makeParser with
      | .ok [_, _, _, _, a, b, c] => .ok ⟨a % 2 ^ 16, b % 2 ^ 64, c % 2 ^ 64⟩
      | .ok _ => .error .runtime_error
      | .error e => .error e := by
  unfold ModifyOrderQuantity.decode_payload skip_header
  simp only [parse_many, bind, Except.bind, pure, Except.pure]
  cases h1 : parse_next msg makeParser with
  | error e => rfl
  | ok r1 =>
    obtain ⟨v1, s1⟩ := r1
    simp only
    cases h2 : parse_next msg s1 with
    | error e => rfl
    | ok r2 =>
      obtain ⟨v2, s2⟩ := r2
      simp only
      cases h3 : parse_next msg s2 with
      | error e => rfl
      | ok r3 =>
        obtain ⟨v3, s3⟩ := r3
        simp only
        cases h4 : parse_next msg s3 with
        | error e => rfl
        | ok r4 =>
          obtain ⟨v4, s4⟩ := r4
          simp only
          cases h5 : parse_next msg s4 with
          | error e => rfl
          | ok r5 =>
            obtain ⟨v5, s5⟩ := r5
            simp only
            cases h6 : parse_next msg s5 with
            | error e => rfl
            | ok r6 =>
              obtain ⟨v6, s6⟩ := r6
              simp only
              cases h7 : parse_next msg s6 with
              | error e => rfl
              | ok r7 =>
                obtain ⟨v7, s7⟩ := r7
                rfl

/-- The decoder of `Trade` is nine calls of `parse_next` and the casts; the
eighth value is stored in `tradeQuantity`, the ninth in `tradePrice`. -/
theorem decode_payload_parse_many_Trade (msg : Message) :
    Trade.decode_payload msg =
      match parse_many msg 9 makeParser with
      | .ok [_, _, _, _, a, b, c, d, e] =>
        .ok { messageType := a % 2 ^ 16, listingId := b % 2 ^ 64, tradeId := c % 2 ^ 64,
              tradeQuantity := d % 2 ^ 64, tradePrice := e % 2 ^ 64 }
      | .ok _ => .error .runtime_error
      | .error e => .error e := by
  unfold Trade.decode_payload skip_header
  simp only [parse_many, bind, Except.bind, pure, Except.pure]
  cases h1 : parse_next msg makeParser with
  | error e => rfl
  | ok r1 =>
    obtain ⟨v1, s1⟩ := r1
    simp only
    cases h2 : parse_next msg s1 with
    | error e => rfl
    | ok r2 =>
      obtain ⟨v2, s2⟩ := r2
      simp only
      cases h3 : parse_next msg s2 with
      | error e => rfl
      | ok r3 =>
        obtain ⟨v3, s3⟩ := r3
        simp only
        cases h4 : parse_next msg s3 with
        | error e => rfl
        | ok r4 =>
          obtain ⟨v4, s4⟩ := r4
          simp only
          cases h5 : parse_next msg s4 with
          | error e => rfl
          | ok r5 =>
            obtain ⟨v5, s5⟩ := r5
            simp only
            cases h6 : parse_next msg s5 with
            | error e => rfl
            | ok r6 =>
              obtain ⟨v6, s6⟩ := r6
              simp only
              cases h7 : parse_next msg s6 with
              | error e => rfl
              | ok r7 =>
                obtain ⟨v7, s7⟩ := r7
                simp only
                cases h8 : parse_next msg s7 with
                | error e => rfl
                | ok r8 =>
                  obtain ⟨v8, s8⟩ := r8
                  simp only
                  cases h9 : parse_next msg s8 with
                  | error e => rfl
                  | ok r9 =>
                    obtain ⟨v9, s9⟩ := r9
                    rfl

/-- Without the empty ones, fewer than `n` tokens: the conversions of the
first `n` tokens fail. -/
theorem stoull_many_short (n : Nat) : ∀ (toks : List Message),
    (toks.filter (fun t => decide (t ≠ []))).length < n →
    ∃ e, stoull_many n toks = .error e := by
  induction n with
  | zero => intro toks h; exact absurd h (Nat.not_lt_zero _)
  | succ n ih =>
    intro toks h
    cases toks with
    | nil => exact ⟨_, rfl⟩
    | cons t ts =>
      unfold stoull_many
      cases hs : stoull t with
      | error e => exact ⟨e, rfl⟩
      | ok v =>
        have hne := stoull_ne_nil t v hs
        rw [List.filter_cons_of_pos (by simpa using hne), List.length_cons] at h
        obtain ⟨e, he⟩ := ih ts (by omega)
        exact ⟨e, by simp only [he]⟩

/-- Conversions of tokens that are non-empty runs of digits of value below
`2^64` succeed. -/
theorem stoull_many_digits (n : Nat) : ∀ (toks : List Message), n ≤ toks.length →
    (∀ t ∈ toks.take n, t ≠ [] ∧ (∀ c ∈ t, isdigit c = true) ∧ digitsValue t < 2 ^ 64) →
    stoull_many n toks = .ok ((toks.take n).map digitsValue) := by
  induction n with
  | zero => intro toks _ _; rfl
  | succ n ih =>
    intro toks hlen h
    cases toks with
    | nil => exact absurd hlen (by simp)
    | cons t ts =>
      obtain ⟨h1, h2, h3⟩ := h t (by simp)
      unfold stoull_many
      rw [stoull_digits t h1 h2 h3]
      simp only
      rw [ih ts (by simpa using hlen) (fun u hu => h u (by simp [hu]))]
      rfl

end protocol

end

/-! ## Lemmas: the service loop -/

section

open RiskService protocol

/-- The response frame is built without failure: seven tokens, the header
`5 24 1 now` and the three fields of the response. -/
theorem response_frame_eq (now : Nat) (r : OrderResponse) :
    response_frame now r =
      .ok (joinSp [to_string 5, to_string 24, to_string 1, to_string (now % 2 ^ 64),
        to_string r.messageType, to_string r.orderId, to_string (r.status % 2 ^ 16)]) := by
  unfold response_frame
  rw [encode_eq_OrderResponse, encode_frame_eq]
  rfl

/-- On a non-empty frame with fewer than `n` tokens, the empty ones not
counted, `n` calls of `parse_next` fail. -/
theorem parse_many_short (msg : Message) (hne : msg ≠ []) (n : Nat)
    (h : ((splitSp msg).filter (fun t => decide (t ≠ []))).length < n) :
    ∃ e, parse_many msg n makeParser = .error e := by
  rw [parse_many_splitSp msg hne]
  exact stoull_many_short n _ h

end

/-! ## Lemmas: prefixes of a run -/

section

open RiskService protocol

/-- A prefix of a sequence of calls with fresh ids has fresh ids. -/
theorem fresh_ids_take (cs : List Call) : ∀ (s : RiskService) (k : Nat),
    s.fresh_ids cs = true → s.fresh_ids (cs.take k) = true := by
  induction cs with
  | nil => intro s k h; simpa using h
  | cons c cs ih =>
    intro s k h
    cases k with
    | zero => rfl
    | succ k =>
      rw [List.take_succ_cons]
      cases c with
      | new_order m =>
        simp only [fresh_ids, Bool.and_eq_true] at h ⊢
        exact ⟨h.1, ih _ k h.2⟩
      | modify_order m => exact ih _ k h
      | delete_order m => exact ih _ k h
      | trade m => exact ih _ k h

end

/-! ## Lemmas: tokens without a numeral -/

section

open RiskService protocol

namespace protocol

/-- On a token without a leading numeral `stoull` throws
`invalid_argument`. -/
theorem stoull_lacks_numeral (t : Message) (h : lacks_numeral t = true) :
    stoull t = .error .invalid_argument := by
  unfold lacks_numeral at h
  unfold stoull
  simp only at h ⊢
  generalize (if (t.dropWhile isspace).head? = some '-' ∨ (t.dropWhile isspace).head? = some '+'
    then (t.dropWhile isspace).tail else t.dropWhile isspace) = s at h ⊢
  cases s with
  | nil => simp
  | cons c r =>
    simp only [Bool.not_eq_true'] at h
    have : (c :: r).takeWhile isdigit = [] := by
      rw [List.takeWhile_cons, h]
      rfl
    rw [this]
    simp

/-- The conversions of the first `n` tokens fail when `stoull` fails on one
of them. -/
theorem stoull_many_bad (n : Nat) : ∀ (toks : List Message),
    (∃ t ∈ toks.take n, ∃ e, stoull t = .error e) → ∃ e, stoull_many n toks = .error e := by
  induction n with
  | zero =>
    intro toks h
    obtain ⟨t, ht, _⟩ := h
    simp at ht
  | succ n ih =>
    intro toks h
    cases toks with
    | nil => exact ⟨_, rfl⟩
    | cons u us =>
      unfold stoull_many
      cases hs : stoull u with
      | error e => exact ⟨e, rfl⟩
      | ok v =>
        obtain ⟨t, ht, e, he⟩ := h
        rw [List.take_succ_cons, List.mem_cons] at ht
        rcases ht with rfl | ht
        · rw [hs] at he
          exact Except.noConfusion he
        · obtain ⟨e2, h2⟩ := ih us ⟨t, ht, e, he⟩
          exact ⟨e2, by simp only [h2]⟩

/-- The first `n` calls of `parse_next` on a frame fail when one of its
first `n` tokens has no leading numeral. -/
theorem parse_many_bad (msg : Message) (n : Nat)
    (h : ∃ t ∈ (splitSp msg).take n, lacks_numeral t = true) :
    ∃ e, parse_many msg n makeParser = .error e := by
  obtain ⟨t, ht, hl⟩ := h
  by_cases hne : msg = []
  · subst hne
    cases n with
    | zero => simp at ht
    | succ n => exact ⟨.runtime_error, rfl⟩
  · rw [parse_many_splitSp msg hne]
    exact stoull_many_bad n _ ⟨t, ht, _, stoull_lacks_numeral t hl⟩

end protocol

end

/-! ## Lemmas: the layout of a frame -/

section

open RiskService protocol

namespace protocol

theorem splitSp_of_no_space (t : Message) (h : ∀ c ∈ t, c ≠ ' ') : splitSp t = [t] := by
  induction t with
  | nil => rfl
  | cons c t ih =>
    rw [splitSp, if_neg (h c (List.mem_cons_self _ _)),
      ih (fun x hx => h x (List.mem_cons_of_mem _ hx))]

theorem splitSp_append_space (t r : Message) (h : ∀ c ∈ t, c ≠ ' ') :
    splitSp (t ++ ' ' :: r) = t :: splitSp r := by
  induction t with
  | nil =>
    show splitSp (' ' :: r) = [] :: splitSp r
    rw [splitSp, if_pos rfl]
  | cons c t ih =>
    show splitSp (c :: (t ++ ' ' :: r)) = (c :: t) :: splitSp r
    rw [splitSp, if_neg (h c (List.mem_cons_self _ _)),
      ih (fun x hx => h x (List.mem_cons_of_mem _ hx))]

/-- Splitting the join of space-free tokens gives the tokens back. -/
theorem splitSp_joinSp (toks : List Message) (hne : toks ≠ [])
    (h : ∀ t ∈ toks, ∀ c ∈ t, c ≠ ' ') : splitSp (joinSp toks) = toks := by
  induction toks with
  | nil => exact absurd rfl hne
  | cons t ts ih =>
    cases ts with
    | nil => exact splitSp_of_no_space t (h t (List.mem_cons_self _ _))
    | cons u us =>
      show splitSp (t ++ ' ' :: joinSp (u :: us)) = t :: u :: us
      rw [splitSp_append_space t _ (h t (List.mem_cons_self _ _)),
        ih (List.cons_ne_nil _ _) (fun x hx => h x (List.mem_cons_of_mem _ hx))]

theorem joinSp_head (t : Message) (ts : List Message) (hne : t ≠ []) :
    (joinSp (t :: ts)).head? = t.head? := by
  cases t with
  | nil => exact absurd rfl hne
  | cons c r =>
    cases ts with
    | nil => rfl
    | cons u us => rfl

theorem joinSp_getLast (toks : List Message) (hne : toks ≠ [])
    (h : ∀ t ∈ toks, t ≠ [] ∧ ∀ c ∈ t, c ≠ ' ') : (joinSp toks).getLast? ≠ some ' ' := by
  induction toks with
  | nil => exact absurd rfl hne
  | cons t ts ih =>
    cases ts with
    | nil =>
      show t.getLast? ≠ some ' '
      intro e
      have := List.mem_of_getLast?_eq_some e
      exact (h t (List.mem_cons_self _ _)).2 _ this rfl
    | cons u us =>
      show (t ++ ' ' :: joinSp (u :: us)).getLast? ≠ some ' '
      have hj : joinSp (u :: us) ≠ [] := by
        have hu := (h u (by simp)).1
        cases u with
        | nil => exact absurd rfl hu
        | cons c r =>
          cases us with
          | nil => exact List.cons_ne_nil _ _
          | cons v vs => exact List.cons_ne_nil _ _
      have e : (t ++ ' ' :: joinSp (u :: us)).getLast? = (joinSp (u :: us)).getLast? := by
        rw [List.getLast?_append_of_ne_nil _ (List.cons_ne_nil _ _)]
        cases hx : joinSp (u :: us) with
        | nil => exact absurd hx hj
        | cons a b => rw [List.getLast?_cons_cons]
      rw [e]
      exact ih (List.cons_ne_nil _ _) (fun x hx => h x (List.mem_cons_of_mem _ hx))

/-- The join of non-empty space-free tokens is their frame. -/
theorem frame_of_joinSp (toks : List Message) (hne : toks ≠ [])
    (h : ∀ t ∈ toks, t ≠ [] ∧ ∀ c ∈ t, c ≠ ' ') : frame_of toks (joinSp toks) := by
  refine ⟨rfl, splitSp_joinSp toks hne (fun t ht => (h t ht).2), ?_, joinSp_getLast toks hne h⟩
  cases toks with
  | nil => exact absurd rfl hne
  | cons t ts =>
    have ht := h t (List.mem_cons_self _ _)
    rw [joinSp_head t ts ht.1]
    intro e
    have := List.mem_of_mem_head? e
    exact ht.2 _ this rfl

theorem digitChar_ne_zero (d : Nat) (h1 : 0 < d) (h2 : d < 10) : digitChar d ≠ '0' := by
  intro e
  have := digitChar_toNat d h2
  rw [e] at this
  have h0 : ('0' : Char).toNat = 48 := rfl
  omega

theorem to_string_aux_head : ∀ (fuel n : Nat) (acc : List Char), n < fuel → 0 < n →
    ∃ d, 0 < d ∧ d < 10 ∧ (to_string_aux fuel n acc).head? = some (digitChar d)
  | 0, _, _, h, _ => absurd h (Nat.not_lt_zero _)
  | fuel + 1, n, acc, h, hpos => by
    unfold to_string_aux
    by_cases h10 : n < 10
    · rw [if_pos h10]
      exact ⟨n, hpos, h10, rfl⟩
    · rw [if_neg h10]
      exact to_string_aux_head fuel (n / 10) _ (by omega) (by omega)

/-- The rendering of a number is a numeral without padding. -/
theorem to_string_plain (n : Nat) : plain_numeral (to_string n) := by
  obtain ⟨hne, hd, _⟩ := to_string_spec n
  refine ⟨hne, hd, ?_⟩
  intro h0
  by_cases hn : n = 0
  · subst hn
    rfl
  · obtain ⟨d, d1, d2, hh⟩ := to_string_aux_head (n + 1) n [] (by omega) (by omega)
    unfold to_string at h0
    rw [hh] at h0
    exact absurd (Option.some.inj h0) (digitChar_ne_zero d d1 d2)

theorem to_string_ne_nil (n : Nat) : to_string n ≠ [] := (to_string_spec n).1

theorem to_string_char_ne_nil (cs : Bool) (c : Nat) : to_string_char cs c ≠ [] := by
  unfold to_string_char
  split_ifs
  · unfold to_string_int
    split_ifs
    · exact List.cons_ne_nil _ _
    · exact to_string_ne_nil _
  · exact to_string_ne_nil _

end protocol

end

/-! ## Lemmas: the frames the service sends -/

section

open RiskService protocol

theorem handle_modify_order_fst (s : RiskService) (m : ModifyOrderQuantity) :
    ∃ st, (st = ACCEPTED ∨ st = REJECTED) ∧
      (s.handle_modify_order m).1 = ⟨OrderResponse.MESSAGE_TYPE, m.orderId, st⟩ := by
  unfold handle_modify_order
  simp only
  split
  · exact ⟨REJECTED, Or.inr rfl, rfl⟩
  · split
    · exact ⟨ACCEPTED, Or.inl rfl, rfl⟩
    · exact ⟨REJECTED, Or.inr rfl, rfl⟩

/-- Every frame `serve_client` sends is the response frame of the handler
of a NewOrder or of a ModifyOrderQuantity, for the order id of the decoded
payload. -/
theorem serve_client_sent (s : RiskService) (now : Nat) (msg : Message)
    (r : Except Error Bool) (t : RiskService) (out : Message)
    (h : s.serve_client now msg = (r, t, some out)) :
    ∃ n st, (st = ACCEPTED ∨ st = REJECTED) ∧
      ((∃ p, NewOrder.decode_payload msg = .ok p ∧ p.orderId = n) ∨
        (∃ p, ModifyOrderQuantity.decode_payload msg = .ok p ∧ p.orderId = n)) ∧
      out = joinSp [to_string 5, to_string 24, to_string 1, to_string (now % 2 ^ 64),
        to_string 5, to_string n, to_string st] := by
  unfold serve_client at h
  split_ifs at h with h0
  · simp at h
  · split at h
    · simp at h
    · split_ifs at h with h1 h2 h3 h4
      · split at h
        · simp at h
        · rename_i p hp
          have hf := handle_new_order_fst s p
          cases hx : s.handle_new_order p with
          | mk resp s2 =>
            rw [hx] at h hf
            simp only [response_frame_eq, Prod.mk.injEq, Option.some.injEq] at h hf
            rw [hf] at h
            refine ⟨p.orderId, (if s.accepts_new ⟨p.listingId, p.orderQuantity, p.side⟩ = true
              then ACCEPTED else REJECTED), ?_, Or.inl ⟨p, hp, rfl⟩, h.2.2.symm.trans ?_⟩
            · split_ifs
              · exact Or.inl rfl
              · exact Or.inr rfl
            · split_ifs <;> rfl
      · split at h <;> simp at h
      · split at h
        · simp at h
        · rename_i p hp
          obtain ⟨st, hst, e⟩ := handle_modify_order_fst s p
          cases hx : s.handle_modify_order p with
          | mk resp s2 =>
            rw [hx] at h e
            simp only [response_frame_eq, Prod.mk.injEq, Option.some.injEq] at h e
            rw [e] at h
            exact ⟨p.orderId, st, hst, Or.inr ⟨p, hp, rfl⟩, h.2.2.symm.trans (by
              rcases hst with rfl | rfl <;> rfl)⟩
      · split at h <;> simp at h
      · simp at h

end

/-! ## Lemmas: bounds in the runs without trades -/

section

open RiskService protocol

/-- What the invariant of the runs without trades says of one listing when
both limits are below `2^63`. -/
theorem LimInv_bounds (s : RiskService) (h : LimInv s) (hb : s.max_buy_pos_ < 2 ^ 63)
    (hs : s.max_sell_pos_ < 2 ^ 63) (l : Nat) :
    (s.instrument_state_.get l).net_pos = 0 ∧
    (s.instrument_state_.get l).buy_qty ≤ s.max_buy_pos_ ∧
    (s.instrument_state_.get l).sell_qty ≤ s.max_sell_pos_ ∧
    live_qty sideB l s.orders_ ≤ (s.instrument_state_.get l).buy_qty ∧
    live_qty sideS l s.orders_ ≤ (s.instrument_state_.get l).sell_qty := by
  have h1 := h.2 sideB (Or.inl rfl) (by
    show (if sideB = sideB then _ else _) < 2 ^ 63
    rw [if_pos rfl]; exact hb) l
  have h2 := h.2 sideS (Or.inr rfl) (by
    show (if sideS = sideB then _ else _) < 2 ^ 63
    rw [if_neg (by decide)]; exact hs) l
  unfold max_pos InstrumentState.qty at h1 h2
  rw [if_pos rfl, if_pos rfl] at h1
  rw [if_neg (by decide), if_neg (by decide)] at h2
  exact ⟨h.1 l, h1.1, h2.1, h1.2, h2.2⟩

/-- A live order counts in the sum of its side and listing. -/
theorem quantity_le_live_qty (orders : Map Order) (id : Nat) (o : Order)
    (ho : orders.find id = some o) : o.quantity ≤ live_qty o.side o.listing_id orders := by
  have := optVal_le_sumL (Order.contrib o.side o.listing_id) id orders.entries
  have e : optVal (Order.contrib o.side o.listing_id) (findL id orders.entries) =
      o.quantity := by
    have ho2 : findL id orders.entries = some o := ho
    rw [ho2]
    show Order.contrib o.side o.listing_id o = o.quantity
    unfold Order.contrib
    rw [if_pos ⟨rfl, rfl⟩]
  rw [e] at this
  exact this

end

/-! ## The claims -/

section

open RiskService protocol

set_option maxRecDepth 100000 in
/-- C1 (as stated) fails, in two ways. With limits 20, after the accepted
orders NewOrder(listing 1, id 1, 20, B) and NewOrder(listing 1, id 2, 20, S)
the trade Trade(listing 1, trade_id 1, quantity 20) sets `net_pos = -20`,
and listing 1 then has `worst_sell_pos = 40 > 20 = max_sell_pos`. And
without any trade, the buy orders of quantity 20 (id 1) and `2^64 - 15`
(id 2, accepted because the 64-bit sum wraps to 5), the deletion of order 1,
a buy order of quantity 30 (id 3) and the deletion of order 2 leave
`buy_qty = worst_buy_pos = 30 > 20`. -/
theorem C1_counterexample :
    (let s := (RiskService.init 20 20).run
      [.new_order ⟨1, 1, 1, 20, 1, sideB⟩, .new_order ⟨1, 1, 2, 20, 1, sideS⟩,
       .trade ⟨4, 1, 1, 20, 1⟩]
    let u := (RiskService.init 20 20).run
      [.new_order ⟨1, 1, 1, 20, 1, sideB⟩, .new_order ⟨1, 1, 2, 2 ^ 64 - 15, 1, sideB⟩,
       .delete_order ⟨2, 1⟩, .new_order ⟨1, 1, 3, 30, 1, sideB⟩, .delete_order ⟨2, 2⟩]
    (s.instrument_state_.get 1).net_pos = -20 ∧
    (s.instrument_state_.get 1).worst_sell_pos = 40 ∧
    ¬ ((s.instrument_state_.get 1).worst_buy_pos ≤ (s.max_buy_pos_ : Int) ∧
       (s.instrument_state_.get 1).worst_sell_pos ≤ (s.max_sell_pos_ : Int)) ∧
    (u.instrument_state_.get 1).worst_buy_pos = 30 ∧
    ¬ ((u.instrument_state_.get 1).worst_buy_pos ≤ (u.max_buy_pos_ : Int) ∧
       (u.instrument_state_.get 1).worst_sell_pos ≤ (u.max_sell_pos_ : Int))) := by
  decide

/-- C1 (amended): starting from the empty engine, after every sequence of
`handle_new_order`, `handle_modify_order` and `handle_delete_order` calls
(accepted or rejected, duplicate ids allowed, no `handle_trade`) whose
message quantities are below `2^63`, every listing satisfies
`worst_buy_pos <= max_buy_pos` and `worst_sell_pos <= max_sell_pos`. -/
theorem C1_limit_invariant (max_buy max_sell : Nat) (cs : List Call)
    (hcs : ∀ c ∈ cs, c.small_no_trade = true) (l : Nat) :
    (((RiskService.init max_buy max_sell).run cs).instrument_state_.get l).worst_buy_pos
      ≤ (max_buy : Int) ∧
    (((RiskService.init max_buy max_sell).run cs).instrument_state_.get l).worst_sell_pos
      ≤ (max_sell : Int) := by
  have hinv := LimInv_run cs _ (LimInv_init max_buy max_sell) hcs
  have hmax := max_buy_pos_run cs (RiskService.init max_buy max_sell)
  have hnet := hinv.1 l
  constructor
  · rw [worst_buy_pos_of_net_zero _ hnet]
    by_cases hb : max_buy < 2 ^ 63
    · have h := (hinv.2 sideB (Or.inl rfl) (by
        show (if sideB = sideB then _ else _) < 2 ^ 63
        rw [if_pos rfl, hmax.1]
        exact hb) l).1
      have e : ((RiskService.init max_buy max_sell).run cs).max_pos sideB = max_buy := by
        show (if sideB = sideB then _ else _) = max_buy
        rw [if_pos rfl, hmax.1]
        rfl
      rw [e] at h
      have e2 : ((((RiskService.init max_buy max_sell).run cs).instrument_state_.get l).qty
          sideB) = (((RiskService.init max_buy max_sell).run cs).instrument_state_.get
            l).buy_qty := rfl
      rw [e2] at h
      rw [toI64_of_lt _ (by omega)]
      omega
    · have := toI64_upper
        (((RiskService.init max_buy max_sell).run cs).instrument_state_.get l).buy_qty
      omega
  · rw [worst_sell_pos_of_net_zero _ hnet]
    by_cases hb : max_sell < 2 ^ 63
    · have h := (hinv.2 sideS (Or.inr rfl) (by
        show (if sideS = sideB then _ else _) < 2 ^ 63
        rw [if_neg (by decide), hmax.2]
        exact hb) l).1
      have e : ((RiskService.init max_buy max_sell).run cs).max_pos sideS = max_sell := by
        show (if sideS = sideB then _ else _) = max_sell
        rw [if_neg (by decide), hmax.2]
        rfl
      rw [e] at h
      have e2 : ((((RiskService.init max_buy max_sell).run cs).instrument_state_.get l).qty
          sideS) = (((RiskService.init max_buy max_sell).run cs).instrument_state_.get
            l).sell_qty := rfl
      rw [e2] at h
      rw [toI64_of_lt _ (by omega)]
      omega
    · have := toI64_upper
        (((RiskService.init max_buy max_sell).run cs).instrument_state_.get l).sell_qty
      omega

set_option maxRecDepth 100000 in
/-- Witness for C1: the calls of the test scenario without its trade, on
listing 2. -/
theorem C1_limit_invariant_witness :
    (((RiskService.init 20 20).run
        [.new_order ⟨1, 1, 1, 10, 1, sideB⟩, .new_order ⟨1, 2, 2, 15, 1, sideS⟩,
         .new_order ⟨1, 2, 3, 4, 1, sideB⟩, .new_order ⟨1, 2, 4, 20, 1, sideB⟩,
         .modify_order ⟨3, 2, 20⟩,
         .delete_order ⟨2, 3⟩]).instrument_state_.get 2).worst_buy_pos ≤ ((20 : Nat) : Int) ∧
    (((RiskService.init 20 20).run
        [.new_order ⟨1, 1, 1, 10, 1, sideB⟩, .new_order ⟨1, 2, 2, 15, 1, sideS⟩,
         .new_order ⟨1, 2, 3, 4, 1, sideB⟩, .new_order ⟨1, 2, 4, 20, 1, sideB⟩,
         .modify_order ⟨3, 2, 20⟩,
         .delete_order ⟨2, 3⟩]).instrument_state_.get 2).worst_sell_pos ≤ ((20 : Nat) : Int) :=
  C1_limit_invariant 20 20
    [.new_order ⟨1, 1, 1, 10, 1, sideB⟩, .new_order ⟨1, 2, 2, 15, 1, sideS⟩,
     .new_order ⟨1, 2, 3, 4, 1, sideB⟩, .new_order ⟨1, 2, 4, 20, 1, sideB⟩,
     .modify_order ⟨3, 2, 20⟩, .delete_order ⟨2, 3⟩]
    (by decide) 2

set_option maxRecDepth 100000 in
/-- C2 (as stated) fails, in two ways. With limits 20, two accepted
NewOrder calls under the same id 1 (quantities 10 and 5, side `B`,
listing 1) leave `buy_qty = 15` while the only live order has quantity 5.
And with fresh ids, NewOrder(id 1, quantity 1) followed by
NewOrder(id 2, quantity `2^64 - 1`) leaves `buy_qty = 0` while the live
quantities sum to `2^64`. -/
theorem C2_counterexample :
    (let s := (RiskService.init 20 20).run
      [.new_order ⟨1, 1, 1, 10, 1, sideB⟩, .new_order ⟨1, 1, 1, 5, 1, sideB⟩]
    let u := (RiskService.init 20 20).run
      [.new_order ⟨1, 1, 1, 1, 1, sideB⟩, .new_order ⟨1, 1, 2, 2 ^ 64 - 1, 1, sideB⟩]
    (s.instrument_state_.get 1).buy_qty = 15 ∧ live_qty sideB 1 s.orders_ = 5 ∧
    (u.instrument_state_.get 1).buy_qty = 0 ∧ live_qty sideB 1 u.orders_ = 2 ^ 64 ∧
    ¬ ((s.instrument_state_.get 1).buy_qty = live_qty sideB 1 s.orders_) ∧
    ¬ ((u.instrument_state_.get 1).buy_qty = live_qty sideB 1 u.orders_)) := by
  decide

/-- C2 (amended): starting from the empty engine, after every sequence of
handler calls (trades included) in which no `handle_new_order` call carries
an `order_id` that is a key of the order book at that moment, for every
listing the stored `buy_qty` equals, modulo `2^64`, the sum of the
quantities of the live orders with side `B` on that listing, and `sell_qty`
equals, modulo `2^64`, the sum of the quantities of the live orders with
side `S` on that listing. -/
theorem C2_aggregate_invariant (max_buy max_sell : Nat) (cs : List Call)
    (hfresh : (RiskService.init max_buy max_sell).fresh_ids cs = true) (l : Nat) :
    (((RiskService.init max_buy max_sell).run cs).instrument_state_.get l).buy_qty =
      live_qty sideB l ((RiskService.init max_buy max_sell).run cs).orders_ % 2 ^ 64 ∧
    (((RiskService.init max_buy max_sell).run cs).instrument_state_.get l).sell_qty =
      live_qty sideS l ((RiskService.init max_buy max_sell).run cs).orders_ % 2 ^ 64 := by
  have hinv := AggInv_run cs _ (AggInv_init max_buy max_sell) hfresh
  exact ⟨hinv sideB (Or.inl rfl) l, hinv sideS (Or.inr rfl) l⟩

set_option maxRecDepth 100000 in
/-- Witness for C2: the six calls of the test scenario, on listing 2. -/
theorem C2_aggregate_invariant_witness :
    (((RiskService.init 20 20).run
        [.new_order ⟨1, 1, 1, 10, 1, sideB⟩, .new_order ⟨1, 2, 2, 15, 1, sideS⟩,
         .new_order ⟨1, 2, 3, 4, 1, sideB⟩, .new_order ⟨1, 2, 4, 20, 1, sideB⟩,
         .trade ⟨4, 2, 1, 4, 1⟩, .delete_order ⟨2, 3⟩]).instrument_state_.get 2).buy_qty =
      live_qty sideB 2 ((RiskService.init 20 20).run
        [.new_order ⟨1, 1, 1, 10, 1, sideB⟩, .new_order ⟨1, 2, 2, 15, 1, sideS⟩,
         .new_order ⟨1, 2, 3, 4, 1, sideB⟩, .new_order ⟨1, 2, 4, 20, 1, sideB⟩,
         .trade ⟨4, 2, 1, 4, 1⟩, .delete_order ⟨2, 3⟩]).orders_ % 2 ^ 64 :=
  (C2_aggregate_invariant 20 20
    [.new_order ⟨1, 1, 1, 10, 1, sideB⟩, .new_order ⟨1, 2, 2, 15, 1, sideS⟩,
     .new_order ⟨1, 2, 3, 4, 1, sideB⟩, .new_order ⟨1, 2, 4, 20, 1, sideB⟩,
     .trade ⟨4, 2, 1, 4, 1⟩, .delete_order ⟨2, 3⟩]
    (by decide) 2).1

set_option maxRecDepth 100000 in
/-- C4 (as stated) fails: with limits 20 and a live buy order 1 of quantity
10 on listing 1, a second NewOrder under the same id 1 (quantity 5) is
ACCEPTED, the book entry becomes quantity 5 and `buy_qty` becomes 15. -/
theorem C4_counterexample :
    (let s := ((RiskService.init 20 20).handle_new_order ⟨1, 1, 1, 10, 1, sideB⟩).2
    let m : NewOrder := ⟨1, 1, 1, 5, 1, sideB⟩
    s.orders_.find m.orderId = some ⟨1, 10, sideB⟩ ∧
    (s.handle_new_order m).1.status = ACCEPTED ∧
    (s.handle_new_order m).2.orders_.find 1 = some ⟨1, 5, sideB⟩ ∧
    (s.handle_new_order m).2.instrument_state_.find 1 = some ⟨0, 15, 0⟩ ∧
    ¬ ((s.handle_new_order m).1.status = REJECTED ∧
        (s.handle_new_order m).2.orders_ = s.orders_ ∧
        (s.handle_new_order m).2.instrument_state_ = s.instrument_state_)) := by
  decide

/-- C4 (amended): in a state in which `m.order_id` is already a key of the
order book, `handle_new_order(m)` gives the response it gives when that key
is absent (the duplicate plays no part in the decision); when the response
is REJECTED the order book is unchanged and `net_pos`, `buy_qty`, `sell_qty`
of every listing are unchanged; when it is ACCEPTED the entry under
`m.order_id` is overwritten by `(m.listing_id, m.order_quantity, m.side)`
and `buy_qty` (side `B`) or `sell_qty` (side `S`) of `m.listing_id` is
increased by `m.order_quantity` modulo `2^64`; in both cases `m.order_id`
is still a key of the order book afterwards. -/
theorem C4_duplicate_order_id (s : RiskService) (m : NewOrder)
    (hdup : s.orders_.find m.orderId ≠ none) :
    (s.handle_new_order m).1 =
      (({ s with orders_ := s.orders_.erase m.orderId } : RiskService).handle_new_order m).1 ∧
    ((s.handle_new_order m).1.status = REJECTED →
      (s.handle_new_order m).2.orders_ = s.orders_ ∧
      ∀ l, (s.handle_new_order m).2.instrument_state_.get l = s.instrument_state_.get l) ∧
    ((s.handle_new_order m).1.status = ACCEPTED →
      (s.handle_new_order m).2.orders_ =
        s.orders_.insert m.orderId ⟨m.listingId, m.orderQuantity, m.side⟩ ∧
      (m.side = sideB →
        ((s.handle_new_order m).2.instrument_state_.get m.listingId).buy_qty =
          addU64 (s.instrument_state_.get m.listingId).buy_qty m.orderQuantity) ∧
      (m.side = sideS →
        ((s.handle_new_order m).2.instrument_state_.get m.listingId).sell_qty =
          addU64 (s.instrument_state_.get m.listingId).sell_qty m.orderQuantity)) ∧
    (s.handle_new_order m).2.orders_.find m.orderId ≠ none := by
  refine ⟨?_, ?_, ?_, ?_⟩
  · rw [handle_new_order_fst, handle_new_order_fst]
    rfl
  · intro hrej
    have hacc := (handle_new_order_rejected_iff s m).1 hrej
    rw [handle_new_order_state, hacc]
    simp only [Bool.false_eq_true, if_false]
    split_ifs
    · exact ⟨rfl, fun _ => rfl⟩
    · exact ⟨rfl, fun l => Map.get_touch _ _ _⟩
  · intro hok
    have hacc := (handle_new_order_accepted_iff s m).1 hok
    rw [handle_new_order_state, if_pos hacc]
    refine ⟨rfl, ?_, ?_⟩
    · intro hB
      simp only [Map.get_insert, if_true, count_order, if_pos hB]
    · intro hS
      have hB : ¬ m.side = sideB := by rw [hS]; decide
      simp only [Map.get_insert, if_true, count_order, if_neg hB]
  · rw [handle_new_order_state]
    split_ifs
    · simp only [Map.find_insert, if_true]
      exact fun h => Option.noConfusion h
    · exact hdup
    · exact hdup

set_option maxRecDepth 100000 in
/-- Witness for C4: the second NewOrder under id 1 in the state of the
counterexample. -/
theorem C4_duplicate_order_id_witness :
    (let s := ((RiskService.init 20 20).handle_new_order ⟨1, 1, 1, 10, 1, sideB⟩).2
    let m : NewOrder := ⟨1, 1, 1, 5, 1, sideB⟩
    s.orders_.find m.orderId ≠ none ∧
    (s.handle_new_order m).1 =
      (({ s with orders_ := s.orders_.erase m.orderId } : RiskService).handle_new_order m).1) :=
  ⟨by decide,
   (C4_duplicate_order_id
      ((RiskService.init 20 20).handle_new_order ⟨1, 1, 1, 10, 1, sideB⟩).2
      ⟨1, 1, 1, 5, 1, sideB⟩ (by decide)).1⟩

/-- C5: `handle_modify_order` rejects an unknown `order_id`; for a live order
`o` of side `B` with `o.quantity <= buy_qty` of its listing and `buy_qty`,
`|net_pos|`, `m.new_quantity`, `max_buy_pos` all below `2^62`, the response
is ACCEPTED if and only if
`(m.new_quantity - o.quantity) + worst_buy_pos <= max_buy_pos` over the
signed integers (the unsigned wrap-around test of the code agrees with the
signed-delta test, also when the quantity decreases); symmetrically for
side `S` with `sell_qty`, `worst_sell_pos` and `max_sell_pos`. -/
theorem C5_modify_decision (s : RiskService) (m : ModifyOrderQuantity) :
    (s.orders_.find m.orderId = none →
      (s.handle_modify_order m).1.status = REJECTED) ∧
    (∀ o : Order, s.orders_.find m.orderId = some o → o.side = sideB →
      o.quantity ≤ (s.instrument_state_.get o.listing_id).buy_qty →
      (s.instrument_state_.get o.listing_id).buy_qty < 2 ^ 62 →
      -(2 ^ 62 : Int) < (s.instrument_state_.get o.listing_id).net_pos →
      (s.instrument_state_.get o.listing_id).net_pos < 2 ^ 62 →
      m.newQuantity < 2 ^ 62 → s.max_buy_pos_ < 2 ^ 62 →
      ((s.handle_modify_order m).1.status = ACCEPTED ↔
        ((m.newQuantity : Int) - o.quantity) +
          (s.instrument_state_.get o.listing_id).worst_buy_pos ≤ s.max_buy_pos_)) ∧
    (∀ o : Order, s.orders_.find m.orderId = some o → o.side = sideS →
      o.quantity ≤ (s.instrument_state_.get o.listing_id).sell_qty →
      (s.instrument_state_.get o.listing_id).sell_qty < 2 ^ 62 →
      -(2 ^ 62 : Int) < (s.instrument_state_.get o.listing_id).net_pos →
      (s.instrument_state_.get o.listing_id).net_pos < 2 ^ 62 →
      m.newQuantity < 2 ^ 62 → s.max_sell_pos_ < 2 ^ 62 →
      ((s.handle_modify_order m).1.status = ACCEPTED ↔
        ((m.newQuantity : Int) - o.quantity) +
          (s.instrument_state_.get o.listing_id).worst_sell_pos ≤ s.max_sell_pos_)) := by
  refine ⟨?_, ?_, ?_⟩
  · intro h
    rw [handle_modify_order_unknown s m h]
  · intro o ho hside hq hb hn1 hn2 hnew _
    have hS : ¬ o.side = sideS := by rw [hside]; decide
    have hw := worst_buy_pos_eq _ hb hn1 hn2
    have e := modify_sum_eq m.newQuantity o.quantity
      (s.instrument_state_.get o.listing_id).worst_buy_pos
      (by rw [hw]; omega) (by rw [hw]; omega) (by omega)
    rw [handle_modify_order_accepted_iff s m o ho, accepts_modify_iff]
    constructor
    · rintro (⟨_, h⟩ | ⟨h, _⟩)
      · omega
      · exact absurd h hS
    · intro h
      exact Or.inl ⟨hside, by omega⟩
  · intro o ho hside hq hb hn1 hn2 hnew _
    have hB : ¬ o.side = sideB := by rw [hside]; decide
    have hw := worst_sell_pos_eq _ hb hn1 hn2
    have e := modify_sum_eq m.newQuantity o.quantity
      (s.instrument_state_.get o.listing_id).worst_sell_pos
      (by rw [hw]; omega) (by rw [hw]; omega) (by omega)
    rw [handle_modify_order_accepted_iff s m o ho, accepts_modify_iff]
    constructor
    · rintro (⟨h, _⟩ | ⟨_, h⟩)
      · exact absurd h hB
      · omega
    · intro h
      exact Or.inr ⟨hside, by omega⟩

set_option maxRecDepth 100000 in
/-- Witness for C5: with limits 20 and a live buy order 1 of quantity 10 on
listing 1, lowering the quantity to 5 is accepted, the signed sum being
`(5 - 10) + 10 = 5`. -/
theorem C5_modify_decision_witness :
    (let s := ((RiskService.init 20 20).handle_new_order ⟨1, 1, 1, 10, 1, sideB⟩).2
    s.orders_.find 1 = some ⟨1, 10, sideB⟩ ∧
    ((s.handle_modify_order ⟨3, 1, 5⟩).1.status = ACCEPTED ↔
      ((5 : Int) - 10) + (s.instrument_state_.get 1).worst_buy_pos ≤ 20)) :=
  ⟨by decide,
   (C5_modify_decision ((RiskService.init 20 20).handle_new_order ⟨1, 1, 1, 10, 1, sideB⟩).2
      ⟨3, 1, 5⟩).2.1 ⟨1, 10, sideB⟩ (by decide) rfl (by decide) (by decide) (by decide)
      (by decide) (by decide) (by decide)⟩

set_option maxRecDepth 100000 in
/-- C6 (code at the failing input): on the empty engine with limits 20 the
Trade (listing 2, trade_id 1, trade_quantity 4, trade_price 1) refers to no
known order, yet afterwards the order book holds the entry
`1 -> (listing 0, quantity 0, side NUL)`: `orders_[trade_id]` has inserted
it. No `net_pos`, `buy_qty` or `sell_qty` has changed; listing 2 has got an
all-zero entry. -/
theorem C6_trade_unknown_order_inserts_entry :
    (let s := RiskService.init 20 20
    let t : Trade := ⟨4, 2, 1, 4, 1⟩
    s.orders_.find t.tradeId = none ∧
    (s.handle_trade t).orders_.entries = [(1, ⟨0, 0, 0⟩)] ∧
    (s.handle_trade t).orders_ ≠ s.orders_ ∧
    (s.handle_trade t).instrument_state_.entries = [(2, ⟨0, 0, 0⟩)]) := by
  decide

/-- C7: for every header `h` and every payload `p` of shape NewOrder,
DeleteOrder, ModifyOrderQuantity or OrderResponse with fields within their
declared widths, `encode(h, p)` succeeds and on the frame it returns
`decode_header` gives back `h` and `decode_payload` gives back `p`; for
NewOrder this holds whether plain `char` is signed or unsigned. -/
theorem C7_codec_round_trip (h : Header) (hh : h.valid) :
    (∀ (charSigned : Bool) (p : NewOrder), p.valid →
      ∃ msg, encode h (NewOrder.encode charSigned p) = .ok msg ∧
        decode_header msg = .ok h ∧ NewOrder.decode_payload msg = .ok p) ∧
    (∀ p : DeleteOrder, p.valid →
      ∃ msg, encode h (DeleteOrder.encode p) = .ok msg ∧
        decode_header msg = .ok h ∧ DeleteOrder.decode_payload msg = .ok p) ∧
    (∀ p : ModifyOrderQuantity, p.valid →
      ∃ msg, encode h (ModifyOrderQuantity.encode p) = .ok msg ∧
        decode_header msg = .ok h ∧ ModifyOrderQuantity.decode_payload msg = .ok p) ∧
    (∀ p : OrderResponse, p.valid →
      ∃ msg, encode h (OrderResponse.encode p) = .ok msg ∧
        decode_header msg = .ok h ∧ OrderResponse.decode_payload msg = .ok p) := by
  obtain ⟨hv, hp, hs, ht⟩ := hh
  have e1 := stoull_to_string h.version (by omega)
  have e2 := stoull_to_string h.payloadSize (by omega)
  have e3 := stoull_to_string h.sequenceNumber (by omega)
  have e4 := stoull_to_string h.timestamp ht
  have hdr : ∀ rest : List Message, (∀ t ∈ rest, ∀ c ∈ t, c ≠ ' ') →
      decode_header (joinSp (to_string h.version :: to_string h.payloadSize ::
        to_string h.sequenceNumber :: to_string h.timestamp :: rest)) = .ok h := by
    intro rest hr
    rw [decode_header_tokens _ _ _ _ rest _ _ _ _ e1 e2 e3 e4]
    · rw [Nat.mod_eq_of_lt hv, Nat.mod_eq_of_lt hp, Nat.mod_eq_of_lt hs, Nat.mod_eq_of_lt ht]
    · intro t htm
      simp only [List.mem_cons] at htm
      rcases htm with rfl | rfl | rfl | rfl | htm
      · exact to_string_no_space _
      · exact to_string_no_space _
      · exact to_string_no_space _
      · exact to_string_no_space _
      · exact hr t htm
  have hall : ∀ rest : List Message, (∀ t ∈ rest, ∀ c ∈ t, c ≠ ' ') →
      ∀ t ∈ to_string h.version :: to_string h.payloadSize ::
        to_string h.sequenceNumber :: to_string h.timestamp :: rest, ∀ c ∈ t, c ≠ ' ' := by
    intro rest hr t htm
    simp only [List.mem_cons] at htm
    rcases htm with rfl | rfl | rfl | rfl | htm
    · exact to_string_no_space _
    · exact to_string_no_space _
    · exact to_string_no_space _
    · exact to_string_no_space _
    · exact hr t htm
  refine ⟨?_, ?_, ?_, ?_⟩
  · intro cs p ⟨q1, q2, q3, q4, q5, q6⟩
    have hr : ∀ t ∈ [to_string p.messageType, to_string p.listingId, to_string p.orderId,
        to_string p.orderQuantity, to_string p.orderPrice, to_string_char cs p.side],
        ∀ c ∈ t, c ≠ ' ' := by
      intro t htm
      simp only [List.mem_cons, List.mem_singleton, List.not_mem_nil, or_false] at htm
      rcases htm with rfl | rfl | rfl | rfl | rfl | rfl
      · exact to_string_no_space _
      · exact to_string_no_space _
      · exact to_string_no_space _
      · exact to_string_no_space _
      · exact to_string_no_space _
      · exact to_string_char_no_space _ _
    obtain ⟨w6, g6, hw6⟩ := stoull_to_string_char cs p.side q6
    refine ⟨_, by rw [encode_eq_NewOrder, encode_frame_eq], hdr _ hr, ?_⟩
    rw [decode_payload_tokens_NewOrder _ _ _ _ _ _ _ _ _ _ [] _ _ _ _ _ _ _ _ _ _ e1 e2 e3 e4
      (stoull_to_string _ (by omega)) (stoull_to_string _ q2) (stoull_to_string _ q3)
      (stoull_to_string _ q4) (stoull_to_string _ q5) g6 (hall _ hr)]
    rw [Nat.mod_eq_of_lt q1, Nat.mod_eq_of_lt q2, Nat.mod_eq_of_lt q3, Nat.mod_eq_of_lt q4,
      Nat.mod_eq_of_lt q5, hw6]
  · intro p ⟨q1, q2⟩
    have hr : ∀ t ∈ [to_string p.messageType, to_string p.orderId],
        ∀ c ∈ t, c ≠ ' ' := by
      intro t htm
      simp only [List.mem_cons, List.mem_singleton, List.not_mem_nil, or_false] at htm
      rcases htm with rfl | rfl
      · exact to_string_no_space _
      · exact to_string_no_space _
    refine ⟨_, by rw [encode_eq_DeleteOrder, encode_frame_eq], hdr _ hr, ?_⟩
    rw [decode_payload_tokens_DeleteOrder _ _ _ _ _ _ [] _ _ _ _ _ _ e1 e2 e3 e4
      (stoull_to_string _ (by omega)) (stoull_to_string _ q2) (hall _ hr)]
    rw [Nat.mod_eq_of_lt q1, Nat.mod_eq_of_lt q2]
  · intro p ⟨q1, q2, q3⟩
    have hr : ∀ t ∈ [to_string p.messageType, to_string p.orderId, to_string p.newQuantity],
        ∀ c ∈ t, c ≠ ' ' := by
      intro t htm
      simp only [List.mem_cons, List.mem_singleton, List.not_mem_nil, or_false] at htm
      rcases htm with rfl | rfl | rfl
      · exact to_string_no_space _
      · exact to_string_no_space _
      · exact to_string_no_space _
    refine ⟨_, by rw [encode_eq_ModifyOrderQuantity, encode_frame_eq], hdr _ hr, ?_⟩
    rw [decode_payload_tokens_ModifyOrderQuantity _ _ _ _ _ _ _ [] _ _ _ _ _ _ _ e1 e2 e3 e4
      (stoull_to_string _ (by omega)) (stoull_to_string _ q2) (stoull_to_string _ q3)
      (hall _ hr)]
    rw [Nat.mod_eq_of_lt q1, Nat.mod_eq_of_lt q2, Nat.mod_eq_of_lt q3]
  · intro p ⟨q1, q2, q3⟩
    have hr : ∀ t ∈ [to_string p.messageType, to_string p.orderId,
        to_string (p.status % 2 ^ 16)], ∀ c ∈ t, c ≠ ' ' := by
      intro t htm
      simp only [List.mem_cons, List.mem_singleton, List.not_mem_nil, or_false] at htm
      rcases htm with rfl | rfl | rfl
      · exact to_string_no_space _
      · exact to_string_no_space _
      · exact to_string_no_space _
    refine ⟨_, by rw [encode_eq_OrderResponse, encode_frame_eq], hdr _ hr, ?_⟩
    rw [decode_payload_tokens_OrderResponse _ _ _ _ _ _ _ [] _ _ _ _ _ _ _ e1 e2 e3 e4
      (stoull_to_string _ (by omega)) (stoull_to_string _ q2)
      (stoull_to_string _ (by omega)) (hall _ hr)]
    rw [Nat.mod_eq_of_lt q1, Nat.mod_eq_of_lt q2, Nat.mod_mod, Nat.mod_eq_of_lt q3]

/-- Witness for C7: the first frame of the test client, a NewOrder for
listing 1, id 1, quantity 10, price 1, side `B`. -/
theorem C7_codec_round_trip_witness :
    ∃ msg, encode ⟨1, 48, 1, 1700000000⟩ (NewOrder.encode true ⟨1, 1, 1, 10, 1, 66⟩)
        = .ok msg ∧
      decode_header msg = .ok ⟨1, 48, 1, 1700000000⟩ ∧
      NewOrder.decode_payload msg = .ok ⟨1, 1, 1, 10, 1, 66⟩ :=
  (C7_codec_round_trip ⟨1, 48, 1, 1700000000⟩ (by decide)).1 true ⟨1, 1, 1, 10, 1, 66⟩
    (by decide)

set_option maxRecDepth 100000 in
/-- C8 (as stated) fails: the Trade of the test client, quantity 4 and price
1, is encoded as `4 40 5 1700000000 4 2 1 4 1` and `decode_payload<Trade>`
returns it with quantity 4 and price 1, not exchanged: the round trip
returns `t` although `t.tradeQuantity` and `t.tradePrice` differ. -/
theorem C8_counterexample :
    (let h : Header := ⟨4, 40, 5, 1700000000⟩
    let t : Trade := ⟨4, 2, 1, 4, 1⟩
    encode h (Trade.encode t) = .ok "4 40 5 1700000000 4 2 1 4 1".toList ∧
    Trade.decode_payload "4 40 5 1700000000 4 2 1 4 1".toList = .ok t ∧
    ¬ (Trade.decode_payload "4 40 5 1700000000 4 2 1 4 1".toList =
        .ok { t with tradeQuantity := t.tradePrice, tradePrice := t.tradeQuantity }) ∧
    ¬ (Trade.decode_payload "4 40 5 1700000000 4 2 1 4 1".toList = .ok t ↔
        t.tradeQuantity = t.tradePrice)) := by
  decide

/-- C8 (amended): for every header `h` and Trade `t` with fields within
their declared widths, `encode(h, t)` succeeds and `decode_payload<Trade>`
returns, on the frame, `t` itself, `tradeQuantity` and `tradePrice` not
exchanged (the result differs from the exchanged value whenever the two
fields differ); hence the round trip returns `t` for every `t`, and
encoding the decoded value again and decoding it returns `t`. -/
theorem C8_trade_round_trip (h : Header) (t : Trade) (hh : h.valid) (ht : t.valid) :
    ∃ msg, encode h (Trade.encode t) = .ok msg ∧
      Trade.decode_payload msg = .ok t ∧
      (t.tradeQuantity ≠ t.tradePrice →
        Trade.decode_payload msg ≠
          .ok { t with tradeQuantity := t.tradePrice, tradePrice := t.tradeQuantity }) ∧
      ∀ u, Trade.decode_payload msg = .ok u →
        ∃ msg2, encode h (Trade.encode u) = .ok msg2 ∧ Trade.decode_payload msg2 = .ok t := by
  obtain ⟨hv, hp, hs, hts⟩ := hh
  obtain ⟨q1, q2, q3, q4, q5⟩ := ht
  have e1 := stoull_to_string h.version (by omega)
  have e2 := stoull_to_string h.payloadSize (by omega)
  have e3 := stoull_to_string h.sequenceNumber (by omega)
  have e4 := stoull_to_string h.timestamp hts
  have key : Trade.decode_payload (joinSp (to_string h.version :: to_string h.payloadSize ::
        to_string h.sequenceNumber :: to_string h.timestamp ::
        [to_string t.messageType, to_string t.listingId, to_string t.tradeId,
          to_string t.tradeQuantity, to_string t.tradePrice])) = .ok t := by
    rw [decode_payload_tokens_Trade _ _ _ _ _ _ _ _ _ [] _ _ _ _ _ _ _ _ _ e1 e2 e3 e4
      (stoull_to_string _ (by omega)) (stoull_to_string _ q2) (stoull_to_string _ q3)
      (stoull_to_string _ q4) (stoull_to_string _ q5)]
    · rw [Nat.mod_eq_of_lt q1, Nat.mod_eq_of_lt q2, Nat.mod_eq_of_lt q3, Nat.mod_eq_of_lt q4,
        Nat.mod_eq_of_lt q5]
    · intro x hx
      simp only [List.mem_cons, List.mem_singleton, List.not_mem_nil, or_false] at hx
      rcases hx with rfl | rfl | rfl | rfl | rfl | rfl | rfl | rfl | rfl <;>
        exact to_string_no_space _
  have henc : encode h (Trade.encode t) = .ok (joinSp (to_string h.version ::
      to_string h.payloadSize :: to_string h.sequenceNumber :: to_string h.timestamp ::
      [to_string t.messageType, to_string t.listingId, to_string t.tradeId,
        to_string t.tradeQuantity, to_string t.tradePrice])) := by
    rw [encode_eq_Trade, encode_frame_eq]
  refine ⟨_, henc, key, ?_, ?_⟩
  · intro hne e
    rw [key] at e
    have := congrArg Trade.tradeQuantity (Except.ok.inj e)
    exact hne this
  · intro u hu
    rw [key] at hu
    have hut : t = u := Except.ok.inj hu
    rw [← hut]
    exact ⟨_, henc, key⟩

/-- Witness for C8: the Trade frame of the test client, quantity 4 and
price 1, decodes to quantity 4 and price 1. -/
theorem C8_trade_round_trip_witness :
    ∃ msg, encode ⟨4, 40, 5, 1700000000⟩ (Trade.encode ⟨4, 2, 1, 4, 1⟩) = .ok msg ∧
      Trade.decode_payload msg = .ok ⟨4, 2, 1, 4, 1⟩ ∧
      ((4 : Nat) ≠ 1 → Trade.decode_payload msg ≠ .ok ⟨4, 2, 1, 1, 4⟩) ∧
      ∀ u, Trade.decode_payload msg = .ok u →
        ∃ msg2, encode ⟨4, 40, 5, 1700000000⟩ (Trade.encode u) = .ok msg2 ∧
          Trade.decode_payload msg2 = .ok ⟨4, 2, 1, 4, 1⟩ :=
  C8_trade_round_trip ⟨4, 40, 5, 1700000000⟩ ⟨4, 2, 1, 4, 1⟩ (by decide) (by decide)

set_option maxRecDepth 100000 in
/-- C9: the six messages of the test client, encoded by `encode(header,
payload)` as the client sends them (clock value 1700000000, payload sizes
48, 48, 48, 48, 40, 16), are served frame by frame from the empty engine
with limits 20. The Trade frame `4 40 5 1700000000 4 2 1 4 1` decodes to
`tradeQuantity = 4`, `tradePrice = 1`; the four responses are ACCEPTED,
ACCEPTED, ACCEPTED, REJECTED and the final state is `net_pos[2] = -4`,
`buy_qty[2] = 0`, `sell_qty[2] = 15`, `buy_qty[1] = 10`. -/
theorem C9_wire_scenario :
    (let ts := 1700000000
    RiskClient.send_message 0 ts 1 48 (NewOrder.encode true ⟨1, 1, 1, 10, 1, sideB⟩)
      = .ok "1 48 1 1700000000 1 1 1 10 1 66".toList ∧
    RiskClient.send_message 1 ts 1 48 (NewOrder.encode true ⟨1, 2, 2, 15, 1, sideS⟩)
      = .ok "1 48 2 1700000000 1 2 2 15 1 83".toList ∧
    RiskClient.send_message 2 ts 1 48 (NewOrder.encode true ⟨1, 2, 3, 4, 1, sideB⟩)
      = .ok "1 48 3 1700000000 1 2 3 4 1 66".toList ∧
    RiskClient.send_message 3 ts 1 48 (NewOrder.encode true ⟨1, 2, 4, 20, 1, sideB⟩)
      = .ok "1 48 4 1700000000 1 2 4 20 1 66".toList ∧
    RiskClient.send_message 4 ts 4 40 (Trade.encode ⟨4, 2, 1, 4, 1⟩)
      = .ok "4 40 5 1700000000 4 2 1 4 1".toList ∧
    RiskClient.send_message 5 ts 2 16 (DeleteOrder.encode ⟨2, 3⟩)
      = .ok "2 16 6 1700000000 2 3".toList ∧
    Trade.decode_payload "4 40 5 1700000000 4 2 1 4 1".toList
      = .ok { messageType := 4, listingId := 2, tradeId := 1, tradeQuantity := 4,
              tradePrice := 1 } ∧
    ((RiskService.init 20 20).serve_frames
      [(ts, "1 48 1 1700000000 1 1 1 10 1 66".toList),
       (ts, "1 48 2 1700000000 1 2 2 15 1 83".toList),
       (ts, "1 48 3 1700000000 1 2 3 4 1 66".toList),
       (ts, "1 48 4 1700000000 1 2 4 20 1 66".toList),
       (ts, "4 40 5 1700000000 4 2 1 4 1".toList),
       (ts, "2 16 6 1700000000 2 3".toList)]).2
      = ["5 24 1 1700000000 5 1 0".toList, "5 24 1 1700000000 5 2 0".toList,
         "5 24 1 1700000000 5 3 0".toList, "5 24 1 1700000000 5 4 1".toList] ∧
    ((RiskService.init 20 20).serve_frames
      [(ts, "1 48 1 1700000000 1 1 1 10 1 66".toList),
       (ts, "1 48 2 1700000000 1 2 2 15 1 83".toList),
       (ts, "1 48 3 1700000000 1 2 3 4 1 66".toList),
       (ts, "1 48 4 1700000000 1 2 4 20 1 66".toList),
       (ts, "4 40 5 1700000000 4 2 1 4 1".toList),
       (ts, "2 16 6 1700000000 2 3".toList)]).1.instrument_state_.entries
      = [(1, ⟨0, 10, 0⟩), (2, ⟨-4, 0, 15⟩)]) := by
  decide

set_option maxRecDepth 100000 in
/-- C10: from the empty engine with limits 20 the handler calls
NewOrder(listing 1, id 1, qty 10, B), NewOrder(2, 2, 15, S),
NewOrder(2, 3, 4, B), NewOrder(2, 4, 20, B), Trade(listing 2, trade_id 1,
trade_quantity 4), DeleteOrder(3) return ACCEPTED, ACCEPTED, ACCEPTED,
REJECTED; after the trade listing 2 has `net_pos = -4`, `worst_buy_pos = 4`,
`worst_sell_pos = 19`; the final order book is
`1 -> (listing 1, 10, B)`, `2 -> (listing 2, 15, S)` and the final
instrument states are listing 1 = (0, 10, 0), listing 2 = (-4, 0, 15). -/
theorem C10_scenario_on_decoded_messages :
    (let s0 := RiskService.init 20 20
    let r1 := s0.handle_new_order ⟨1, 1, 1, 10, 1, sideB⟩
    let r2 := r1.2.handle_new_order ⟨1, 2, 2, 15, 1, sideS⟩
    let r3 := r2.2.handle_new_order ⟨1, 2, 3, 4, 1, sideB⟩
    let r4 := r3.2.handle_new_order ⟨1, 2, 4, 20, 1, sideB⟩
    let s5 := r4.2.handle_trade ⟨4, 2, 1, 4, 1⟩
    let s6 := s5.handle_delete_order ⟨2, 3⟩
    r1.1 = ⟨5, 1, ACCEPTED⟩ ∧ r2.1 = ⟨5, 2, ACCEPTED⟩ ∧ r3.1 = ⟨5, 3, ACCEPTED⟩ ∧
    r4.1 = ⟨5, 4, REJECTED⟩ ∧
    (s5.instrument_state_.get 2).net_pos = -4 ∧
    (s5.instrument_state_.get 2).worst_buy_pos = 4 ∧
    (s5.instrument_state_.get 2).worst_sell_pos = 19 ∧
    s6.orders_.entries = [(1, ⟨1, 10, sideB⟩), (2, ⟨2, 15, sideS⟩)] ∧
    s6.instrument_state_.entries = [(1, ⟨0, 10, 0⟩), (2, ⟨-4, 0, 15⟩)]) := by
  decide

set_option maxRecDepth 100000 in
/-- C11 (as stated) fails: with limits 20 and the live buy order 1 of
quantity 20 on listing 1, NewOrder(listing 1, id 3, quantity 1, B) is
REJECTED; after the buy order NewOrder(listing 1, id 2, quantity `2^64 - 20`)
has been ACCEPTED (the 64-bit sum of the test wraps to 0, and so does
`buy_qty`), the same message is ACCEPTED. -/
theorem C11_counterexample :
    (let s := ((RiskService.init 20 20).handle_new_order ⟨1, 1, 1, 20, 1, sideB⟩).2
    let m : NewOrder := ⟨1, 1, 3, 1, 1, sideB⟩
    let a : NewOrder := ⟨1, 1, 2, 2 ^ 64 - 20, 1, sideB⟩
    (s.handle_new_order m).1.status = REJECTED ∧
    a.side = m.side ∧ a.orderId ≠ m.orderId ∧ s.orders_.find a.orderId = none ∧
    (s.handle_new_order a).1.status = ACCEPTED ∧
    (s.add_orders [a]).orders_.find a.orderId = some ⟨1, 2 ^ 64 - 20, sideB⟩ ∧
    ((s.add_orders [a]).instrument_state_.get 1).buy_qty = 0 ∧
    ((s.add_orders [a]).handle_new_order m).1.status = ACCEPTED) := by
  decide

/-- C11 (amended): for every state `S` and NewOrder `m` such that
`m.order_quantity`, both limits, and `buy_qty`, `sell_qty` and the absolute
value of `net_pos` of `m.listing_id` in `S` are below `2^62`: if
`handle_new_order(m)` is REJECTED in `S` then it is also REJECTED in every
state obtained from `S` by handling NewOrder messages of the side of `m`
with quantities below `2^62` that are all ACCEPTED (whatever their order
ids and listings). -/
theorem C11_rejection_monotone (adds : List NewOrder) (s : RiskService) (m : NewOrder)
    (hq : m.orderQuantity < 2 ^ 62) (hmb : s.max_buy_pos_ < 2 ^ 62)
    (hms : s.max_sell_pos_ < 2 ^ 62) (hst : s.small_at m.listingId)
    (hadds : ∀ a ∈ adds, a.side = m.side ∧ a.orderQuantity < 2 ^ 62)
    (hacc : s.all_accepted adds)
    (hrej : (s.handle_new_order m).1.status = REJECTED) :
    ((s.add_orders adds).handle_new_order m).1.status = REJECTED := by
  induction adds generalizing s with
  | nil => exact hrej
  | cons a rest ih =>
    have ha := hadds a (List.mem_cons_self _ _)
    have hstep := accepts_new_false_step s ⟨m.listingId, m.orderQuantity, m.side⟩ a hq hmb hms
      hst ha.1 ha.2 hacc.1 ((handle_new_order_rejected_iff s m).1 hrej)
    obtain ⟨h1, h2, h3, h4⟩ := hstep
    show (((s.handle_new_order a).2.add_orders rest).handle_new_order m).1.status = REJECTED
    apply ih
    · rw [h3]; exact hmb
    · rw [h4]; exact hms
    · exact h2
    · intro b hb
      exact hadds b (List.mem_cons_of_mem _ hb)
    · exact hacc.2
    · exact (handle_new_order_rejected_iff _ m).2 h1

set_option maxRecDepth 100000 in
/-- Witness for C11: limits 20, live buy order 1 of quantity 15; the buy
order of quantity 10 is rejected, and stays rejected after the accepted buy
order 2 of quantity 5. -/
theorem C11_rejection_monotone_witness :
    (((((RiskService.init 20 20).handle_new_order ⟨1, 1, 1, 15, 1, sideB⟩).2.add_orders
        [⟨1, 1, 2, 5, 1, sideB⟩]).handle_new_order ⟨1, 1, 3, 10, 1, sideB⟩).1.status =
      REJECTED) :=
  C11_rejection_monotone [⟨1, 1, 2, 5, 1, sideB⟩]
    ((RiskService.init 20 20).handle_new_order ⟨1, 1, 1, 15, 1, sideB⟩).2
    ⟨1, 1, 3, 10, 1, sideB⟩ (by decide) (by decide) (by decide)
    ⟨by decide, by decide, by decide, by decide⟩
    (by
      intro a ha
      rw [List.mem_singleton] at ha
      rw [ha]
      exact ⟨rfl, by decide⟩)
    ⟨by decide, trivial⟩ (by decide)

set_option maxRecDepth 100000 in
/-- C12 (as stated) fails, in two ways. With limits 20, after the accepted
orders NewOrder(listing 1, id 1, 20, B) and NewOrder(listing 1, id 2, 20, S)
and the trade Trade(listing 1, trade_id 1, quantity 20), `net_pos = -20` and
modifying the live sell order 2 to its own quantity 20, or down to 10, is
REJECTED. And without any trade, after the accepted buy orders of quantity
10 (id 1) and `2^64 - 10` (id 2) the 64-bit aggregate `buy_qty` is 0 and
modifying order 1 down to 5 is REJECTED. -/
theorem C12_counterexample :
    (let s := (RiskService.init 20 20).run
        [.new_order ⟨1, 1, 1, 20, 1, sideB⟩, .new_order ⟨1, 1, 2, 20, 1, sideS⟩,
          .trade ⟨4, 1, 1, 20, 1⟩]
    let t := (RiskService.init 20 20).run
        [.new_order ⟨1, 1, 1, 10, 1, sideB⟩, .new_order ⟨1, 1, 2, 2 ^ 64 - 10, 1, sideB⟩]
    s.orders_.find 2 = some ⟨1, 20, sideS⟩ ∧
    (s.handle_modify_order ⟨3, 2, 20⟩).1.status = REJECTED ∧
    (s.handle_modify_order ⟨3, 2, 10⟩).1.status = REJECTED ∧
    t.orders_.find 1 = some ⟨1, 10, sideB⟩ ∧
    (t.handle_modify_order ⟨3, 1, 5⟩).1.status = REJECTED) := by
  decide

/-- C12 (amended): with both limits below `2^63`, in every state reachable
from the empty engine by NewOrder, ModifyOrderQuantity and DeleteOrder calls
(no trade) whose quantities are below `2^63`, and for every live order `o`
with side `B` or `S`, `handle_modify_order` with
`new_quantity <= o.quantity` returns ACCEPTED; and with
`new_quantity = o.quantity` it returns ACCEPTED and leaves the state
unchanged. -/
theorem C12_non_increasing_modify (a b : Nat) (cs : List Call) (m : ModifyOrderQuantity)
    (o : Order) (ha : a < 2 ^ 63) (hb : b < 2 ^ 63)
    (hcs : ∀ c ∈ cs, c.small_no_trade = true)
    (ho : ((RiskService.init a b).run cs).orders_.find m.orderId = some o)
    (hside : o.side = sideB ∨ o.side = sideS)
    (hq : m.newQuantity ≤ o.quantity) :
    (((RiskService.init a b).run cs).handle_modify_order m).1.status = ACCEPTED ∧
    (m.newQuantity = o.quantity →
      (((RiskService.init a b).run cs).handle_modify_order m).2 =
        (RiskService.init a b).run cs) := by
  have hlim := LimInv_run cs (RiskService.init a b) (LimInv_init a b) hcs
  have hent := EntryInv_run cs (RiskService.init a b) (EntryInv_init a b)
  have hmax := max_buy_pos_run cs (RiskService.init a b)
  generalize (RiskService.init a b).run cs = s at ho hlim hent hmax ⊢
  have hmp : s.max_pos o.side < 2 ^ 63 := by
    unfold max_pos
    split_ifs
    · rw [hmax.1]; exact ha
    · rw [hmax.2]; exact hb
  obtain ⟨h1, h2⟩ := hlim.2 o.side hside hmp o.listing_id
  have h3 : o.quantity ≤ live_qty o.side o.listing_id s.orders_ := by
    have := optVal_le_sumL (Order.contrib o.side o.listing_id) m.orderId s.orders_.entries
    have e : optVal (Order.contrib o.side o.listing_id) (findL m.orderId s.orders_.entries) =
        o.quantity := by
      have ho2 : findL m.orderId s.orders_.entries = some o := ho
      rw [ho2]
      show Order.contrib o.side o.listing_id o = o.quantity
      unfold Order.contrib
      rw [if_pos ⟨rfl, rfl⟩]
    rw [e] at this
    exact this
  have hacc : s.accepts_modify o m.newQuantity = true := by
    rw [accepts_modify_of_net_zero s o _ (hlim.1 _) hside]
    unfold subU64
    omega
  refine ⟨(handle_modify_order_accepted_iff s m o ho).2 hacc, ?_⟩
  intro heq
  rw [handle_modify_order_state s m o ho, if_pos hacc, heq]
  have e1 : s.orders_.insert m.orderId { o with quantity := o.quantity } = s.orders_ :=
    Map.insert_of_find _ _ _ ho
  have e2 : recount_order o.side o.quantity o.quantity (s.instrument_state_.get o.listing_id) =
      s.instrument_state_.get o.listing_id := by
    unfold recount_order
    unfold InstrumentState.qty at h1
    have hsub : subU64 o.quantity o.quantity = 0 := by
      unfold subU64
      omega
    rw [hsub]
    split_ifs with hB
    · rw [if_pos hB] at h1
      have : addU64 (s.instrument_state_.get o.listing_id).buy_qty 0 =
          (s.instrument_state_.get o.listing_id).buy_qty := by
        unfold addU64
        omega
      rw [this]
    · rw [if_neg hB] at h1
      have : addU64 (s.instrument_state_.get o.listing_id).sell_qty 0 =
          (s.instrument_state_.get o.listing_id).sell_qty := by
        unfold addU64
        omega
      rw [this]
  have e3 : (s.instrument_state_.touch o.listing_id).insert o.listing_id
      (s.instrument_state_.get o.listing_id) = s.instrument_state_ := by
    cases hf : s.instrument_state_.find o.listing_id with
    | none => exact absurd hf (hent m.orderId o ho hside)
    | some v =>
      rw [touch_of_find _ _ _ hf, Map.get_of_find _ _ _ hf]
      exact Map.insert_of_find _ _ _ hf
  rw [e1, e2, e3]

set_option maxRecDepth 100000 in
/-- Witness for C12: limits 20, buy order 1 of quantity 10 placed, then
modified down to 4. -/
theorem C12_non_increasing_modify_witness :
    ((((RiskService.init 20 20).run [.new_order ⟨1, 1, 1, 10, 1, sideB⟩]).handle_modify_order
        ⟨3, 1, 4⟩).1.status = ACCEPTED) :=
  (C12_non_increasing_modify 20 20 [.new_order ⟨1, 1, 1, 10, 1, sideB⟩] ⟨3, 1, 4⟩
    ⟨1, 10, sideB⟩ (by decide) (by decide)
    (by
      intro c hc
      rw [List.mem_singleton] at hc
      rw [hc]
      decide)
    (by decide) (Or.inl rfl) (by decide)).1

/-- C13: whenever `handle_new_order(m)` returns ACCEPTED, the side of `m` is
`B` or `S`, the resulting order book maps `m.order_id` to
`(m.listing_id, m.order_quantity, m.side)` (whatever was stored under that
id before) and every other order is unchanged; `buy_qty` (side `B`) or
`sell_qty` (side `S`) of `m.listing_id` is the old value plus
`m.order_quantity` modulo `2^64` (nothing is subtracted for a replaced
entry), the aggregate of the other side of that listing, both aggregates of
every other listing and every `net_pos` are unchanged; and neither the
response nor the resulting state depends on `m.order_price`. -/
theorem C13_accepted_new_order_effect (s : RiskService) (m : NewOrder)
    (hacc : (s.handle_new_order m).1.status = ACCEPTED) :
    (m.side = sideB ∨ m.side = sideS) ∧
    (s.handle_new_order m).2.orders_.find m.orderId =
      some ⟨m.listingId, m.orderQuantity, m.side⟩ ∧
    (∀ j, j ≠ m.orderId →
      (s.handle_new_order m).2.orders_.find j = s.orders_.find j) ∧
    (m.side = sideB →
      ((s.handle_new_order m).2.instrument_state_.get m.listingId).buy_qty =
        ((s.instrument_state_.get m.listingId).buy_qty + m.orderQuantity) % 2 ^ 64 ∧
      ((s.handle_new_order m).2.instrument_state_.get m.listingId).sell_qty =
        (s.instrument_state_.get m.listingId).sell_qty) ∧
    (m.side = sideS →
      ((s.handle_new_order m).2.instrument_state_.get m.listingId).sell_qty =
        ((s.instrument_state_.get m.listingId).sell_qty + m.orderQuantity) % 2 ^ 64 ∧
      ((s.handle_new_order m).2.instrument_state_.get m.listingId).buy_qty =
        (s.instrument_state_.get m.listingId).buy_qty) ∧
    (∀ l, l ≠ m.listingId →
      (s.handle_new_order m).2.instrument_state_.get l = s.instrument_state_.get l) ∧
    (∀ l, ((s.handle_new_order m).2.instrument_state_.get l).net_pos =
      (s.instrument_state_.get l).net_pos) ∧
    (∀ price, s.handle_new_order { m with orderPrice := price } = s.handle_new_order m) := by
  have ha := (handle_new_order_accepted_iff s m).1 hacc
  have hside := side_of_accepts_new s _ ha
  rw [handle_new_order_state, if_pos ha]
  simp only at hside
  refine ⟨hside, ?_, ?_, ?_, ?_, ?_, ?_, ?_⟩
  · simp only [Map.find_insert, if_true]
  · intro j hj
    simp only [Map.find_insert, if_neg hj]
  · intro hB
    simp only [get_touch_insert, if_true, count_order, if_pos hB, addU64]
    exact ⟨trivial, trivial⟩
  · intro hS
    have hB : ¬ m.side = sideB := by rw [hS]; decide
    simp only [get_touch_insert, if_true, count_order, if_neg hB, addU64]
    exact ⟨trivial, trivial⟩
  · intro l hl
    simp only [get_touch_insert, if_neg hl]
  · intro l
    simp only [get_touch_insert]
    split_ifs with h
    · rw [net_pos_count_order, h]
    · rfl
  · intro price
    rfl

set_option maxRecDepth 100000 in
/-- Witness for C13: a second NewOrder under the live id 1 (quantity 5 after
quantity 10, limits 20) is accepted and the entry is replaced. -/
theorem C13_accepted_new_order_effect_witness :
    ((((RiskService.init 20 20).handle_new_order ⟨1, 1, 1, 10, 1, sideB⟩).2.handle_new_order
        ⟨1, 1, 1, 5, 1, sideB⟩).2.orders_.find 1 = some ⟨1, 5, sideB⟩) :=
  (C13_accepted_new_order_effect
    ((RiskService.init 20 20).handle_new_order ⟨1, 1, 1, 10, 1, sideB⟩).2
    ⟨1, 1, 1, 5, 1, sideB⟩ (by decide)).2.1

/-- C14: whenever `handle_modify_order(m)` returns ACCEPTED for the live
order `o`, the side of `o` is `B` or `S`; afterwards the order under
`m.order_id` has quantity `m.new_quantity` and the side and listing of `o`,
every other order is unchanged; the aggregate of the side of `o` on
`o.listing_id` is below `2^64` and congruent modulo `2^64` to the old value
plus `m.new_quantity - o.quantity`; the aggregate of the other side, both
aggregates of every other listing and every `net_pos` are unchanged. -/
theorem C14_accepted_modify_effect (s : RiskService) (m : ModifyOrderQuantity) (o : Order)
    (ho : s.orders_.find m.orderId = some o)
    (hacc : (s.handle_modify_order m).1.status = ACCEPTED) :
    (o.side = sideB ∨ o.side = sideS) ∧
    (s.handle_modify_order m).2.orders_.find m.orderId =
      some ⟨o.listing_id, m.newQuantity, o.side⟩ ∧
    (∀ j, j ≠ m.orderId →
      (s.handle_modify_order m).2.orders_.find j = s.orders_.find j) ∧
    (o.side = sideB →
      ((s.handle_modify_order m).2.instrument_state_.get o.listing_id).buy_qty < 2 ^ 64 ∧
      (((s.handle_modify_order m).2.instrument_state_.get o.listing_id).buy_qty : Int)
          % 2 ^ 64 =
        (((s.instrument_state_.get o.listing_id).buy_qty : Int) + m.newQuantity - o.quantity)
          % 2 ^ 64 ∧
      ((s.handle_modify_order m).2.instrument_state_.get o.listing_id).sell_qty =
        (s.instrument_state_.get o.listing_id).sell_qty) ∧
    (o.side = sideS →
      ((s.handle_modify_order m).2.instrument_state_.get o.listing_id).sell_qty < 2 ^ 64 ∧
      (((s.handle_modify_order m).2.instrument_state_.get o.listing_id).sell_qty : Int)
          % 2 ^ 64 =
        (((s.instrument_state_.get o.listing_id).sell_qty : Int) + m.newQuantity - o.quantity)
          % 2 ^ 64 ∧
      ((s.handle_modify_order m).2.instrument_state_.get o.listing_id).buy_qty =
        (s.instrument_state_.get o.listing_id).buy_qty) ∧
    (∀ l, l ≠ o.listing_id →
      (s.handle_modify_order m).2.instrument_state_.get l = s.instrument_state_.get l) ∧
    (∀ l, ((s.handle_modify_order m).2.instrument_state_.get l).net_pos =
      (s.instrument_state_.get l).net_pos) := by
  have ha := (handle_modify_order_accepted_iff s m o ho).1 hacc
  have hside := side_of_accepts_modify s _ _ ha
  rw [handle_modify_order_state s m o ho, if_pos ha]
  refine ⟨hside, ?_, ?_, ?_, ?_, ?_, ?_⟩
  · simp only [Map.find_insert, if_true]
  · intro j hj
    simp only [Map.find_insert, if_neg hj]
  · intro hB
    simp only [get_touch_insert, if_true, recount_order, if_pos hB, addU64, subU64]
    refine ⟨?_, ?_, trivial⟩
    · omega
    · omega
  · intro hS
    have hB : ¬ o.side = sideB := by rw [hS]; decide
    simp only [get_touch_insert, if_true, recount_order, if_neg hB, addU64, subU64]
    refine ⟨?_, ?_, trivial⟩
    · omega
    · omega
  · intro l hl
    simp only [get_touch_insert, if_neg hl]
  · intro l
    simp only [get_touch_insert]
    split_ifs with h
    · rw [net_pos_recount_order, h]
    · rfl

set_option maxRecDepth 100000 in
/-- Witness for C14: with limits 20 and a live buy order 1 of quantity 10 on
listing 1, the modification to quantity 5. -/
theorem C14_accepted_modify_effect_witness :
    ((((RiskService.init 20 20).handle_new_order ⟨1, 1, 1, 10, 1, sideB⟩).2.handle_modify_order
        ⟨3, 1, 5⟩).2.orders_.find 1 = some ⟨1, 5, sideB⟩) :=
  (C14_accepted_modify_effect
    ((RiskService.init 20 20).handle_new_order ⟨1, 1, 1, 10, 1, sideB⟩).2
    ⟨3, 1, 5⟩ ⟨1, 10, sideB⟩ (by decide) (by decide)).2.1

set_option maxRecDepth 100000 in
/-- C15 (as stated) fails: with a live buy order 1 on listing 1 and
`net_pos = 0`, the trade Trade(listing 1, trade_id 1, quantity `2^64 - 1`)
leaves `net_pos = 1`, not `0 - (2^64 - 1)`: the subtraction is done on 64
bits. -/
theorem C15_counterexample :
    (let s := ((RiskService.init 20 20).handle_new_order ⟨1, 1, 1, 10, 1, sideB⟩).2
    let m : Trade := ⟨4, 1, 1, 2 ^ 64 - 1, 1⟩
    s.orders_.find m.tradeId = some ⟨1, 10, sideB⟩ ∧
    (s.instrument_state_.get 1).net_pos = 0 ∧
    ((s.handle_trade m).instrument_state_.get 1).net_pos = 1 ∧
    ¬ (((s.handle_trade m).instrument_state_.get m.listingId).net_pos =
        (s.instrument_state_.get m.listingId).net_pos - (m.tradeQuantity : Int))) := by
  decide

/-- C15 (amended): for every state and Trade `m` whose `trade_id` is the id
of a live order `o`, `handle_trade(m)` leaves the order book unchanged,
leaves `buy_qty` and `sell_qty` of every listing unchanged and leaves
`net_pos` of every listing other than `m.listing_id` unchanged; `net_pos` of
`m.listing_id` (the listing of the message, whatever `o.listing_id` is)
becomes the 64-bit two's complement value congruent modulo `2^64` to
`net_pos - m.trade_quantity` if `o.side = B` and to
`net_pos + m.trade_quantity` if `o.side = S`, which is that integer itself
whenever it lies in `[-2^63, 2^63)`; for any other stored side it is
unchanged. -/
theorem C15_trade_on_known_order (s : RiskService) (m : Trade) (o : Order)
    (ho : s.orders_.find m.tradeId = some o) :
    (s.handle_trade m).orders_ = s.orders_ ∧
    (∀ l, ((s.handle_trade m).instrument_state_.get l).buy_qty =
        (s.instrument_state_.get l).buy_qty ∧
      ((s.handle_trade m).instrument_state_.get l).sell_qty =
        (s.instrument_state_.get l).sell_qty) ∧
    (∀ l, l ≠ m.listingId →
      ((s.handle_trade m).instrument_state_.get l).net_pos =
        (s.instrument_state_.get l).net_pos) ∧
    (o.side = sideB →
      -(2 ^ 63 : Int) ≤ ((s.handle_trade m).instrument_state_.get m.listingId).net_pos ∧
      ((s.handle_trade m).instrument_state_.get m.listingId).net_pos < 2 ^ 63 ∧
      ((s.handle_trade m).instrument_state_.get m.listingId).net_pos % 2 ^ 64 =
        ((s.instrument_state_.get m.listingId).net_pos - m.tradeQuantity) % 2 ^ 64 ∧
      (-(2 ^ 63 : Int) ≤ (s.instrument_state_.get m.listingId).net_pos - m.tradeQuantity →
        (s.instrument_state_.get m.listingId).net_pos - m.tradeQuantity < 2 ^ 63 →
        ((s.handle_trade m).instrument_state_.get m.listingId).net_pos =
          (s.instrument_state_.get m.listingId).net_pos - m.tradeQuantity)) ∧
    (o.side = sideS →
      -(2 ^ 63 : Int) ≤ ((s.handle_trade m).instrument_state_.get m.listingId).net_pos ∧
      ((s.handle_trade m).instrument_state_.get m.listingId).net_pos < 2 ^ 63 ∧
      ((s.handle_trade m).instrument_state_.get m.listingId).net_pos % 2 ^ 64 =
        ((s.instrument_state_.get m.listingId).net_pos + m.tradeQuantity) % 2 ^ 64 ∧
      (-(2 ^ 63 : Int) ≤ (s.instrument_state_.get m.listingId).net_pos + m.tradeQuantity →
        (s.instrument_state_.get m.listingId).net_pos + m.tradeQuantity < 2 ^ 63 →
        ((s.handle_trade m).instrument_state_.get m.listingId).net_pos =
          (s.instrument_state_.get m.listingId).net_pos + m.tradeQuantity)) ∧
    (o.side ≠ sideB → o.side ≠ sideS →
      ((s.handle_trade m).instrument_state_.get m.listingId).net_pos =
        (s.instrument_state_.get m.listingId).net_pos) := by
  have hget : s.orders_.get m.tradeId = o := Map.get_of_find _ _ _ ho
  rw [handle_trade_state, hget]
  refine ⟨touch_of_find _ _ _ ho, ?_, ?_, ?_, ?_, ?_⟩
  · intro l
    simp only
    split_ifs with h
    · rw [get_touch_insert]
      split_ifs with hl
      · rw [hl]
        exact buy_qty_trade_state _ _ _
      · exact ⟨rfl, rfl⟩
    · rw [Map.get_touch]
      exact ⟨rfl, rfl⟩
  · intro l hl
    simp only
    split_ifs with h
    · rw [get_touch_insert, if_neg hl]
    · rw [Map.get_touch]
  · intro hB
    simp only
    rw [if_pos (Or.inl hB), get_touch_insert, if_pos rfl, hB, net_pos_trade_state_B]
    obtain ⟨h1, h2, h3⟩ := toI64_subU64 (s.instrument_state_.get m.listingId).net_pos
      m.tradeQuantity
    refine ⟨h1, h2, h3, ?_⟩
    intro h4 h5
    omega
  · intro hS
    simp only
    rw [if_pos (Or.inr hS), get_touch_insert, if_pos rfl, hS, net_pos_trade_state_S]
    obtain ⟨h1, h2, h3⟩ := toI64_addU64 (s.instrument_state_.get m.listingId).net_pos
      m.tradeQuantity
    refine ⟨h1, h2, h3, ?_⟩
    intro h4 h5
    omega
  · intro h1 h2
    have hor : ¬ (o.side = sideB ∨ o.side = sideS) := fun h => h.elim h1 h2
    simp only
    rw [if_neg hor, Map.get_touch]

set_option maxRecDepth 100000 in
/-- Witness for C15: the trade of the test scenario, on listing 2 against
the buy order 1 of listing 1. -/
theorem C15_trade_on_known_order_witness :
    ((((RiskService.init 20 20).handle_new_order ⟨1, 1, 1, 10, 1, sideB⟩).2.handle_trade
        ⟨4, 2, 1, 4, 1⟩).orders_ =
      ((RiskService.init 20 20).handle_new_order ⟨1, 1, 1, 10, 1, sideB⟩).2.orders_) :=
  (C15_trade_on_known_order
    ((RiskService.init 20 20).handle_new_order ⟨1, 1, 1, 10, 1, sideB⟩).2
    ⟨4, 2, 1, 4, 1⟩ ⟨1, 10, sideB⟩ (by decide)).1

set_option maxRecDepth 100000 in
/-- C16 (as stated) fails: with limits 20, after the accepted buy orders 1
(quantity 10) and 2 (quantity `2^64 - 10`) on listing 1 the 64-bit sum
`buy_qty` is 0; deleting order 1 then leaves `buy_qty = 2^64 - 10`, which is
not 0 decreased by 10. -/
theorem C16_counterexample :
    (let s := (RiskService.init 20 20).run
        [.new_order ⟨1, 1, 1, 10, 1, sideB⟩, .new_order ⟨1, 1, 2, 2 ^ 64 - 10, 1, sideB⟩]
    let m : DeleteOrder := ⟨2, 1⟩
    s.orders_.find m.orderId = some ⟨1, 10, sideB⟩ ∧
    (s.instrument_state_.get 1).buy_qty = 0 ∧
    ((s.handle_delete_order m).instrument_state_.get 1).buy_qty = 2 ^ 64 - 10 ∧
    ¬ (((s.handle_delete_order m).instrument_state_.get 1).buy_qty + 10 =
        (s.instrument_state_.get 1).buy_qty)) := by
  decide

/-- C16 (amended): for every state, if `m.order_id` is not in the order book
`handle_delete_order(m)` leaves the state unchanged; otherwise, for the
stored order `o`, afterwards `m.order_id` is not in the book, every other
order is unchanged, `buy_qty` (`o.side = B`) or `sell_qty` (`o.side = S`) of
`o.listing_id` is decreased by `o.quantity` modulo `2^64` (exactly when
`o.quantity` does not exceed the aggregate), and every other aggregate and
every `net_pos` is unchanged. -/
theorem C16_delete_order_effect (s : RiskService) (m : DeleteOrder) :
    (s.orders_.find m.orderId = none → s.handle_delete_order m = s) ∧
    (∀ o, s.orders_.find m.orderId = some o →
      (s.handle_delete_order m).orders_.find m.orderId = none ∧
      (∀ j, j ≠ m.orderId →
        (s.handle_delete_order m).orders_.find j = s.orders_.find j) ∧
      (o.side = sideB →
        ((s.handle_delete_order m).instrument_state_.get o.listing_id).buy_qty =
          ((s.instrument_state_.get o.listing_id).buy_qty +
            (2 ^ 64 - o.quantity % 2 ^ 64)) % 2 ^ 64 ∧
        (o.quantity ≤ (s.instrument_state_.get o.listing_id).buy_qty →
          (s.instrument_state_.get o.listing_id).buy_qty < 2 ^ 64 →
          ((s.handle_delete_order m).instrument_state_.get o.listing_id).buy_qty =
            (s.instrument_state_.get o.listing_id).buy_qty - o.quantity) ∧
        ((s.handle_delete_order m).instrument_state_.get o.listing_id).sell_qty =
          (s.instrument_state_.get o.listing_id).sell_qty) ∧
      (o.side = sideS →
        ((s.handle_delete_order m).instrument_state_.get o.listing_id).sell_qty =
          ((s.instrument_state_.get o.listing_id).sell_qty +
            (2 ^ 64 - o.quantity % 2 ^ 64)) % 2 ^ 64 ∧
        (o.quantity ≤ (s.instrument_state_.get o.listing_id).sell_qty →
          (s.instrument_state_.get o.listing_id).sell_qty < 2 ^ 64 →
          ((s.handle_delete_order m).instrument_state_.get o.listing_id).sell_qty =
            (s.instrument_state_.get o.listing_id).sell_qty - o.quantity) ∧
        ((s.handle_delete_order m).instrument_state_.get o.listing_id).buy_qty =
          (s.instrument_state_.get o.listing_id).buy_qty) ∧
      (o.side ≠ sideB → o.side ≠ sideS → ∀ l,
        (s.handle_delete_order m).instrument_state_.get l = s.instrument_state_.get l) ∧
      (∀ l, l ≠ o.listing_id →
        (s.handle_delete_order m).instrument_state_.get l = s.instrument_state_.get l) ∧
      (∀ l, ((s.handle_delete_order m).instrument_state_.get l).net_pos =
        (s.instrument_state_.get l).net_pos)) := by
  refine ⟨fun h => delete_order_unknown s _ h, ?_⟩
  intro o ho
  unfold handle_delete_order
  rw [delete_order_state s _ o ho]
  refine ⟨?_, ?_, ?_, ?_, ?_, ?_, ?_⟩
  · simp only [Map.find_erase, if_pos]
  · intro j hj
    simp only [Map.find_erase, if_neg hj]
  · intro hB
    simp only
    rw [if_pos (Or.inl hB), get_touch_insert, if_pos rfl]
    unfold uncount_order
    rw [if_pos hB]
    simp only [subU64]
    refine ⟨trivial, ?_, trivial⟩
    intro h1 h2
    omega
  · intro hS
    have hB : ¬ o.side = sideB := by rw [hS]; decide
    simp only
    rw [if_pos (Or.inr hS), get_touch_insert, if_pos rfl]
    unfold uncount_order
    rw [if_neg hB, if_pos hS]
    simp only [subU64]
    refine ⟨trivial, ?_, trivial⟩
    intro h1 h2
    omega
  · intro h1 h2 l
    have hor : ¬ (o.side = sideB ∨ o.side = sideS) := fun h => h.elim h1 h2
    simp only
    rw [if_neg hor, Map.get_touch]
  · intro l hl
    simp only
    split_ifs with h
    · rw [get_touch_insert, if_neg hl]
    · rw [Map.get_touch]
  · intro l
    simp only
    split_ifs with h
    · rw [get_touch_insert]
      split_ifs with hl
      · rw [hl, net_pos_uncount_order]
      · rfl
    · rw [Map.get_touch]

set_option maxRecDepth 100000 in
/-- Witness for C16: deleting the live buy order 1 removes it from the book. -/
theorem C16_delete_order_effect_witness :
    ((((RiskService.init 20 20).handle_new_order ⟨1, 1, 1, 10, 1, sideB⟩).2.handle_delete_order
        ⟨2, 1⟩).orders_.find 1 = none) :=
  ((C16_delete_order_effect
    ((RiskService.init 20 20).handle_new_order ⟨1, 1, 1, 10, 1, sideB⟩).2
    ⟨2, 1⟩).2 ⟨1, 10, sideB⟩ (by decide)).1

/-- C17: whenever `handle_new_order` or `handle_modify_order` returns
REJECTED (invalid side, limit breach, unknown order id, or a stored side
that is neither `B` nor `S`), the order book is unchanged and `net_pos`,
`buy_qty`, `sell_qty` of every listing are unchanged, a listing without an
entry counting as all zeros; for a side other than `B` and `S` and for an
unknown order id the response is REJECTED and the engine is the same,
without any new instrument entry. -/
theorem C17_rejection_is_atomic (s : RiskService) :
    (∀ m : NewOrder, (s.handle_new_order m).1.status = REJECTED →
      (s.handle_new_order m).2.orders_ = s.orders_ ∧
      ∀ l, (s.handle_new_order m).2.instrument_state_.get l = s.instrument_state_.get l) ∧
    (∀ m : NewOrder, m.side ≠ sideB → m.side ≠ sideS →
      (s.handle_new_order m).1.status = REJECTED ∧ (s.handle_new_order m).2 = s) ∧
    (∀ m : ModifyOrderQuantity, (s.handle_modify_order m).1.status = REJECTED →
      (s.handle_modify_order m).2.orders_ = s.orders_ ∧
      ∀ l, (s.handle_modify_order m).2.instrument_state_.get l =
        s.instrument_state_.get l) ∧
    (∀ m : ModifyOrderQuantity, s.orders_.find m.orderId = none →
      (s.handle_modify_order m).1.status = REJECTED ∧ (s.handle_modify_order m).2 = s) := by
  refine ⟨?_, ?_, ?_, ?_⟩
  · intro m hrej
    have hacc := (handle_new_order_rejected_iff s m).1 hrej
    rw [handle_new_order_state, hacc]
    simp only [Bool.false_eq_true, if_false]
    split_ifs
    · exact ⟨rfl, fun _ => rfl⟩
    · exact ⟨rfl, fun l => Map.get_touch _ _ _⟩
  · intro m h1 h2
    have hacc := accepts_new_false_of_side s ⟨m.listingId, m.orderQuantity, m.side⟩ ⟨h1, h2⟩
    refine ⟨(handle_new_order_rejected_iff s m).2 hacc, ?_⟩
    rw [handle_new_order_state, hacc]
    simp only [Bool.false_eq_true, if_false]
    rw [if_pos ⟨h1, h2⟩]
  · intro m hrej
    cases ho : s.orders_.find m.orderId with
    | none =>
      rw [handle_modify_order_unknown s m ho]
      exact ⟨rfl, fun _ => rfl⟩
    | some o =>
      have hst := handle_modify_order_status s m o ho
      rw [hrej] at hst
      have hacc : ¬ s.accepts_modify o m.newQuantity = true := by
        intro h
        rw [if_pos h] at hst
        exact absurd hst (by decide)
      rw [handle_modify_order_state s m o ho, if_neg hacc]
      exact ⟨rfl, fun l => Map.get_touch _ _ _⟩
  · intro m ho
    rw [handle_modify_order_unknown s m ho]
    exact ⟨rfl, rfl⟩

set_option maxRecDepth 100000 in
/-- Witness for C17: with limits 20 and a live buy order of quantity 4 on
listing 2, a buy order of quantity 20 on that listing is rejected. -/
theorem C17_rejection_is_atomic_witness :
    ((((RiskService.init 20 20).handle_new_order ⟨1, 2, 3, 4, 1, sideB⟩).2.handle_new_order
        ⟨1, 2, 4, 20, 1, sideB⟩).2.orders_ =
      ((RiskService.init 20 20).handle_new_order ⟨1, 2, 3, 4, 1, sideB⟩).2.orders_) :=
  ((C17_rejection_is_atomic
    ((RiskService.init 20 20).handle_new_order ⟨1, 2, 3, 4, 1, sideB⟩).2).1
    ⟨1, 2, 4, 20, 1, sideB⟩ (by decide)).1

/-- C18: on a non-empty frame whose header decodes to `h`, `serve_client`
selects the handler from `h.version` alone: with version 1, 2, 3, 4 and a
payload that decodes to `p` it returns true with the engine after
`handle_new_order(p)`, `handle_delete_order(p)`, `handle_modify_order(p)`,
`handle_trade(p)`; for versions 1 and 3 it sends exactly the frame of the
handler's OrderResponse (header `5 24 1 now`), for versions 2 and 4 it sends
nothing; for any other version it returns true, leaves the engine unchanged
and sends nothing. No handler reads the `messageType` of its payload, and
the other header fields do not occur in the result. On the empty frame
`serve_client` returns false, leaves the engine unchanged and sends
nothing. -/
theorem C18_dispatch_by_version (s : RiskService) (now : Nat) (msg : Message) (h : Header)
    (hne : msg ≠ []) (hdec : decode_header msg = .ok h) :
    (h.version = 1 → ∀ p, NewOrder.decode_payload msg = .ok p →
      s.serve_client now msg =
        (.ok true, (s.handle_new_order p).2,
          some (joinSp [to_string 5, to_string 24, to_string 1, to_string (now % 2 ^ 64),
            to_string (s.handle_new_order p).1.messageType,
            to_string (s.handle_new_order p).1.orderId,
            to_string ((s.handle_new_order p).1.status % 2 ^ 16)]))) ∧
    (h.version = 2 → ∀ p, DeleteOrder.decode_payload msg = .ok p →
      s.serve_client now msg = (.ok true, s.handle_delete_order p, none)) ∧
    (h.version = 3 → ∀ p, ModifyOrderQuantity.decode_payload msg = .ok p →
      s.serve_client now msg =
        (.ok true, (s.handle_modify_order p).2,
          some (joinSp [to_string 5, to_string 24, to_string 1, to_string (now % 2 ^ 64),
            to_string (s.handle_modify_order p).1.messageType,
            to_string (s.handle_modify_order p).1.orderId,
            to_string ((s.handle_modify_order p).1.status % 2 ^ 16)]))) ∧
    (h.version = 4 → ∀ p, Trade.decode_payload msg = .ok p →
      s.serve_client now msg = (.ok true, s.handle_trade p, none)) ∧
    (h.version ≠ 1 → h.version ≠ 2 → h.version ≠ 3 → h.version ≠ 4 →
      s.serve_client now msg = (.ok true, s, none)) ∧
    (∀ (p : NewOrder) (t : Nat),
      s.handle_new_order { p with messageType := t } = s.handle_new_order p) ∧
    (∀ (p : DeleteOrder) (t : Nat),
      s.handle_delete_order { p with messageType := t } = s.handle_delete_order p) ∧
    (∀ (p : ModifyOrderQuantity) (t : Nat),
      s.handle_modify_order { p with messageType := t } = s.handle_modify_order p) ∧
    (∀ (p : Trade) (t : Nat),
      s.handle_trade { p with messageType := t } = s.handle_trade p) ∧
    s.serve_client now [] = (.ok false, s, none) := by
  refine ⟨?_, ?_, ?_, ?_, ?_, fun _ _ => rfl, fun _ _ => rfl, fun _ _ => rfl,
    fun _ _ => rfl, rfl⟩
  · intro hv p hp
    unfold serve_client
    rw [if_neg hne]
    simp only [hdec, hv, hp, response_frame_eq, if_true]
  · intro hv p hp
    unfold serve_client
    rw [if_neg hne]
    simp only [hdec, hv, hp]
    rfl
  · intro hv p hp
    unfold serve_client
    rw [if_neg hne]
    simp only [hdec, hv, hp, response_frame_eq]
    rfl
  · intro hv p hp
    unfold serve_client
    rw [if_neg hne]
    simp only [hdec, hv, hp]
    rfl
  · intro h1 h2 h3 h4
    unfold serve_client
    rw [if_neg hne]
    simp only [hdec]
    rw [if_neg h1, if_neg h2, if_neg h3, if_neg h4]

set_option maxRecDepth 100000 in
/-- Witness for C18: the frame `1 0 9 7 4 1 1 10 1 66` has version 1 and a
payload whose own `messageType` token is 4; it is handled as a NewOrder and
answered with the frame `5 24 1 1000 5 1 0`. -/
theorem C18_dispatch_by_version_witness :
    ((RiskService.init 20 20).serve_client 1000 "1 0 9 7 4 1 1 10 1 66".toList =
      (.ok true, ((RiskService.init 20 20).handle_new_order ⟨4, 1, 1, 10, 1, 66⟩).2,
        some "5 24 1 1000 5 1 0".toList)) :=
  (C18_dispatch_by_version (RiskService.init 20 20) 1000 "1 0 9 7 4 1 1 10 1 66".toList
    ⟨1, 0, 9, 7⟩ (by decide) (by decide)).1 rfl ⟨4, 1, 1, 10, 1, 66⟩ (by decide)

/-- C19: on a non-empty frame whose header decodes with version 1, 2, 3 or
4 and which has fewer tokens than the four header fields plus the fields of
that payload shape (ten, six, seven, nine), `serve_client` throws before any
handler runs: the engine is unchanged and nothing is sent; likewise
`decode_header` fails on every non-empty frame with fewer than four tokens.
The tokens are the pieces between single spaces and the empty ones are not
counted, so this holds all the more when they are. -/
theorem C19_truncated_frame (s : RiskService) (now : Nat) (msg : Message) (hne : msg ≠ []) :
    (((splitSp msg).filter (fun t => decide (t ≠ []))).length < 4 →
      ∃ e, decode_header msg = .error e) ∧
    (∀ h, decode_header msg = .ok h →
      (h.version = 1 ∧ ((splitSp msg).filter (fun t => decide (t ≠ []))).length < 4 + 6) ∨
      (h.version = 2 ∧ ((splitSp msg).filter (fun t => decide (t ≠ []))).length < 4 + 2) ∨
      (h.version = 3 ∧ ((splitSp msg).filter (fun t => decide (t ≠ []))).length < 4 + 3) ∨
      (h.version = 4 ∧ ((splitSp msg).filter (fun t => decide (t ≠ []))).length < 4 + 5) →
      ∃ e, s.serve_client now msg = (.error e, s, none)) ∧
    ((splitSp msg).filter (fun t => decide (t ≠ []))).length ≤ (splitSp msg).length := by
  refine ⟨?_, ?_, List.length_filter_le _ _⟩
  · intro hc
    obtain ⟨e, he⟩ := parse_many_short msg hne 4 hc
    refine ⟨e, ?_⟩
    rw [decode_header_parse_many, he]
  · intro h hdec hcase
    unfold serve_client
    rw [if_neg hne]
    simp only [hdec]
    rcases hcase with ⟨hv, hc⟩ | ⟨hv, hc⟩ | ⟨hv, hc⟩ | ⟨hv, hc⟩
    · obtain ⟨e, he⟩ := parse_many_short msg hne 10 hc
      have hd : NewOrder.decode_payload msg = .error e := by
        rw [decode_payload_parse_many_NewOrder, he]
      refine ⟨e, ?_⟩
      simp only [hv, hd, if_true]
    · obtain ⟨e, he⟩ := parse_many_short msg hne 6 hc
      have hd : DeleteOrder.decode_payload msg = .error e := by
        rw [decode_payload_parse_many_DeleteOrder, he]
      refine ⟨e, ?_⟩
      simp only [hv, hd]
      rfl
    · obtain ⟨e, he⟩ := parse_many_short msg hne 7 hc
      have hd : ModifyOrderQuantity.decode_payload msg = .error e := by
        rw [decode_payload_parse_many_ModifyOrderQuantity, he]
      refine ⟨e, ?_⟩
      simp only [hv, hd]
      rfl
    · obtain ⟨e, he⟩ := parse_many_short msg hne 9 hc
      have hd : Trade.decode_payload msg = .error e := by
        rw [decode_payload_parse_many_Trade, he]
      refine ⟨e, ?_⟩
      simp only [hv, hd]
      rfl

set_option maxRecDepth 100000 in
/-- Witness for C19: the NewOrder frame `1 48 1 7 1 1 1 10 1`, cut before
its side token, makes `serve_client` throw on an engine that
holds one order. -/
theorem C19_truncated_frame_witness :
    (∃ e, ((RiskService.init 20 20).handle_new_order ⟨1, 1, 1, 10, 1, sideB⟩).2.serve_client 5
        "1 48 1 7 1 1 1 10 1".toList =
      (.error e, ((RiskService.init 20 20).handle_new_order ⟨1, 1, 1, 10, 1, sideB⟩).2, none)) :=
  (C19_truncated_frame ((RiskService.init 20 20).handle_new_order ⟨1, 1, 1, 10, 1, sideB⟩).2 5
    "1 48 1 7 1 1 1 10 1".toList (by decide)).2.1 ⟨1, 48, 1, 7⟩ (by decide)
    (Or.inl ⟨rfl, by decide⟩)

set_option maxRecDepth 100000 in
/-- C20 (as stated) fails: the frame `18446744073709551616 0 0 0` consists
of four tokens that are non-empty strings of decimal digits, and
`decode_header` throws `out_of_range` on it, the first token being
`2^64`. -/
theorem C20_counterexample :
    (let msg := "18446744073709551616 0 0 0".toList
    splitSp msg = ["18446744073709551616".toList, "0".toList, "0".toList, "0".toList] ∧
    (∀ t ∈ splitSp msg, t ≠ [] ∧ ∀ c ∈ t, isdigit c = true) ∧
    decode_header msg = .error .out_of_range) := by
  decide

/-- C20 (amended): for every frame that contains at least as many
space-separated tokens as the decoded shape requires, each required token
being a non-empty string of decimal digits of value below `2^64`,
`decode_header` and `decode_payload` succeed and return the values of the
tokens cast to the field types, whatever the values of version,
payload_size or any payload field. -/
theorem C20_decoder_accepts_digit_tokens (msg : Message) (t1 t2 t3 t4 : Message)
    (rest : List Message) (hsplit : splitSp msg = t1 :: t2 :: t3 :: t4 :: rest)
    (hhead : ∀ t ∈ [t1, t2, t3, t4], digit_token t) :
    decode_header msg =
      .ok ⟨digitsValue t1 % 2 ^ 16, digitsValue t2 % 2 ^ 16, digitsValue t3 % 2 ^ 32,
        digitsValue t4 % 2 ^ 64⟩ ∧
    (∀ p1 p2 p3 p4 p5 p6 more, rest = p1 :: p2 :: p3 :: p4 :: p5 :: p6 :: more →
      (∀ t ∈ [p1, p2, p3, p4, p5, p6], digit_token t) →
      NewOrder.decode_payload msg =
        .ok ⟨digitsValue p1 % 2 ^ 16, digitsValue p2 % 2 ^ 64, digitsValue p3 % 2 ^ 64,
          digitsValue p4 % 2 ^ 64, digitsValue p5 % 2 ^ 64, digitsValue p6 % 2 ^ 8⟩) ∧
    (∀ p1 p2 more, rest = p1 :: p2 :: more → (∀ t ∈ [p1, p2], digit_token t) →
      DeleteOrder.decode_payload msg =
        .ok ⟨digitsValue p1 % 2 ^ 16, digitsValue p2 % 2 ^ 64⟩) ∧
    (∀ p1 p2 p3 more, rest = p1 :: p2 :: p3 :: more →
      (∀ t ∈ [p1, p2, p3], digit_token t) →
      ModifyOrderQuantity.decode_payload msg =
        .ok ⟨digitsValue p1 % 2 ^ 16, digitsValue p2 % 2 ^ 64, digitsValue p3 % 2 ^ 64⟩) ∧
    (∀ p1 p2 p3 p4 p5 more, rest = p1 :: p2 :: p3 :: p4 :: p5 :: more →
      (∀ t ∈ [p1, p2, p3, p4, p5], digit_token t) →
      Trade.decode_payload msg =
        .ok { messageType := digitsValue p1 % 2 ^ 16, listingId := digitsValue p2 % 2 ^ 64,
              tradeId := digitsValue p3 % 2 ^ 64, tradeQuantity := digitsValue p4 % 2 ^ 64,
              tradePrice := digitsValue p5 % 2 ^ 64 }) ∧
    (∀ p1 p2 p3 more, rest = p1 :: p2 :: p3 :: more →
      (∀ t ∈ [p1, p2, p3], digit_token t) →
      OrderResponse.decode_payload msg =
        .ok ⟨digitsValue p1 % 2 ^ 16, digitsValue p2 % 2 ^ 64, digitsValue p3 % 2 ^ 16⟩) := by
  have hmsg : msg = joinSp (t1 :: t2 :: t3 :: t4 :: rest) := by
    rw [← hsplit, joinSp_splitSp]
  have hns : ∀ t ∈ t1 :: t2 :: t3 :: t4 :: rest, ∀ c ∈ t, c ≠ ' ' := by
    rw [← hsplit]
    exact splitSp_no_space msg
  have st : ∀ t, digit_token t → stoull t = .ok (digitsValue t) :=
    fun t h => stoull_digits t h.1 h.2.1 h.2.2
  have e1 := st t1 (hhead t1 (by simp))
  have e2 := st t2 (hhead t2 (by simp))
  have e3 := st t3 (hhead t3 (by simp))
  have e4 := st t4 (hhead t4 (by simp))
  refine ⟨?_, ?_, ?_, ?_, ?_, ?_⟩
  · rw [hmsg]
    exact decode_header_tokens t1 t2 t3 t4 rest _ _ _ _ e1 e2 e3 e4 hns
  · intro p1 p2 p3 p4 p5 p6 more hr hp
    subst hr
    rw [hmsg]
    exact decode_payload_tokens_NewOrder t1 t2 t3 t4 p1 p2 p3 p4 p5 p6 more _ _ _ _ _ _ _ _ _ _
      e1 e2 e3 e4 (st p1 (hp p1 (by simp))) (st p2 (hp p2 (by simp)))
      (st p3 (hp p3 (by simp))) (st p4 (hp p4 (by simp))) (st p5 (hp p5 (by simp)))
      (st p6 (hp p6 (by simp))) hns
  · intro p1 p2 more hr hp
    subst hr
    rw [hmsg]
    exact decode_payload_tokens_DeleteOrder t1 t2 t3 t4 p1 p2 more _ _ _ _ _ _
      e1 e2 e3 e4 (st p1 (hp p1 (by simp))) (st p2 (hp p2 (by simp))) hns
  · intro p1 p2 p3 more hr hp
    subst hr
    rw [hmsg]
    exact decode_payload_tokens_ModifyOrderQuantity t1 t2 t3 t4 p1 p2 p3 more _ _ _ _ _ _ _
      e1 e2 e3 e4 (st p1 (hp p1 (by simp))) (st p2 (hp p2 (by simp)))
      (st p3 (hp p3 (by simp))) hns
  · intro p1 p2 p3 p4 p5 more hr hp
    subst hr
    rw [hmsg]
    exact decode_payload_tokens_Trade t1 t2 t3 t4 p1 p2 p3 p4 p5 more _ _ _ _ _ _ _ _ _
      e1 e2 e3 e4 (st p1 (hp p1 (by simp))) (st p2 (hp p2 (by simp)))
      (st p3 (hp p3 (by simp))) (st p4 (hp p4 (by simp))) (st p5 (hp p5 (by simp))) hns
  · intro p1 p2 p3 more hr hp
    subst hr
    rw [hmsg]
    exact decode_payload_tokens_OrderResponse t1 t2 t3 t4 p1 p2 p3 more _ _ _ _ _ _ _
      e1 e2 e3 e4 (st p1 (hp p1 (by simp))) (st p2 (hp p2 (by simp)))
      (st p3 (hp p3 (by simp))) hns

set_option maxRecDepth 100000 in
/-- Witness for C20: the frame `9 70000 0 0 1 2` decodes to the header of
version 9 and payload size `70000 mod 2^16`, and as a DeleteOrder of order
id 2. -/
theorem C20_decoder_accepts_digit_tokens_witness :
    (decode_header "9 70000 0 0 1 2".toList = .ok ⟨9, 4464, 0, 0⟩ ∧
      DeleteOrder.decode_payload "9 70000 0 0 1 2".toList = .ok ⟨1, 2⟩) :=
  ⟨(C20_decoder_accepts_digit_tokens "9 70000 0 0 1 2".toList "9".toList "70000".toList
      "0".toList "0".toList ["1".toList, "2".toList] (by decide) (by decide)).1,
   (C20_decoder_accepts_digit_tokens "9 70000 0 0 1 2".toList "9".toList "70000".toList
      "0".toList "0".toList ["1".toList, "2".toList] (by decide) (by decide)).2.2.1
      "1".toList "2".toList [] rfl (by decide)⟩

/-- C21: for every frame whose tokens are decimal numerals of value
`v < 2^64`, the decoded `version`, `payloadSize` and `messageType` equal
`v mod 2^16`, `sequenceNumber` equals `v mod 2^32`, the 64-bit fields
(`timestamp`, ids, quantities, prices) equal `v`, and `NewOrder.side` is the
character of code `v mod 2^8`, so that the tokens 66 and 322 both decode to
`B` and 83 to `S`. Each field takes the token at its position in the
declaration order of the shape; for Trade the fourth payload token goes to
`tradeQuantity` and the fifth to `tradePrice`. -/
theorem C21_narrowing_by_truncation (msg : Message) (t1 t2 t3 t4 : Message)
    (rest : List Message) (hsplit : splitSp msg = t1 :: t2 :: t3 :: t4 :: rest)
    (hhead : ∀ t ∈ [t1, t2, t3, t4], digit_token t) :
    (∃ h, decode_header msg = .ok h ∧
      h.version = digitsValue t1 % 2 ^ 16 ∧ h.payloadSize = digitsValue t2 % 2 ^ 16 ∧
      h.sequenceNumber = digitsValue t3 % 2 ^ 32 ∧ h.timestamp = digitsValue t4) ∧
    (∀ p1 p2 p3 p4 p5 p6 more, rest = p1 :: p2 :: p3 :: p4 :: p5 :: p6 :: more →
      (∀ t ∈ [p1, p2, p3, p4, p5, p6], digit_token t) →
      ∃ p, NewOrder.decode_payload msg = .ok p ∧
        p.messageType = digitsValue p1 % 2 ^ 16 ∧ p.listingId = digitsValue p2 ∧
        p.orderId = digitsValue p3 ∧ p.orderQuantity = digitsValue p4 ∧
        p.orderPrice = digitsValue p5 ∧ p.side = digitsValue p6 % 2 ^ 8 ∧
        (digitsValue p6 = 66 ∨ digitsValue p6 = 322 → p.side = sideB) ∧
        (digitsValue p6 = 83 → p.side = sideS)) ∧
    (∀ p1 p2 more, rest = p1 :: p2 :: more → (∀ t ∈ [p1, p2], digit_token t) →
      ∃ p, DeleteOrder.decode_payload msg = .ok p ∧
        p.messageType = digitsValue p1 % 2 ^ 16 ∧ p.orderId = digitsValue p2) ∧
    (∀ p1 p2 p3 more, rest = p1 :: p2 :: p3 :: more →
      (∀ t ∈ [p1, p2, p3], digit_token t) →
      ∃ p, ModifyOrderQuantity.decode_payload msg = .ok p ∧
        p.messageType = digitsValue p1 % 2 ^ 16 ∧ p.orderId = digitsValue p2 ∧
        p.newQuantity = digitsValue p3) ∧
    (∀ p1 p2 p3 p4 p5 more, rest = p1 :: p2 :: p3 :: p4 :: p5 :: more →
      (∀ t ∈ [p1, p2, p3, p4, p5], digit_token t) →
      ∃ p, Trade.decode_payload msg = .ok p ∧
        p.messageType = digitsValue p1 % 2 ^ 16 ∧ p.listingId = digitsValue p2 ∧
        p.tradeId = digitsValue p3 ∧ p.tradeQuantity = digitsValue p4 ∧
        p.tradePrice = digitsValue p5) := by
  have hmsg : msg = joinSp (t1 :: t2 :: t3 :: t4 :: rest) := by
    rw [← hsplit, joinSp_splitSp]
  have hns : ∀ t ∈ t1 :: t2 :: t3 :: t4 :: rest, ∀ c ∈ t, c ≠ ' ' := by
    rw [← hsplit]
    exact splitSp_no_space msg
  have st : ∀ t, digit_token t → stoull t = .ok (digitsValue t) :=
    fun t h => stoull_digits t h.1 h.2.1 h.2.2
  have lt : ∀ t, digit_token t → digitsValue t % 2 ^ 64 = digitsValue t :=
    fun t h => Nat.mod_eq_of_lt h.2.2
  have e1 := st t1 (hhead t1 (by simp))
  have e2 := st t2 (hhead t2 (by simp))
  have e3 := st t3 (hhead t3 (by simp))
  have e4 := st t4 (hhead t4 (by simp))
  refine ⟨?_, ?_, ?_, ?_, ?_⟩
  · refine ⟨⟨digitsValue t1 % 2 ^ 16, digitsValue t2 % 2 ^ 16, digitsValue t3 % 2 ^ 32,
      digitsValue t4 % 2 ^ 64⟩, ?_, rfl, rfl, rfl, ?_⟩
    · rw [hmsg]
      exact decode_header_tokens t1 t2 t3 t4 rest _ _ _ _ e1 e2 e3 e4 hns
    · exact lt t4 (hhead t4 (by simp))
  · intro p1 p2 p3 p4 p5 p6 more hr hp
    subst hr
    refine ⟨⟨digitsValue p1 % 2 ^ 16, digitsValue p2 % 2 ^ 64, digitsValue p3 % 2 ^ 64,
      digitsValue p4 % 2 ^ 64, digitsValue p5 % 2 ^ 64, digitsValue p6 % 2 ^ 8⟩,
      ?_, rfl, lt p2 (hp p2 (by simp)), lt p3 (hp p3 (by simp)),
      lt p4 (hp p4 (by simp)), lt p5 (hp p5 (by simp)), rfl, ?_, ?_⟩
    · rw [hmsg]
      exact decode_payload_tokens_NewOrder t1 t2 t3 t4 p1 p2 p3 p4 p5 p6 more
        _ _ _ _ _ _ _ _ _ _
        e1 e2 e3 e4 (st p1 (hp p1 (by simp))) (st p2 (hp p2 (by simp)))
        (st p3 (hp p3 (by simp))) (st p4 (hp p4 (by simp))) (st p5 (hp p5 (by simp)))
        (st p6 (hp p6 (by simp))) hns
    · rintro (h | h) <;> simp only [h] <;> rfl
    · intro h
      simp only [h]
      rfl
  · intro p1 p2 more hr hp
    subst hr
    refine ⟨⟨digitsValue p1 % 2 ^ 16, digitsValue p2 % 2 ^ 64⟩, ?_, rfl,
      lt p2 (hp p2 (by simp))⟩
    rw [hmsg]
    exact decode_payload_tokens_DeleteOrder t1 t2 t3 t4 p1 p2 more _ _ _ _ _ _
      e1 e2 e3 e4 (st p1 (hp p1 (by simp))) (st p2 (hp p2 (by simp))) hns
  · intro p1 p2 p3 more hr hp
    subst hr
    refine ⟨⟨digitsValue p1 % 2 ^ 16, digitsValue p2 % 2 ^ 64, digitsValue p3 % 2 ^ 64⟩,
      ?_, rfl, lt p2 (hp p2 (by simp)), lt p3 (hp p3 (by simp))⟩
    rw [hmsg]
    exact decode_payload_tokens_ModifyOrderQuantity t1 t2 t3 t4 p1 p2 p3 more _ _ _ _ _ _ _
      e1 e2 e3 e4 (st p1 (hp p1 (by simp))) (st p2 (hp p2 (by simp)))
      (st p3 (hp p3 (by simp))) hns
  · intro p1 p2 p3 p4 p5 more hr hp
    subst hr
    refine ⟨{ messageType := digitsValue p1 % 2 ^ 16, listingId := digitsValue p2 % 2 ^ 64,
              tradeId := digitsValue p3 % 2 ^ 64, tradeQuantity := digitsValue p4 % 2 ^ 64,
              tradePrice := digitsValue p5 % 2 ^ 64 },
      ?_, rfl, lt p2 (hp p2 (by simp)), lt p3 (hp p3 (by simp)),
      lt p4 (hp p4 (by simp)), lt p5 (hp p5 (by simp))⟩
    rw [hmsg]
    exact decode_payload_tokens_Trade t1 t2 t3 t4 p1 p2 p3 p4 p5 more _ _ _ _ _ _ _ _ _
      e1 e2 e3 e4 (st p1 (hp p1 (by simp))) (st p2 (hp p2 (by simp)))
      (st p3 (hp p3 (by simp))) (st p4 (hp p4 (by simp))) (st p5 (hp p5 (by simp))) hns

set_option maxRecDepth 100000 in
/-- Witness for C21: in the frame `65537 65584 4294967297 7 1 1 1 10 1 322`
the version token 65537 decodes to 1 and the side token 322 to `B`. -/
theorem C21_narrowing_by_truncation_witness :
    (∃ p, NewOrder.decode_payload "65537 65584 4294967297 7 1 1 1 10 1 322".toList = .ok p ∧
      p.side = sideB) :=
  match (C21_narrowing_by_truncation "65537 65584 4294967297 7 1 1 1 10 1 322".toList
      "65537".toList "65584".toList "4294967297".toList "7".toList
      ["1".toList, "1".toList, "1".toList, "10".toList, "1".toList, "322".toList]
      (by decide) (by decide)).2.1 "1".toList "1".toList "1".toList "10".toList "1".toList
      "322".toList [] rfl (by decide) with
  | ⟨p, hp, _, _, _, _, _, _, hB, _⟩ => ⟨p, hp, hB (Or.inr (by decide))⟩

/-- C22: for every header `h` and payload `p`, `encode(h, p)` succeeds and
is the frame of the decimal renderings of `version`, `payloadSize`,
`sequenceNumber`, `timestamp` followed by the payload's fields in
declaration order, joined by single spaces, with no leading or trailing
space. Every number is rendered without padding or leading zeros.
`NewOrder.side` is rendered as the code of the character (for a code above
127 where plain `char` is signed, as the negative value of that `char`),
`OrderResponse.status` as `0` for ACCEPTED and `1` for REJECTED. Every frame
`serve_client` sends is `5 24 1 <now> 5 n s` with `n` the order id of the
decoded NewOrder or ModifyOrderQuantity and `s` in {0, 1}. -/
theorem C22_wire_layout (h : Header) :
    (∀ (charSigned : Bool) (p : NewOrder),
      ∃ msg, encode h (NewOrder.encode charSigned p) = .ok msg ∧
        frame_of [to_string h.version, to_string h.payloadSize, to_string h.sequenceNumber,
          to_string h.timestamp, to_string p.messageType, to_string p.listingId,
          to_string p.orderId, to_string p.orderQuantity, to_string p.orderPrice,
          to_string_char charSigned p.side] msg) ∧
    (∀ p : DeleteOrder,
      ∃ msg, encode h (DeleteOrder.encode p) = .ok msg ∧
        frame_of [to_string h.version, to_string h.payloadSize, to_string h.sequenceNumber,
          to_string h.timestamp, to_string p.messageType, to_string p.orderId] msg) ∧
    (∀ p : ModifyOrderQuantity,
      ∃ msg, encode h (ModifyOrderQuantity.encode p) = .ok msg ∧
        frame_of [to_string h.version, to_string h.payloadSize, to_string h.sequenceNumber,
          to_string h.timestamp, to_string p.messageType, to_string p.orderId,
          to_string p.newQuantity] msg) ∧
    (∀ p : Trade,
      ∃ msg, encode h (Trade.encode p) = .ok msg ∧
        frame_of [to_string h.version, to_string h.payloadSize, to_string h.sequenceNumber,
          to_string h.timestamp, to_string p.messageType, to_string p.listingId,
          to_string p.tradeId, to_string p.tradeQuantity, to_string p.tradePrice] msg) ∧
    (∀ p : OrderResponse,
      ∃ msg, encode h (OrderResponse.encode p) = .ok msg ∧
        frame_of [to_string h.version, to_string h.payloadSize, to_string h.sequenceNumber,
          to_string h.timestamp, to_string p.messageType, to_string p.orderId,
          to_string (p.status % 2 ^ 16)] msg) ∧
    (∀ n : Nat, plain_numeral (to_string n) ∧ digitsValue (to_string n) = n) ∧
    (∀ (charSigned : Bool) (c : Nat), charSigned = false ∨ c < 128 →
      to_string_char charSigned c = to_string c) ∧
    (∀ c : Nat, 128 ≤ c → c < 256 → to_string_char true c = '-' :: to_string (256 - c)) ∧
    to_string (ACCEPTED % 2 ^ 16) = ['0'] ∧ to_string (REJECTED % 2 ^ 16) = ['1'] ∧
    (∀ (s t : RiskService) (now : Nat) (msg out : Message) (r : Except Error Bool),
      s.serve_client now msg = (r, t, some out) →
      ∃ n st, (st = 0 ∨ st = 1) ∧
        ((∃ p, NewOrder.decode_payload msg = .ok p ∧ p.orderId = n) ∨
          (∃ p, ModifyOrderQuantity.decode_payload msg = .ok p ∧ p.orderId = n)) ∧
        frame_of [to_string 5, to_string sizeof_OrderResponse, to_string 1,
          to_string (now % 2 ^ 64), to_string 5, to_string n, to_string st] out) := by
  have tok : ∀ ns : List Nat, ∀ t ∈ ns.map to_string, t ≠ [] ∧ ∀ c ∈ t, c ≠ ' ' := by
    intro ns t ht
    obtain ⟨n, _, rfl⟩ := List.mem_map.1 ht
    exact ⟨to_string_ne_nil n, to_string_no_space n⟩
  refine ⟨?_, ?_, ?_, ?_, ?_, ?_, ?_, ?_, rfl, rfl, ?_⟩
  · intro cs p
    refine ⟨_, by rw [encode_eq_NewOrder, encode_frame_eq], ?_⟩
    apply frame_of_joinSp _ (List.cons_ne_nil _ _)
    intro t ht
    have hsplit : t ∈ [h.version, h.payloadSize, h.sequenceNumber, h.timestamp, p.messageType,
        p.listingId, p.orderId, p.orderQuantity, p.orderPrice].map to_string ∨
        t = to_string_char cs p.side := by
      simp only [List.mem_cons, List.mem_singleton, List.not_mem_nil, or_false, List.map] at ht ⊢
      tauto
    rcases hsplit with ht | rfl
    · exact tok _ t ht
    · exact ⟨to_string_char_ne_nil cs p.side, to_string_char_no_space cs p.side⟩
  · intro p
    refine ⟨_, by rw [encode_eq_DeleteOrder, encode_frame_eq], ?_⟩
    exact frame_of_joinSp _ (List.cons_ne_nil _ _)
      (tok [h.version, h.payloadSize, h.sequenceNumber, h.timestamp, p.messageType, p.orderId])
  · intro p
    refine ⟨_, by rw [encode_eq_ModifyOrderQuantity, encode_frame_eq], ?_⟩
    exact frame_of_joinSp _ (List.cons_ne_nil _ _)
      (tok [h.version, h.payloadSize, h.sequenceNumber, h.timestamp, p.messageType, p.orderId,
        p.newQuantity])
  · intro p
    refine ⟨_, by rw [encode_eq_Trade, encode_frame_eq], ?_⟩
    exact frame_of_joinSp _ (List.cons_ne_nil _ _)
      (tok [h.version, h.payloadSize, h.sequenceNumber, h.timestamp, p.messageType, p.listingId,
        p.tradeId, p.tradeQuantity, p.tradePrice])
  · intro p
    refine ⟨_, by rw [encode_eq_OrderResponse, encode_frame_eq], ?_⟩
    exact frame_of_joinSp _ (List.cons_ne_nil _ _)
      (tok [h.version, h.payloadSize, h.sequenceNumber, h.timestamp, p.messageType, p.orderId,
        p.status % 2 ^ 16])
  · intro n
    exact ⟨to_string_plain n, (to_string_spec n).2.2⟩
  · intro cs c hc
    unfold to_string_char
    rw [if_neg]
    rintro ⟨h1, h2⟩
    rcases hc with hc | hc
    · rw [hc] at h1
      exact absurd h1 (by decide)
    · omega
  · intro c h1 h2
    unfold to_string_char to_string_int
    rw [if_pos ⟨rfl, h1⟩, if_pos (by omega)]
    have : ((c : Int) - 256).natAbs = 256 - c := by omega
    rw [this]
  · intro s t now msg out r hs
    obtain ⟨n, st, hst, hp, hout⟩ := serve_client_sent s now msg r t out hs
    refine ⟨n, st, hst, hp, ?_⟩
    rw [hout]
    exact frame_of_joinSp _ (List.cons_ne_nil _ _) (tok [5, 24, 1, now % 2 ^ 64, 5, n, st])

set_option maxRecDepth 100000 in
/-- Witness for C22: the frame sent for the first NewOrder of the test
scenario at time 1000 is `5 24 1 1000 5 1 0`. -/
theorem C22_wire_layout_witness :
    (∃ n st, (st = 0 ∨ st = 1) ∧
      ((∃ p, NewOrder.decode_payload "1 48 1 7 1 1 1 10 1 66".toList = .ok p ∧
          p.orderId = n) ∨
        (∃ p, ModifyOrderQuantity.decode_payload "1 48 1 7 1 1 1 10 1 66".toList = .ok p ∧
          p.orderId = n)) ∧
      frame_of [to_string 5, to_string sizeof_OrderResponse, to_string 1,
        to_string (1000 % 2 ^ 64), to_string 5, to_string n, to_string st]
        "5 24 1 1000 5 1 0".toList) :=
  (C22_wire_layout ⟨1, 48, 1, 7⟩).2.2.2.2.2.2.2.2.2.2 (RiskService.init 20 20)
    ((RiskService.init 20 20).handle_new_order ⟨1, 1, 1, 10, 1, 66⟩).2 1000
    "1 48 1 7 1 1 1 10 1 66".toList "5 24 1 1000 5 1 0".toList (.ok true) (by decide)

set_option maxRecDepth 100000 in
/-- C23 (as stated) fails: in the frame `1x -5 +7 0 2 9z` the tokens `1x`,
`-5`, `+7` and `9z` are not decimal numerals, and `decode_header` and
`decode_payload<DeleteOrder>` succeed on it: `std::stoull` reads `1x` as 1,
`-5` as `2^64 - 5` (payload size 65531 after the cast), `+7` as 7 and `9z`
as 9. -/
theorem C23_counterexample :
    (let msg := "1x -5 +7 0 2 9z".toList
    splitSp msg = ["1x".toList, "-5".toList, "+7".toList, "0".toList, "2".toList,
      "9z".toList] ∧
    (∃ c ∈ "1x".toList, isdigit c = false) ∧ (∃ c ∈ "-5".toList, isdigit c = false) ∧
    (∃ c ∈ "+7".toList, isdigit c = false) ∧ (∃ c ∈ "9z".toList, isdigit c = false) ∧
    stoull "-5".toList = .ok (2 ^ 64 - 5) ∧
    decode_header msg = .ok ⟨1, 65531, 7, 0⟩ ∧
    DeleteOrder.decode_payload msg = .ok ⟨2, 9⟩) := by
  decide

/-- C23 (amended): for every frame in which one of the tokens the decoder
reads does not begin with a decimal numeral (after its leading white space
and at most one sign it is empty or starts with a character that is not a
digit, e.g. the empty token, `x1`, `-` or `+-7`), `decode_header` (four
tokens) and `decode_payload` (ten tokens for NewOrder, six for DeleteOrder,
seven for ModifyOrderQuantity, nine for Trade) fail. -/
theorem C23_tokens_without_numeral_rejected (msg : Message) :
    ((∃ t ∈ (splitSp msg).take 4, lacks_numeral t = true) →
      ∃ e, decode_header msg = .error e) ∧
    ((∃ t ∈ (splitSp msg).take 10, lacks_numeral t = true) →
      ∃ e, NewOrder.decode_payload msg = .error e) ∧
    ((∃ t ∈ (splitSp msg).take 6, lacks_numeral t = true) →
      ∃ e, DeleteOrder.decode_payload msg = .error e) ∧
    ((∃ t ∈ (splitSp msg).take 7, lacks_numeral t = true) →
      ∃ e, ModifyOrderQuantity.decode_payload msg = .error e) ∧
    ((∃ t ∈ (splitSp msg).take 9, lacks_numeral t = true) →
      ∃ e, Trade.decode_payload msg = .error e) := by
  refine ⟨?_, ?_, ?_, ?_, ?_⟩
  · intro h
    obtain ⟨e, he⟩ := parse_many_bad msg 4 h
    exact ⟨e, by rw [decode_header_parse_many, he]⟩
  · intro h
    obtain ⟨e, he⟩ := parse_many_bad msg 10 h
    exact ⟨e, by rw [decode_payload_parse_many_NewOrder, he]⟩
  · intro h
    obtain ⟨e, he⟩ := parse_many_bad msg 6 h
    exact ⟨e, by rw [decode_payload_parse_many_DeleteOrder, he]⟩
  · intro h
    obtain ⟨e, he⟩ := parse_many_bad msg 7 h
    exact ⟨e, by rw [decode_payload_parse_many_ModifyOrderQuantity, he]⟩
  · intro h
    obtain ⟨e, he⟩ := parse_many_bad msg 9 h
    exact ⟨e, by rw [decode_payload_parse_many_Trade, he]⟩

set_option maxRecDepth 100000 in
/-- Witness for C23: in the frame `2 16 x1 0 2 9` the third token starts
with a letter, and in `2 16 1  0 2 9` the fourth token is empty. -/
theorem C23_tokens_without_numeral_rejected_witness :
    ((∃ e, decode_header "2 16 x1 0 2 9".toList = .error e) ∧
      ∃ e, DeleteOrder.decode_payload "2 16 1  0 2 9".toList = .error e) :=
  ⟨(C23_tokens_without_numeral_rejected "2 16 x1 0 2 9".toList).1
      ⟨"x1".toList, by decide, by decide⟩,
   (C23_tokens_without_numeral_rejected "2 16 1  0 2 9".toList).2.2.1
      ⟨[], by decide, by decide⟩⟩

/-- C24: for every state and every handler call (`handle_new_order`,
`handle_modify_order`, `handle_delete_order`, `handle_trade`, whatever the
outcome), every `listing_id` that has an entry in the instrument-state
mapping before the call still has one after it; hence also after every
sequence of calls. -/
theorem C24_instrument_entries_persist (s : RiskService) (l : Nat)
    (h : s.instrument_state_.contains l = true) :
    (∀ m : NewOrder, (s.handle_new_order m).2.instrument_state_.contains l = true) ∧
    (∀ m : ModifyOrderQuantity,
      (s.handle_modify_order m).2.instrument_state_.contains l = true) ∧
    (∀ m : DeleteOrder, (s.handle_delete_order m).instrument_state_.contains l = true) ∧
    (∀ m : Trade, (s.handle_trade m).instrument_state_.contains l = true) ∧
    (∀ cs : List Call, (s.run cs).instrument_state_.contains l = true) := by
  have hc : ∀ t : RiskService, t.instrument_state_.contains l = true ↔
      t.instrument_state_.find l ≠ none := by
    intro t
    unfold Map.contains
    cases t.instrument_state_.find l <;> simp
  have h0 := (hc s).1 h
  refine ⟨?_, ?_, ?_, ?_, ?_⟩
  · intro m
    exact (hc _).2 (instrument_entry_step s (.new_order m) l h0)
  · intro m
    exact (hc _).2 (instrument_entry_step s (.modify_order m) l h0)
  · intro m
    exact (hc _).2 (instrument_entry_step s (.delete_order m) l h0)
  · intro m
    exact (hc _).2 (instrument_entry_step s (.trade m) l h0)
  · intro cs
    apply (hc _).2
    induction cs generalizing s with
    | nil => exact h0
    | cons c cs ih =>
      have h1 := instrument_entry_step s c l h0
      exact ih (s.step c) ((hc _).2 h1) h1

set_option maxRecDepth 100000 in
/-- Witness for C24: listing 1 has an entry after a first order and keeps it
when that order is deleted. -/
theorem C24_instrument_entries_persist_witness :
    ((((RiskService.init 20 20).handle_new_order ⟨1, 1, 1, 10, 1, sideB⟩).2.handle_delete_order
        ⟨2, 1⟩).instrument_state_.contains 1 = true) :=
  (C24_instrument_entries_persist
    ((RiskService.init 20 20).handle_new_order ⟨1, 1, 1, 10, 1, sideB⟩).2 1
    (by decide)).2.2.1 ⟨2, 1⟩

/-- C25: for every sequence of handler calls from the empty engine (trades
included) in which no `handle_new_order` call carries an `order_id` that is
in the order book at that moment, after every call (after the first `k`
calls, for every `k`) and for every listing, `buy_qty` is below `2^64` and
congruent modulo `2^64` to the sum of the quantities of the live `B` orders
on that listing, and `sell_qty` to the sum of the live `S` orders; they are
equal whenever that sum is below `2^64`. The entry a trade on an unknown id
inserts in the order book is `(listing 0, quantity 0, side NUL)` and counts
for neither side of any listing. -/
theorem C25_aggregates_under_fresh_ids (max_buy max_sell : Nat) (cs : List Call)
    (hfresh : (RiskService.init max_buy max_sell).fresh_ids cs = true) (k l : Nat) :
    (((RiskService.init max_buy max_sell).run (cs.take k)).instrument_state_.get l).buy_qty
        < 2 ^ 64 ∧
    (((RiskService.init max_buy max_sell).run (cs.take k)).instrument_state_.get l).buy_qty
        % 2 ^ 64 =
      live_qty sideB l ((RiskService.init max_buy max_sell).run (cs.take k)).orders_
        % 2 ^ 64 ∧
    (live_qty sideB l ((RiskService.init max_buy max_sell).run (cs.take k)).orders_ < 2 ^ 64 →
      (((RiskService.init max_buy max_sell).run (cs.take k)).instrument_state_.get l).buy_qty =
        live_qty sideB l ((RiskService.init max_buy max_sell).run (cs.take k)).orders_) ∧
    (((RiskService.init max_buy max_sell).run (cs.take k)).instrument_state_.get l).sell_qty
        < 2 ^ 64 ∧
    (((RiskService.init max_buy max_sell).run (cs.take k)).instrument_state_.get l).sell_qty
        % 2 ^ 64 =
      live_qty sideS l ((RiskService.init max_buy max_sell).run (cs.take k)).orders_
        % 2 ^ 64 ∧
    (live_qty sideS l ((RiskService.init max_buy max_sell).run (cs.take k)).orders_ < 2 ^ 64 →
      (((RiskService.init max_buy max_sell).run (cs.take k)).instrument_state_.get l).sell_qty =
        live_qty sideS l ((RiskService.init max_buy max_sell).run (cs.take k)).orders_) ∧
    (∀ (s : RiskService) (m : Trade), s.orders_.find m.tradeId = none →
      (s.handle_trade m).orders_.find m.tradeId = some ⟨0, 0, 0⟩ ∧
      ∀ side listing, side = sideB ∨ side = sideS →
        Order.contrib side listing ⟨0, 0, 0⟩ = 0 ∧
        live_qty side listing (s.handle_trade m).orders_ = live_qty side listing s.orders_) := by
  have hinv := AggInv_run (cs.take k) _ (AggInv_init max_buy max_sell)
    (fresh_ids_take cs _ k hfresh)
  have hB := hinv sideB (Or.inl rfl) l
  have hS := hinv sideS (Or.inr rfl) l
  generalize (RiskService.init max_buy max_sell).run (cs.take k) = t at hB hS ⊢
  have eB : (t.instrument_state_.get l).qty sideB = (t.instrument_state_.get l).buy_qty := rfl
  have eS : (t.instrument_state_.get l).qty sideS = (t.instrument_state_.get l).sell_qty := rfl
  rw [eB] at hB
  rw [eS] at hS
  refine ⟨?_, ?_, ?_, ?_, ?_, ?_, ?_⟩
  · omega
  · omega
  · intro h; omega
  · omega
  · omega
  · intro h; omega
  · intro s m hnone
    have hget : s.orders_.get m.tradeId = ⟨0, 0, 0⟩ := by
      unfold Map.get
      rw [hnone]
      rfl
    refine ⟨?_, ?_⟩
    · rw [handle_trade_state]
      simp only [Map.find_touch, if_true, hget]
    · intro side listing hside
      have hc : Order.contrib side listing ⟨0, 0, 0⟩ = 0 := by
        unfold Order.contrib
        split_ifs <;> rfl
      refine ⟨hc, ?_⟩
      rw [handle_trade_state]
      exact live_qty_touch side listing s.orders_ m.tradeId hside

set_option maxRecDepth 100000 in
/-- Witness for C25: the six calls of the test scenario with the trade on
the unknown id 7, after the first five of them, on listing 2. -/
theorem C25_aggregates_under_fresh_ids_witness :
    ((((RiskService.init 20 20).run (List.take 5
        [.new_order ⟨1, 1, 1, 10, 1, sideB⟩, .new_order ⟨1, 2, 2, 15, 1, sideS⟩,
          .new_order ⟨1, 2, 3, 4, 1, sideB⟩, .new_order ⟨1, 2, 4, 20, 1, sideB⟩,
          .trade ⟨4, 2, 7, 4, 1⟩, .delete_order ⟨2, 3⟩])).instrument_state_.get 2).buy_qty =
      live_qty sideB 2 ((RiskService.init 20 20).run (List.take 5
        [.new_order ⟨1, 1, 1, 10, 1, sideB⟩, .new_order ⟨1, 2, 2, 15, 1, sideS⟩,
          .new_order ⟨1, 2, 3, 4, 1, sideB⟩, .new_order ⟨1, 2, 4, 20, 1, sideB⟩,
          .trade ⟨4, 2, 7, 4, 1⟩, .delete_order ⟨2, 3⟩])).orders_) :=
  (C25_aggregates_under_fresh_ids 20 20
    [.new_order ⟨1, 1, 1, 10, 1, sideB⟩, .new_order ⟨1, 2, 2, 15, 1, sideS⟩,
      .new_order ⟨1, 2, 3, 4, 1, sideB⟩, .new_order ⟨1, 2, 4, 20, 1, sideB⟩,
      .trade ⟨4, 2, 7, 4, 1⟩, .delete_order ⟨2, 3⟩] (by decide) 5 2).2.2.1 (by decide)

set_option maxRecDepth 100000 in
/-- C26 (as stated) fails: with limits 20, after the accepted buy order 1 of
quantity 10 the accepted call `handle_modify_order(1, 4)` computes
`new_qty - old_qty = 4 - 10` on `uint64_t`, which wraps to `2^64 - 6`; the
sum of the limit test and the update of `buy_qty` wrap as well (back to 4). -/
theorem C26_counterexample :
    (let s := (RiskService.init 20 20).run [.new_order ⟨1, 1, 1, 10, 1, sideB⟩]
    let m : ModifyOrderQuantity := ⟨3, 1, 4⟩
    s.orders_.find 1 = some ⟨1, 10, sideB⟩ ∧
    (s.handle_modify_order m).1.status = ACCEPTED ∧
    s.handle_modify_order_ops m =
      [.sub_u64 4 10, .add_i64 0 10, .add_u64 (2 ^ 64 - 6) 10, .sub_u64 4 10,
        .add_u64 10 (2 ^ 64 - 6)] ∧
    (ArithOp.sub_u64 4 10).wraps = true ∧
    (ArithOp.add_u64 (2 ^ 64 - 6) 10).wraps = true ∧
    (ArithOp.add_u64 10 (2 ^ 64 - 6)).wraps = true ∧
    ¬ (∀ op ∈ s.handle_modify_order_ops m, op.wraps = false)) := by
  decide

/-- C26 (amended): for `max_buy_pos`, `max_sell_pos < 2^63` and every
sequence of `handle_new_order`, `handle_modify_order` and
`handle_delete_order` calls (no `handle_trade`; duplicate ids allowed) from
the empty engine whose message quantities are all below `2^63`, after every
call every listing satisfies `buy_qty = worst_buy_pos <= max_buy_pos` and
`sell_qty = worst_sell_pos <= max_sell_pos`, with `buy_qty` / `sell_qty` at
least the sum of the live order quantities of that side. No 64-bit addition
or subtraction of a further such call wraps, except in a
`handle_modify_order` that lowers the quantity of a live order: there
`new_qty - old_qty` wraps, only it and the additions that have it as an
operand wrap, and the sum of the limit test and the updated aggregate are
still the exact integers `new - old + worst_pos` and
`aggregate + new - old`. -/
theorem C26_limit_invariant_no_trade (a b : Nat) (cs : List Call) (s : RiskService)
    (ha : a < 2 ^ 63) (hb : b < 2 ^ 63) (hcs : ∀ c ∈ cs, c.small_no_trade = true)
    (hs : s = (RiskService.init a b).run cs) :
    (∀ l,
      ((s.instrument_state_.get l).buy_qty : Int) = (s.instrument_state_.get l).worst_buy_pos ∧
      (s.instrument_state_.get l).worst_buy_pos ≤ (a : Int) ∧
      ((s.instrument_state_.get l).sell_qty : Int) =
        (s.instrument_state_.get l).worst_sell_pos ∧
      (s.instrument_state_.get l).worst_sell_pos ≤ (b : Int) ∧
      live_qty sideB l s.orders_ ≤ (s.instrument_state_.get l).buy_qty ∧
      live_qty sideS l s.orders_ ≤ (s.instrument_state_.get l).sell_qty) ∧
    (∀ m : NewOrder, m.orderQuantity < 2 ^ 63 →
      ∀ op ∈ s.handle_new_order_ops m, op.wraps = false) ∧
    (∀ m : DeleteOrder, ∀ op ∈ s.handle_delete_order_ops m, op.wraps = false) ∧
    (∀ (m : ModifyOrderQuantity) (o : Order), m.newQuantity < 2 ^ 63 →
      s.orders_.find m.orderId = some o → o.quantity ≤ m.newQuantity →
      ∀ op ∈ s.handle_modify_order_ops m, op.wraps = false) ∧
    (∀ (m : ModifyOrderQuantity) (o : Order), m.newQuantity < 2 ^ 63 →
      s.orders_.find m.orderId = some o → m.newQuantity < o.quantity →
      (o.side = sideB ∨ o.side = sideS →
        ArithOp.sub_u64 m.newQuantity o.quantity ∈ s.handle_modify_order_ops m ∧
        (ArithOp.sub_u64 m.newQuantity o.quantity).wraps = true) ∧
      (∀ op ∈ s.handle_modify_order_ops m, op.wraps = true →
        op = .sub_u64 m.newQuantity o.quantity ∨
        ∃ x, op = .add_u64 (subU64 m.newQuantity o.quantity) x ∨
          op = .add_u64 x (subU64 m.newQuantity o.quantity)) ∧
      (o.side = sideB →
        (((subU64 m.newQuantity o.quantity +
            toU64 (s.instrument_state_.get o.listing_id).worst_buy_pos) % 2 ^ 64 : Nat) : Int) =
          (m.newQuantity : Int) - o.quantity +
            (s.instrument_state_.get o.listing_id).worst_buy_pos ∧
        ((addU64 (s.instrument_state_.get o.listing_id).buy_qty
            (subU64 m.newQuantity o.quantity) : Nat) : Int) =
          ((s.instrument_state_.get o.listing_id).buy_qty : Int) + m.newQuantity -
            o.quantity) ∧
      (o.side = sideS →
        (((subU64 m.newQuantity o.quantity +
            toU64 (s.instrument_state_.get o.listing_id).worst_sell_pos) % 2 ^ 64 : Nat) : Int) =
          (m.newQuantity : Int) - o.quantity +
            (s.instrument_state_.get o.listing_id).worst_sell_pos ∧
        ((addU64 (s.instrument_state_.get o.listing_id).sell_qty
            (subU64 m.newQuantity o.quantity) : Nat) : Int) =
          ((s.instrument_state_.get o.listing_id).sell_qty : Int) + m.newQuantity -
            o.quantity)) := by
  have hlim := LimInv_run cs (RiskService.init a b) (LimInv_init a b) hcs
  have hmax := max_buy_pos_run cs (RiskService.init a b)
  rw [← hs] at hlim hmax
  have hma : s.max_buy_pos_ = a := hmax.1
  have hmb : s.max_sell_pos_ = b := hmax.2
  have hbd := LimInv_bounds s hlim (by rw [hma]; exact ha) (by rw [hmb]; exact hb)
  -- worst positions
  have hwb : ∀ l, (s.instrument_state_.get l).worst_buy_pos =
      ((s.instrument_state_.get l).buy_qty : Int) := by
    intro l
    obtain ⟨h0, h1, _⟩ := hbd l
    rw [worst_buy_pos_of_net_zero _ h0, toI64_of_lt _ (by omega)]
  have hws : ∀ l, (s.instrument_state_.get l).worst_sell_pos =
      ((s.instrument_state_.get l).sell_qty : Int) := by
    intro l
    obtain ⟨h0, _, h1, _⟩ := hbd l
    rw [worst_sell_pos_of_net_zero _ h0, toI64_of_lt _ (by omega)]
  have hub : ∀ l, toU64 (s.instrument_state_.get l).worst_buy_pos =
      (s.instrument_state_.get l).buy_qty := by
    intro l
    obtain ⟨_, h1, _⟩ := hbd l
    rw [hwb, toU64_natCast]
    omega
  have hus : ∀ l, toU64 (s.instrument_state_.get l).worst_sell_pos =
      (s.instrument_state_.get l).sell_qty := by
    intro l
    obtain ⟨_, _, h1, _⟩ := hbd l
    rw [hws, toU64_natCast]
    omega
  have hib : ∀ l, toI64 (s.instrument_state_.get l).buy_qty =
      ((s.instrument_state_.get l).buy_qty : Int) := by
    intro l
    obtain ⟨_, h1, _⟩ := hbd l
    exact toI64_of_lt _ (by omega)
  have his : ∀ l, toI64 (s.instrument_state_.get l).sell_qty =
      ((s.instrument_state_.get l).sell_qty : Int) := by
    intro l
    obtain ⟨_, _, h1, _⟩ := hbd l
    exact toI64_of_lt _ (by omega)
  refine ⟨?_, ?_, ?_, ?_, ?_⟩
  · intro l
    obtain ⟨h0, h1, h2, h3, h4⟩ := hbd l
    rw [hwb, hws]
    refine ⟨rfl, ?_, rfl, ?_, h3, h4⟩
    · omega
    · omega
  · intro m hq op hop
    unfold handle_new_order_ops at hop
    split_ifs at hop with hside
    · exact absurd hop (List.not_mem_nil _)
    · unfold register_new_order_ops at hop
      simp only [Map.get_touch] at hop
      obtain ⟨h0, h1, h2, _⟩ := hbd m.listingId
      split_ifs at hop with hB ht hS ht
      all_goals
        simp only [InstrumentState.worst_buy_pos_ops, InstrumentState.worst_sell_pos_ops,
          List.mem_append, List.mem_cons, List.mem_singleton, List.not_mem_nil, or_false,
          hub, hus, hib, his, h0] at hop
      all_goals try simp only [hub, hus] at ht
      · rcases hop with (rfl | rfl) | rfl <;> simp only [ArithOp.wraps, decide_eq_false_iff_not]
          <;> omega
      · rcases hop with rfl | rfl <;> simp only [ArithOp.wraps, decide_eq_false_iff_not]
          <;> omega
      · rcases hop with (rfl | rfl) | rfl <;> simp only [ArithOp.wraps, decide_eq_false_iff_not]
          <;> omega
      · rcases hop with rfl | rfl <;> simp only [ArithOp.wraps, decide_eq_false_iff_not]
          <;> omega
  · intro m op hop
    unfold handle_delete_order_ops delete_order_ops at hop
    cases ho : s.orders_.find m.orderId with
    | none =>
      rw [ho] at hop
      exact absurd hop (List.not_mem_nil _)
    | some o =>
      rw [ho] at hop
      simp only [Map.get_touch] at hop
      have hq := quantity_le_live_qty s.orders_ m.orderId o ho
      obtain ⟨_, _, _, h3, h4⟩ := hbd o.listing_id
      split_ifs at hop with hB hS
      · rw [hB] at hq
        rw [List.mem_singleton] at hop
        rw [hop]
        simp only [ArithOp.wraps, decide_eq_false_iff_not]
        omega
      · rw [hS] at hq
        rw [List.mem_singleton] at hop
        rw [hop]
        simp only [ArithOp.wraps, decide_eq_false_iff_not]
        omega
      · exact absurd hop (List.not_mem_nil _)
  · intro m o hq ho hle op hop
    unfold handle_modify_order_ops at hop
    rw [ho] at hop
    unfold update_order_quantity_ops at hop
    simp only [Map.get_touch] at hop
    have hold := quantity_le_live_qty s.orders_ m.orderId o ho
    obtain ⟨h0, h1, h2, h3, h4⟩ := hbd o.listing_id
    have hsub : subU64 m.newQuantity o.quantity = m.newQuantity - o.quantity := by
      unfold subU64
      omega
    split_ifs at hop with hB ht hS ht
    all_goals
      simp only [InstrumentState.worst_buy_pos_ops, InstrumentState.worst_sell_pos_ops,
        List.mem_append, List.mem_cons, List.mem_singleton, List.not_mem_nil, or_false,
        hub, hus, hib, his, h0, hsub] at hop
    all_goals try simp only [hub, hus, hsub] at ht
    · rcases hop with ((rfl | rfl) | rfl) | rfl | rfl <;>
        simp only [ArithOp.wraps, decide_eq_false_iff_not] <;> omega
    · rcases hop with (rfl | rfl) | rfl <;>
        simp only [ArithOp.wraps, decide_eq_false_iff_not] <;> omega
    · rcases hop with ((rfl | rfl) | rfl) | rfl | rfl <;>
        simp only [ArithOp.wraps, decide_eq_false_iff_not] <;> omega
    · rcases hop with (rfl | rfl) | rfl <;>
        simp only [ArithOp.wraps, decide_eq_false_iff_not] <;> omega
  · intro m o hq ho hlt
    have hold := quantity_le_live_qty s.orders_ m.orderId o ho
    obtain ⟨h0, h1, h2, h3, h4⟩ := hbd o.listing_id
    refine ⟨?_, ?_, ?_, ?_⟩
    · intro hside
      refine ⟨?_, by simp only [ArithOp.wraps, decide_eq_true_eq]; exact hlt⟩
      unfold handle_modify_order_ops
      rw [ho]
      unfold update_order_quantity_ops
      rcases hside with hB | hS
      · simp only [if_pos hB]
        simp
      · have hB : ¬ o.side = sideB := by rw [hS]; decide
        simp only [if_neg hB, if_pos hS]
        simp
    · intro op hop hw
      unfold handle_modify_order_ops at hop
      rw [ho] at hop
      unfold update_order_quantity_ops at hop
      simp only [Map.get_touch] at hop
      split_ifs at hop with hB ht hS ht
      all_goals
        simp only [InstrumentState.worst_buy_pos_ops, InstrumentState.worst_sell_pos_ops,
          List.mem_append, List.mem_cons, List.mem_singleton, List.not_mem_nil, or_false,
          hib, his, h0] at hop
      · rcases hop with ((rfl | rfl) | rfl) | rfl | rfl
        · exact Or.inl rfl
        · simp only [ArithOp.wraps, decide_eq_true_eq] at hw
          omega
        · exact Or.inr ⟨_, Or.inl rfl⟩
        · exact Or.inl rfl
        · exact Or.inr ⟨_, Or.inr rfl⟩
      · rcases hop with (rfl | rfl) | rfl
        · exact Or.inl rfl
        · simp only [ArithOp.wraps, decide_eq_true_eq] at hw
          omega
        · exact Or.inr ⟨_, Or.inl rfl⟩
      · rcases hop with ((rfl | rfl) | rfl) | rfl | rfl
        · exact Or.inl rfl
        · simp only [ArithOp.wraps, decide_eq_true_eq] at hw
          omega
        · exact Or.inr ⟨_, Or.inl rfl⟩
        · exact Or.inl rfl
        · exact Or.inr ⟨_, Or.inr rfl⟩
      · rcases hop with (rfl | rfl) | rfl
        · exact Or.inl rfl
        · simp only [ArithOp.wraps, decide_eq_true_eq] at hw
          omega
        · exact Or.inr ⟨_, Or.inl rfl⟩
    · intro hB
      rw [hB] at hold
      rw [hub, hwb]
      unfold addU64 subU64
      constructor <;> omega
    · intro hS
      rw [hS] at hold
      rw [hus, hws]
      unfold addU64 subU64
      constructor <;> omega

set_option maxRecDepth 100000 in
/-- Witness for C26: limits 20, the buy order 1 of quantity 10 on listing 1
followed by its modification to 15; afterwards listing 1 has
`buy_qty = worst_buy_pos <= 20`, and no operation of a further new order of
quantity 5 wraps. -/
theorem C26_limit_invariant_no_trade_witness :
    (((((RiskService.init 20 20).run [.new_order ⟨1, 1, 1, 10, 1, sideB⟩,
        .modify_order ⟨3, 1, 15⟩]).instrument_state_.get 1).buy_qty : Int) =
      (((RiskService.init 20 20).run [.new_order ⟨1, 1, 1, 10, 1, sideB⟩,
        .modify_order ⟨3, 1, 15⟩]).instrument_state_.get 1).worst_buy_pos ∧
      ∀ op ∈ ((RiskService.init 20 20).run [.new_order ⟨1, 1, 1, 10, 1, sideB⟩,
        .modify_order ⟨3, 1, 15⟩]).handle_new_order_ops ⟨1, 1, 2, 5, 1, sideB⟩,
        op.wraps = false) :=
  ⟨((C26_limit_invariant_no_trade 20 20
      [.new_order ⟨1, 1, 1, 10, 1, sideB⟩, .modify_order ⟨3, 1, 15⟩] _ (by decide) (by decide)
      (by
        intro c hc
        simp only [List.mem_cons, List.mem_singleton, List.not_mem_nil, or_false] at hc
        rcases hc with rfl | rfl <;> decide)
      rfl).1 1).1,
   (C26_limit_invariant_no_trade 20 20
      [.new_order ⟨1, 1, 1, 10, 1, sideB⟩, .modify_order ⟨3, 1, 15⟩] _ (by decide) (by decide)
      (by
        intro c hc
        simp only [List.mem_cons, List.mem_singleton, List.not_mem_nil, or_false] at hc
        rcases hc with rfl | rfl <;> decide)
      rfl).2.1 ⟨1, 1, 2, 5, 1, sideB⟩ (by decide)⟩

/-- C27: for every state `S` (its aggregates being 64-bit values) in which
`id` is not in the order book and every NewOrder `m` with `m.order_id = id`
that `handle_new_order` accepts in `S`, calling `handle_delete_order(id)`
afterwards yields the order book of `S` and, for every listing, the
`net_pos`, `buy_qty` and `sell_qty` of `S`, a listing without an entry
counting as all zeros. -/
theorem C27_delete_undoes_new_order (s : RiskService) (m : NewOrder) (d : DeleteOrder)
    (hid : d.orderId = m.orderId) (hnew : s.orders_.find m.orderId = none)
    (hb : (s.instrument_state_.get m.listingId).buy_qty < 2 ^ 64)
    (hs : (s.instrument_state_.get m.listingId).sell_qty < 2 ^ 64)
    (hacc : (s.handle_new_order m).1.status = ACCEPTED) :
    ((s.handle_new_order m).2.handle_delete_order d).orders_ = s.orders_ ∧
    ∀ l, ((s.handle_new_order m).2.handle_delete_order d).instrument_state_.get l =
      s.instrument_state_.get l := by
  have ha := (handle_new_order_accepted_iff s m).1 hacc
  have hside := side_of_accepts_new s _ ha
  simp only at hside
  unfold handle_delete_order
  rw [hid, handle_new_order_state, if_pos ha]
  have hfind : ({ s with
      orders_ := s.orders_.insert m.orderId ⟨m.listingId, m.orderQuantity, m.side⟩
      instrument_state_ := (s.instrument_state_.touch m.listingId).insert m.listingId
        (count_order ⟨m.listingId, m.orderQuantity, m.side⟩
          (s.instrument_state_.get m.listingId)) } : RiskService).orders_.find m.orderId =
      some ⟨m.listingId, m.orderQuantity, m.side⟩ := by
    simp only [Map.find_insert, if_true]
  rw [delete_order_state _ _ _ hfind]
  simp only
  rw [if_pos hside]
  refine ⟨Map.erase_insert_of_not_mem _ _ _ hnew, ?_⟩
  intro l
  rw [get_touch_insert]
  by_cases hl : l = m.listingId
  · rw [if_pos hl, get_touch_insert, if_pos rfl, hl]
    unfold uncount_order count_order
    rcases hside with hB | hS
    · simp only [if_pos hB, addU64, subU64]
      have e : (((s.instrument_state_.get m.listingId).buy_qty + m.orderQuantity) % 2 ^ 64 +
          (2 ^ 64 - m.orderQuantity % 2 ^ 64)) % 2 ^ 64 =
          (s.instrument_state_.get m.listingId).buy_qty := by omega
      rw [e]
    · have hB : ¬ m.side = sideB := by rw [hS]; decide
      simp only [if_neg hB, if_pos hS, addU64, subU64]
      have e : (((s.instrument_state_.get m.listingId).sell_qty + m.orderQuantity) % 2 ^ 64 +
          (2 ^ 64 - m.orderQuantity % 2 ^ 64)) % 2 ^ 64 =
          (s.instrument_state_.get m.listingId).sell_qty := by omega
      rw [e]
  · rw [if_neg hl, get_touch_insert, if_neg hl]

set_option maxRecDepth 100000 in
/-- Witness for C27: with limits 20 and a live sell order 2 on listing 2, the
buy order 3 of quantity 4 on listing 2 is accepted and then deleted. -/
theorem C27_delete_undoes_new_order_witness :
    (((((RiskService.init 20 20).handle_new_order ⟨1, 2, 2, 15, 1, sideS⟩).2.handle_new_order
        ⟨1, 2, 3, 4, 1, sideB⟩).2.handle_delete_order ⟨2, 3⟩).orders_ =
      ((RiskService.init 20 20).handle_new_order ⟨1, 2, 2, 15, 1, sideS⟩).2.orders_) :=
  (C27_delete_undoes_new_order
    ((RiskService.init 20 20).handle_new_order ⟨1, 2, 2, 15, 1, sideS⟩).2
    ⟨1, 2, 3, 4, 1, sideB⟩ ⟨2, 3⟩ rfl (by decide) (by decide) (by decide) (by decide)).1

/-- C28: for every state and live order `o` of side `B` or `S` under `id`
whose quantity is at most the aggregate of its side on its listing, with
that aggregate, `|net_pos|` and the new quantity `q` all below `2^62` (and
whatever the limits, below `2^62` or not), `handle_modify_order(id, q)`
returns ACCEPTED if and only if
`handle_delete_order(id)` followed by
`handle_new_order(listing o.listing_id, id, q, side o.side)` returns
ACCEPTED, and when accepted both paths give the same response and end in
the same engine state (order book and instrument states); the `messageType`
fields and the price of the resubmitted order play no part. -/
theorem C28_modify_vs_delete_resubmit (s : RiskService) (m : ModifyOrderQuantity) (o : Order)
    (t1 t2 price : Nat)
    (ho : s.orders_.find m.orderId = some o) (hside : o.side = sideB ∨ o.side = sideS)
    (hle : o.quantity ≤ (s.instrument_state_.get o.listing_id).qty o.side)
    (hagg : (s.instrument_state_.get o.listing_id).qty o.side < 2 ^ 62)
    (hn1 : -(2 ^ 62 : Int) < (s.instrument_state_.get o.listing_id).net_pos)
    (hn2 : (s.instrument_state_.get o.listing_id).net_pos < 2 ^ 62)
    (hq : m.newQuantity < 2 ^ 62) :
    ((s.handle_modify_order m).1.status = ACCEPTED ↔
      ((s.handle_delete_order ⟨t1, m.orderId⟩).handle_new_order
        ⟨t2, o.listing_id, m.orderId, m.newQuantity, price, o.side⟩).1.status = ACCEPTED) ∧
    ((s.handle_modify_order m).1.status = ACCEPTED →
      s.handle_modify_order m =
        (s.handle_delete_order ⟨t1, m.orderId⟩).handle_new_order
          ⟨t2, o.listing_id, m.orderId, m.newQuantity, price, o.side⟩) := by
  -- the state after the delete
  have hdel : s.handle_delete_order ⟨t1, m.orderId⟩ =
      { s with
        orders_ := s.orders_.erase m.orderId
        instrument_state_ := (s.instrument_state_.touch o.listing_id).insert o.listing_id
          (uncount_order o (s.instrument_state_.get o.listing_id)) } := by
    unfold handle_delete_order
    rw [delete_order_state s _ o ho, if_pos hside]
  have hget1 : ((s.handle_delete_order ⟨t1, m.orderId⟩).instrument_state_.get o.listing_id) =
      uncount_order o (s.instrument_state_.get o.listing_id) := by
    rw [hdel, get_touch_insert, if_pos rfl]
  -- the two tests agree
  have hiff : s.accepts_modify o m.newQuantity = true ↔
      (s.handle_delete_order ⟨t1, m.orderId⟩).accepts_new
        ⟨o.listing_id, m.newQuantity, o.side⟩ = true := by
    rw [accepts_modify_iff, accepts_new_iff]
    simp only
    rw [hget1]
    have hmaxb : (s.handle_delete_order ⟨t1, m.orderId⟩).max_buy_pos_ = s.max_buy_pos_ := by
      rw [hdel]
    have hmaxs : (s.handle_delete_order ⟨t1, m.orderId⟩).max_sell_pos_ = s.max_sell_pos_ := by
      rw [hdel]
    rw [hmaxb, hmaxs]
    unfold InstrumentState.qty at hle hagg
    rcases hside with hB | hS
    · have hS : ¬ o.side = sideS := by rw [hB]; decide
      rw [if_pos hB] at hle hagg
      have e1 := worst_buy_pos_eq _ hagg hn1 hn2
      have e2 := modify_sum_eq m.newQuantity o.quantity
        (s.instrument_state_.get o.listing_id).worst_buy_pos (by rw [e1]; omega)
        (by rw [e1]; omega) (by omega)
      have hb1 : (uncount_order o (s.instrument_state_.get o.listing_id)).buy_qty =
          (s.instrument_state_.get o.listing_id).buy_qty - o.quantity := by
        unfold uncount_order
        rw [if_pos hB]
        simp only [subU64]
        omega
      have hnp : (uncount_order o (s.instrument_state_.get o.listing_id)).net_pos =
          (s.instrument_state_.get o.listing_id).net_pos := net_pos_uncount_order _ _
      have e3 := worst_buy_pos_eq (uncount_order o (s.instrument_state_.get o.listing_id))
        (by rw [hb1]; omega) (by rw [hnp]; exact hn1) (by rw [hnp]; exact hn2)
      rw [hb1, hnp] at e3
      have e4 := limit_sum_eq m.newQuantity
        (uncount_order o (s.instrument_state_.get o.listing_id)).worst_buy_pos
        (by rw [e3]; omega) (by rw [e3]; omega)
      constructor
      · rintro (⟨_, h⟩ | ⟨h, _⟩)
        · left
          refine ⟨hB, ?_⟩
          omega
        · exact absurd h hS
      · rintro (⟨_, h⟩ | ⟨h, _⟩)
        · left
          refine ⟨hB, ?_⟩
          omega
        · exact absurd h hS
    · have hB : ¬ o.side = sideB := by rw [hS]; decide
      rw [if_neg hB] at hle hagg
      have e1 := worst_sell_pos_eq _ hagg hn1 hn2
      have e2 := modify_sum_eq m.newQuantity o.quantity
        (s.instrument_state_.get o.listing_id).worst_sell_pos (by rw [e1]; omega)
        (by rw [e1]; omega) (by omega)
      have hb1 : (uncount_order o (s.instrument_state_.get o.listing_id)).sell_qty =
          (s.instrument_state_.get o.listing_id).sell_qty - o.quantity := by
        unfold uncount_order
        rw [if_neg hB, if_pos hS]
        simp only [subU64]
        omega
      have hnp : (uncount_order o (s.instrument_state_.get o.listing_id)).net_pos =
          (s.instrument_state_.get o.listing_id).net_pos := net_pos_uncount_order _ _
      have e3 := worst_sell_pos_eq (uncount_order o (s.instrument_state_.get o.listing_id))
        (by rw [hb1]; omega) (by rw [hnp]; exact hn1) (by rw [hnp]; exact hn2)
      rw [hb1, hnp] at e3
      have e4 := limit_sum_eq m.newQuantity
        (uncount_order o (s.instrument_state_.get o.listing_id)).worst_sell_pos
        (by rw [e3]; omega) (by rw [e3]; omega)
      constructor
      · rintro (⟨h, _⟩ | ⟨_, h⟩)
        · exact absurd h hB
        · right
          refine ⟨hS, ?_⟩
          omega
      · rintro (⟨h, _⟩ | ⟨_, h⟩)
        · exact absurd h hB
        · right
          refine ⟨hS, ?_⟩
          omega
  have hacc_iff := handle_modify_order_accepted_iff s m o ho
  have hnew_iff := handle_new_order_accepted_iff (s.handle_delete_order ⟨t1, m.orderId⟩)
    ⟨t2, o.listing_id, m.orderId, m.newQuantity, price, o.side⟩
  simp only at hnew_iff
  refine ⟨by rw [hacc_iff, hnew_iff]; exact hiff, ?_⟩
  intro hacc
  have ha := hacc_iff.1 hacc
  have hb := hiff.1 ha
  -- responses
  have hr1 : (s.handle_modify_order m).1 = ⟨OrderResponse.MESSAGE_TYPE, m.orderId, ACCEPTED⟩ := by
    have h1 := handle_modify_order_orderId s m
    have h3 : (s.handle_modify_order m).1.messageType = OrderResponse.MESSAGE_TYPE := by
      unfold handle_modify_order
      simp only
      split
      · rfl
      · split <;> rfl
    cases hx : (s.handle_modify_order m).1 with
    | mk a b c =>
      rw [hx] at h1 h3 hacc
      simp only at h1 h3 hacc
      rw [h1, h3, hacc]
  have hr2 := handle_new_order_fst (s.handle_delete_order ⟨t1, m.orderId⟩)
    ⟨t2, o.listing_id, m.orderId, m.newQuantity, price, o.side⟩
  simp only at hr2
  rw [if_pos hb] at hr2
  -- states
  have hs1 := handle_modify_order_state s m o ho
  rw [if_pos ha] at hs1
  have hs2 := handle_new_order_state (s.handle_delete_order ⟨t1, m.orderId⟩)
    ⟨t2, o.listing_id, m.orderId, m.newQuantity, price, o.side⟩
  simp only at hs2
  rw [if_pos hb, hget1] at hs2
  have eo : s.orders_.insert m.orderId { o with quantity := m.newQuantity } =
      (s.handle_delete_order ⟨t1, m.orderId⟩).orders_.insert m.orderId
        ⟨o.listing_id, m.newQuantity, o.side⟩ := by
    rw [hdel]
    apply Map.ext
    intro j
    simp only [Map.find_insert, Map.find_erase]
    by_cases hj : j = m.orderId
    · rw [if_pos hj, if_pos hj]
    · rw [if_neg hj, if_neg hj, if_neg hj]
  have ei : (s.instrument_state_.touch o.listing_id).insert o.listing_id
        (recount_order o.side o.quantity m.newQuantity (s.instrument_state_.get o.listing_id)) =
      ((s.handle_delete_order ⟨t1, m.orderId⟩).instrument_state_.touch o.listing_id).insert
        o.listing_id (count_order ⟨o.listing_id, m.newQuantity, o.side⟩
          (uncount_order o (s.instrument_state_.get o.listing_id))) := by
    have ev : recount_order o.side o.quantity m.newQuantity
          (s.instrument_state_.get o.listing_id) =
        count_order ⟨o.listing_id, m.newQuantity, o.side⟩
          (uncount_order o (s.instrument_state_.get o.listing_id)) := by
      unfold recount_order count_order uncount_order
      unfold InstrumentState.qty at hle hagg
      rcases hside with hB | hS
      · rw [if_pos hB] at hle hagg
        simp only [if_pos hB, addU64, subU64]
        congr 1
        omega
      · have hB : ¬ o.side = sideB := by rw [hS]; decide
        rw [if_neg hB] at hle hagg
        simp only [if_neg hB, if_pos hS, addU64, subU64]
        congr 1
        omega
    rw [hdel, ev]
    apply Map.ext
    intro j
    simp only [Map.find_insert, Map.find_touch]
    by_cases hj : j = o.listing_id
    · rw [if_pos hj, if_pos hj]
    · rw [if_neg hj, if_neg hj, if_neg hj, if_neg hj, if_neg hj]
  have hmb2 : (s.handle_delete_order ⟨t1, m.orderId⟩).max_buy_pos_ = s.max_buy_pos_ := by
    rw [hdel]
  have hms2 : (s.handle_delete_order ⟨t1, m.orderId⟩).max_sell_pos_ = s.max_sell_pos_ := by
    rw [hdel]
  apply Prod.ext
  · rw [hr1, hr2]
  · rw [hs1, hs2, eo, ei, hmb2, hms2]

set_option maxRecDepth 100000 in
/-- Witness for C28: with limits 20 and the live buy order 1 of quantity 10
on listing 1, the modification to quantity 15 is accepted and ends in the
state of the deletion followed by a new order of quantity 15. -/
theorem C28_modify_vs_delete_resubmit_witness :
    (((RiskService.init 20 20).handle_new_order ⟨1, 1, 1, 10, 1, sideB⟩).2.handle_modify_order
        ⟨3, 1, 15⟩ =
      (((RiskService.init 20 20).handle_new_order
        ⟨1, 1, 1, 10, 1, sideB⟩).2.handle_delete_order ⟨2, 1⟩).handle_new_order
          ⟨1, 1, 1, 15, 7, sideB⟩) :=
  (C28_modify_vs_delete_resubmit
    ((RiskService.init 20 20).handle_new_order ⟨1, 1, 1, 10, 1, sideB⟩).2 ⟨3, 1, 15⟩
    ⟨1, 10, sideB⟩ 2 1 7 (by decide) (Or.inl rfl) (by decide) (by decide) (by decide)
    (by decide) (by decide)).2 (by decide)

end

end rs
